import Mathlib

/-!
# EchoMidi: the `audio_effect` post-processing callback

A shallow embedding of `audio_effect` from `EchoMidi_player_v01.c` together with the
global state it works on.

* C `int`, `Sint16`, `Sint32` values are `Int`; a store into a `Sint16` goes through
  `toSint16` (two's complement wrap-around to 16 bits).
* C `float` and `double` values are rationals that lie on the binary32 / binary64 grid:
  every floating-point operation is the exact rational operation followed by
  round-to-nearest-even (`f32`, `f64`).  Overflow to infinity is not modelled; all
  quantities of the program stay far below the largest finite float.
* `sinf` is a function of the C library; it is a parameter of the model.
* The interleaved sample block (an even number of samples) is a list of frames
  `(left, right)`.
-/

namespace EchoMidi

/-! ## Binary floating point -/

/-- Floor of the base 2 logarithm by repeated halving; `fuel` bounds the number of halvings. -/
def log2Fuel : Nat → Nat → Nat
  | 0, _ => 0
  | fuel + 1, n => if n < 2 then 0 else log2Fuel fuel (n / 2) + 1

/-- Floor of the base 2 logarithm of a natural number (0 at 0). -/
def nlog2 (n : Nat) : Nat := log2Fuel n n

/-- The rational `2 ^ e` for an integer exponent. -/
def pow2 (e : Int) : ℚ :=
  if 0 ≤ e then ((2 ^ e.toNat : Nat) : ℚ) else 1 / ((2 ^ (-e).toNat : Nat) : ℚ)

/-- The binary exponent of a nonzero rational: the `e` with `2 ^ e ≤ |x| < 2 ^ (e + 1)`. -/
def ilog2 (x : ℚ) : Int :=
  let e0 : Int := (nlog2 x.num.natAbs : Int) - (nlog2 x.den : Int)
  if |x| < pow2 e0 then e0 - 1 else e0

/-- Round a rational to the nearest integer, ties to the even one. -/
def rne (y : ℚ) : Int :=
  let f := ⌊y⌋
  let r := y - f
  if r < 1 / 2 then f
  else if 1 / 2 < r then f + 1
  else if f % 2 = 0 then f else f + 1

/-- Round to nearest even onto the binary floating-point grid with `p` significand bits
whose smallest positive (subnormal) value is `2 ^ emin`. -/
def roundBin (p : Nat) (emin : Int) (x : ℚ) : ℚ :=
  if x = 0 then 0
  else
    let q := max (ilog2 x - ((p : Int) - 1)) emin
    (rne (x / pow2 q) : ℚ) * pow2 q

/-- Rounding to C `float` (IEEE 754 binary32). -/
def f32 (x : ℚ) : ℚ := roundBin 24 (-149) x

/-- Rounding to C `double` (IEEE 754 binary64). -/
def f64 (x : ℚ) : ℚ := roundBin 53 (-1074) x

/-! ## Integer conversions -/

/-- Conversion of an integer to `float`. -/
def i2f (n : Int) : ℚ := f32 (n : ℚ)

/-- Conversion of a floating-point value to `Sint32`: truncation toward zero. -/
def truncQ (x : ℚ) : Int := if 0 ≤ x then ⌊x⌋ else -⌊-x⌋

/-- Narrowing of an integer to `Sint16`: two's complement wrap-around. -/
def toSint16 (n : Int) : Int := (n + 32768) % 65536 - 32768

/-- Conversion of a floating-point value to `Sint16`. -/
def castSint16 (x : ℚ) : Int := toSint16 (truncQ x)

/-! ## Constants -/

def SAMPLE_RATE : Int := 44100
def ECHO_DELAY : Int := SAMPLE_RATE.tdiv 4
def REVERB_DELAY_1 : Int := SAMPLE_RATE.tdiv 20
def REVERB_DELAY_2 : Int := SAMPLE_RATE.tdiv 10
def REVERB_DELAY_3 : Int := 6610
def REVERB_DELAY_4 : Int := SAMPLE_RATE.tdiv 25
def REVERB_DELAY_5 : Int := SAMPLE_RATE.tdiv 12
def CHORUS_DELAY_1 : Int := SAMPLE_RATE.tdiv 100
def CHORUS_DELAY_2 : Int := 661
def CHORUS_DELAY_3 : Int := SAMPLE_RATE.tdiv 50
def STEREO_DELAY : Int := SAMPLE_RATE.tdiv 200

/-- The `double` constant `M_PI` of `math.h`, `0x400921FB54442D18`. -/
def M_PI : ℚ := 884279719003555 / 281474976710656

/-- The `double` value of the expression `2 * M_PI`. -/
def TWO_PI : ℚ := f64 (2 * M_PI)

/-! ## Engine state -/

/-- All global variables read or written by `audio_effect`. -/
structure Engine where
  echo_buffer : Int → Int
  echo_pos : Int
  reverb_buffer1 : Int → Int
  reverb_buffer2 : Int → Int
  reverb_buffer3 : Int → Int
  reverb_buffer4 : Int → Int
  reverb_buffer5 : Int → Int
  reverb_pos1 : Int
  reverb_pos2 : Int
  reverb_pos3 : Int
  reverb_pos4 : Int
  reverb_pos5 : Int
  chorus_buffer1 : Int → Int
  chorus_buffer2 : Int → Int
  chorus_buffer3 : Int → Int
  chorus_pos1 : Int
  chorus_pos2 : Int
  chorus_pos3 : Int
  stereo_buffer : Int → Int
  stereo_pos : Int
  vibrato_phase : ℚ
  tremolo_phase : ℚ
  chorus_phase1 : ℚ
  chorus_phase2 : ℚ
  chorus_phase3 : ℚ
  reverb_level : ℚ
  reverb_feedback : ℚ
  reverb_damping : ℚ
  chorus_level : ℚ
  chorus_depth : ℚ
  chorus_speed : ℚ
  stereo_width : ℚ
  global_volume : ℚ
  limiter_threshold : ℚ
  limiter_enabled : Int
  reverb_enabled : Bool
  chorus_enabled : Bool
  stereo_enabled : Bool
  vibrato_enabled : Bool
  tremolo_enabled : Bool
  echo_enabled : Bool

/-- The static initialisers of the globals. -/
def init : Engine where
  echo_buffer := fun _ => 0
  echo_pos := 0
  reverb_buffer1 := fun _ => 0
  reverb_buffer2 := fun _ => 0
  reverb_buffer3 := fun _ => 0
  reverb_buffer4 := fun _ => 0
  reverb_buffer5 := fun _ => 0
  reverb_pos1 := 0
  reverb_pos2 := 0
  reverb_pos3 := 0
  reverb_pos4 := 0
  reverb_pos5 := 0
  chorus_buffer1 := fun _ => 0
  chorus_buffer2 := fun _ => 0
  chorus_buffer3 := fun _ => 0
  chorus_pos1 := 0
  chorus_pos2 := 0
  chorus_pos3 := 0
  stereo_buffer := fun _ => 0
  stereo_pos := 0
  vibrato_phase := f32 0
  tremolo_phase := f32 0
  chorus_phase1 := f32 (1 / 2)
  chorus_phase2 := f32 (1 / 2)
  chorus_phase3 := f32 0
  reverb_level := f32 (1 / 2)
  reverb_feedback := f32 (1 / 2)
  reverb_damping := f32 (3 / 5)
  chorus_level := f32 (1 / 2)
  chorus_depth := f32 (7 / 10)
  chorus_speed := f32 3
  stereo_width := f32 (11 / 20)
  global_volume := f32 (13 / 20)
  limiter_threshold := f32 (49 / 50)
  limiter_enabled := 1
  reverb_enabled := true
  chorus_enabled := true
  stereo_enabled := true
  vibrato_enabled := true
  tremolo_enabled := true
  echo_enabled := true

/-- The running per-frame values of the loop body: the state, the volume-scaled dry
samples and the two 32-bit accumulators. -/
structure Acc where
  s : Engine
  left_sample : Int
  right_sample : Int
  mixed_left : Int
  mixed_right : Int

/-- The statement `x += y` for an `Sint32` variable `x` and a `float` value `y`. -/
def addAssign (x : Int) (y : ℚ) : Int := truncQ (f32 (i2f x + y))

/-- The statement `phase += inc; if (phase > 2 * M_PI) phase -= 2 * M_PI;` for a `float`
variable `phase` and a `double` increment. -/
def advancePhase (phase inc : ℚ) : ℚ :=
  let phase1 := f32 (f64 (phase + inc))
  if phase1 > TWO_PI then f32 (f64 (phase1 - TWO_PI)) else phase1

/-- The mono downmix `(left_sample + right_sample) / 2` as stored into a 16-bit cell. -/
def downmix (a : Acc) : Int := toSint16 ((a.left_sample + a.right_sample).tdiv 2)

/-- Volume scaling and initialisation of the accumulators (the head of the loop body). -/
def volumeStage (s : Engine) (inp : Int × Int) : Acc :=
  let left_sample := castSint16 (f32 (i2f inp.1 * s.global_volume))
  let right_sample := castSint16 (f32 (i2f inp.2 * s.global_volume))
  { s := s, left_sample := left_sample, right_sample := right_sample,
    mixed_left := left_sample, mixed_right := right_sample }

/-- The echo block of the loop body. -/
def echoStage (a : Acc) : Acc :=
  if a.s.echo_enabled then
    let tail := f32 (i2f (a.s.echo_buffer a.s.echo_pos) * f32 (3 / 10))
    { a with
      mixed_left := addAssign a.mixed_left tail
      mixed_right := addAssign a.mixed_right tail
      s := { a.s with
        echo_buffer := Function.update a.s.echo_buffer a.s.echo_pos (downmix a)
        echo_pos := (a.s.echo_pos + 1).tmod ECHO_DELAY } }
  else a

/-- The reverb block of the loop body. -/
def reverbStage (a : Acc) : Acc :=
  if a.s.reverb_enabled then
    let s := a.s
    let reverb1 := castSint16 (f32 (i2f (s.reverb_buffer1 s.reverb_pos1) * f32 (1 / 2)))
    let reverb2 := castSint16 (f32 (i2f (s.reverb_buffer2 s.reverb_pos2) * f32 (2 / 5)))
    let reverb3 := castSint16 (f32 (i2f (s.reverb_buffer3 s.reverb_pos3) * f32 (3 / 10)))
    let reverb4 := castSint16 (f32 (f32 (i2f (s.reverb_buffer4 s.reverb_pos4) * f32 (3 / 10))
      * f32 (f32 1 - s.reverb_damping)))
    let reverb5 := castSint16 (f32 (f32 (i2f (s.reverb_buffer5 s.reverb_pos5) * f32 (3 / 20))
      * f32 (f32 1 - s.reverb_damping)))
    let reverb_sum : Int := reverb1 + reverb2 + reverb3 + reverb4 + reverb5
    let reverb_input := castSint16
      (f32 (i2f ((a.left_sample + a.right_sample).tdiv 2) + f32 (i2f reverb_sum * s.reverb_feedback)))
    { a with
      mixed_left := addAssign a.mixed_left (f32 (i2f reverb_sum * f32 (1 / 5)))
      mixed_right := addAssign a.mixed_right (f32 (i2f reverb_sum * f32 (1 / 5)))
      s := { s with
        reverb_buffer1 := Function.update s.reverb_buffer1 s.reverb_pos1 reverb_input
        reverb_pos1 := (s.reverb_pos1 + 1).tmod REVERB_DELAY_1
        reverb_buffer2 := Function.update s.reverb_buffer2 s.reverb_pos2 reverb_input
        reverb_pos2 := (s.reverb_pos2 + 1).tmod REVERB_DELAY_2
        reverb_buffer3 := Function.update s.reverb_buffer3 s.reverb_pos3 reverb_input
        reverb_pos3 := (s.reverb_pos3 + 1).tmod REVERB_DELAY_3
        reverb_buffer4 := Function.update s.reverb_buffer4 s.reverb_pos4 reverb_input
        reverb_pos4 := (s.reverb_pos4 + 1).tmod REVERB_DELAY_4
        reverb_buffer5 := Function.update s.reverb_buffer5 s.reverb_pos5 reverb_input
        reverb_pos5 := (s.reverb_pos5 + 1).tmod REVERB_DELAY_5 } }
  else a

/-- The `double` phase increment `2 * M_PI * speed / SAMPLE_RATE`. -/
def phaseInc (speed : ℚ) : ℚ := f64 (f64 (TWO_PI * speed) / (SAMPLE_RATE : ℚ))

/-- The chorus block of the loop body. -/
def chorusStage (sinf : ℚ → ℚ) (a : Acc) : Acc :=
  if a.s.chorus_enabled then
    let s := a.s
    let chorus_idx1 := (s.chorus_pos1 - CHORUS_DELAY_1 + CHORUS_DELAY_1).tmod CHORUS_DELAY_1
    let chorus_idx2 := (s.chorus_pos2 - CHORUS_DELAY_2 + CHORUS_DELAY_2).tmod CHORUS_DELAY_2
    let chorus_idx3 := (s.chorus_pos3 - CHORUS_DELAY_3 + CHORUS_DELAY_3).tmod CHORUS_DELAY_3
    let mod1 := f32 (f32 (1 / 2) + f32 (s.chorus_depth * sinf s.chorus_phase1))
    let mod2 := f32 (f32 (1 / 2) + f32 (s.chorus_depth * sinf s.chorus_phase2))
    let mod3 := f32 (f32 (1 / 2) + f32 (s.chorus_depth * sinf s.chorus_phase3))
    let chorus1 := castSint16 (f32 (f32 (i2f (s.chorus_buffer1 chorus_idx1) * mod1) * f32 (2 / 5)))
    let chorus2 := castSint16 (f32 (f32 (i2f (s.chorus_buffer2 chorus_idx2) * mod2) * f32 (2 / 5)))
    let chorus3 := castSint16 (f32 (f32 (i2f (s.chorus_buffer3 chorus_idx3) * mod3) * f32 (3 / 10)))
    let wet := f32 (i2f (chorus1 + chorus2 + chorus3) * f32 (3 / 20))
    { a with
      mixed_left := addAssign a.mixed_left wet
      mixed_right := addAssign a.mixed_right wet
      s := { s with
        chorus_buffer1 := Function.update s.chorus_buffer1 s.chorus_pos1 (downmix a)
        chorus_pos1 := (s.chorus_pos1 + 1).tmod CHORUS_DELAY_1
        chorus_buffer2 := Function.update s.chorus_buffer2 s.chorus_pos2 (downmix a)
        chorus_pos2 := (s.chorus_pos2 + 1).tmod CHORUS_DELAY_2
        chorus_buffer3 := Function.update s.chorus_buffer3 s.chorus_pos3 (downmix a)
        chorus_pos3 := (s.chorus_pos3 + 1).tmod CHORUS_DELAY_3
        chorus_phase1 := advancePhase s.chorus_phase1 (phaseInc s.chorus_speed)
        chorus_phase2 := advancePhase s.chorus_phase2 (phaseInc s.chorus_speed)
        chorus_phase3 := advancePhase s.chorus_phase3 (phaseInc s.chorus_speed) } }
  else a

/-- The vibrato block of the loop body. -/
def vibratoStage (sinf : ℚ → ℚ) (a : Acc) : Acc :=
  if a.s.vibrato_enabled then
    let vibrato := f32 (sinf a.s.vibrato_phase * f32 (3 / 100))
    { a with
      mixed_left := truncQ (f32 (i2f a.mixed_left * f32 (f32 1 + vibrato)))
      mixed_right := truncQ (f32 (i2f a.mixed_right * f32 (f32 1 + vibrato)))
      s := { a.s with vibrato_phase := advancePhase a.s.vibrato_phase (phaseInc (f32 3)) } }
  else a

/-- The tremolo block of the loop body. -/
def tremoloStage (sinf : ℚ → ℚ) (a : Acc) : Acc :=
  if a.s.tremolo_enabled then
    let tremolo := f32 (f32 (17 / 20) + f32 (f32 (3 / 40) * sinf a.s.tremolo_phase))
    { a with
      mixed_left := truncQ (f32 (i2f a.mixed_left * tremolo))
      mixed_right := truncQ (f32 (i2f a.mixed_right * tremolo))
      s := { a.s with tremolo_phase := advancePhase a.s.tremolo_phase (phaseInc (f32 3)) } }
  else a

/-- The stereo-widening block of the loop body. -/
def stereoStage (a : Acc) : Acc :=
  if a.s.stereo_enabled then
    let stereo_delayed := a.s.stereo_buffer a.s.stereo_pos
    { a with
      mixed_left := a.mixed_left + truncQ (f32 (i2f stereo_delayed * f32 (1 / 2)))
      mixed_right := a.mixed_right + truncQ (f32 (i2f stereo_delayed * f32 (-1 / 2)))
      s := { a.s with
        stereo_buffer := Function.update a.s.stereo_buffer a.s.stereo_pos (downmix a)
        stereo_pos := (a.s.stereo_pos + 1).tmod STEREO_DELAY } }
  else a

/-- One iteration of the first loop of `audio_effect`, up to the final accumulators. -/
def frameAcc (sinf : ℚ → ℚ) (s : Engine) (inp : Int × Int) : Acc :=
  stereoStage (tremoloStage sinf (vibratoStage sinf (chorusStage sinf
    (reverbStage (echoStage (volumeStage s inp))))))

/-- One iteration of the first loop: the new state and the final accumulators
`(mixed_left, mixed_right)`. -/
def frame (sinf : ℚ → ℚ) (s : Engine) (inp : Int × Int) : Engine × (Int × Int) :=
  let a := frameAcc sinf s inp
  (a.s, (a.mixed_left, a.mixed_right))

/-- The first loop of `audio_effect`: final state and the final accumulators of each frame. -/
def runFrames (sinf : ℚ → ℚ) : Engine → List (Int × Int) → Engine × List (Int × Int)
  | s, [] => (s, [])
  | s, inp :: rest =>
    let r := frame sinf s inp
    let t := runFrames sinf r.1 rest
    (t.1, r.2 :: t.2)

/-- One update pair of `max_amplitude` in the first loop. -/
def peakStep (max_amplitude : Int) (acc : Int × Int) : Int :=
  let m1 := if |acc.1| > max_amplitude then |acc.1| else max_amplitude
  if |acc.2| > m1 then |acc.2| else m1

/-- The value of `max_amplitude` after the first loop. -/
def blockPeak (accs : List (Int × Int)) : Int := accs.foldl peakStep 0

/-- The 16-bit frame stored into the block at the end of an iteration of the first loop. -/
def store (acc : Int × Int) : Int × Int := (toSint16 acc.1, toSint16 acc.2)

/-- The factor `scale = 32767.0f / max_amplitude`. -/
def scaleOf (max_amplitude : Int) : ℚ := f32 (f32 32767 / i2f max_amplitude)

/-- One iteration of the second (normalisation) loop on a stored frame. -/
def rescale (scale : ℚ) (q : Int × Int) : Int × Int :=
  (castSint16 (f32 (i2f q.1 * scale)), castSint16 (f32 (i2f q.2 * scale)))

/-- The callback `audio_effect`: the state after the call and the block it leaves in `stream`. -/
def audio_effect (sinf : ℚ → ℚ) (s : Engine) (block : List (Int × Int)) :
    Engine × List (Int × Int) :=
  let r := runFrames sinf s block
  let max_amplitude := blockPeak r.2
  let stored := r.2.map store
  if max_amplitude > 32767 then (r.1, stored.map (rescale (scaleOf max_amplitude)))
  else (r.1, stored)

/-! ## Parts of the state -/

/-- The six effect toggles. -/
def Engine.toggles (s : Engine) : Bool × Bool × Bool × Bool × Bool × Bool :=
  (s.echo_enabled, s.reverb_enabled, s.chorus_enabled, s.vibrato_enabled, s.tremolo_enabled,
    s.stereo_enabled)

/-- The ten effect parameters. -/
def Engine.params (s : Engine) : ℚ × ℚ × ℚ × ℚ × ℚ × ℚ × ℚ × ℚ × ℚ × Int :=
  (s.reverb_level, s.reverb_feedback, s.reverb_damping, s.chorus_level, s.chorus_depth,
    s.chorus_speed, s.stereo_width, s.global_volume, s.limiter_threshold, s.limiter_enabled)

/-- The state owned by the echo stage. -/
def Engine.echoPart (s : Engine) : (Int → Int) × Int := (s.echo_buffer, s.echo_pos)

/-- The state owned by the reverb stage. -/
def Engine.reverbPart (s : Engine) :
    ((Int → Int) × Int) × ((Int → Int) × Int) × ((Int → Int) × Int) × ((Int → Int) × Int) ×
      ((Int → Int) × Int) :=
  ((s.reverb_buffer1, s.reverb_pos1), (s.reverb_buffer2, s.reverb_pos2),
    (s.reverb_buffer3, s.reverb_pos3), (s.reverb_buffer4, s.reverb_pos4),
    (s.reverb_buffer5, s.reverb_pos5))

/-- The state owned by the chorus stage. -/
def Engine.chorusPart (s : Engine) :
    ((Int → Int) × Int × ℚ) × ((Int → Int) × Int × ℚ) × ((Int → Int) × Int × ℚ) :=
  ((s.chorus_buffer1, s.chorus_pos1, s.chorus_phase1),
    (s.chorus_buffer2, s.chorus_pos2, s.chorus_phase2),
    (s.chorus_buffer3, s.chorus_pos3, s.chorus_phase3))

/-- The state owned by the stereo-widening stage. -/
def Engine.stereoPart (s : Engine) : (Int → Int) × Int := (s.stereo_buffer, s.stereo_pos)

/-- A change of toggles and parameters by the control path: the configuration of `c` on top of
the buffers, cursors and phases of `s`. -/
def setConfig (s c : Engine) : Engine :=
  { s with
    reverb_level := c.reverb_level
    reverb_feedback := c.reverb_feedback
    reverb_damping := c.reverb_damping
    chorus_level := c.chorus_level
    chorus_depth := c.chorus_depth
    chorus_speed := c.chorus_speed
    stereo_width := c.stereo_width
    global_volume := c.global_volume
    limiter_threshold := c.limiter_threshold
    limiter_enabled := c.limiter_enabled
    reverb_enabled := c.reverb_enabled
    chorus_enabled := c.chorus_enabled
    stereo_enabled := c.stereo_enabled
    vibrato_enabled := c.vibrato_enabled
    tremolo_enabled := c.tremolo_enabled
    echo_enabled := c.echo_enabled }

/-- States the engine can be in: the initial state, closed under processing one frame and
under changes of toggles and parameters by the control path. -/
inductive Reachable (sinf : ℚ → ℚ) : Engine → Prop
  | init : Reachable sinf init
  | frame (s : Engine) (inp : Int × Int) : Reachable sinf s → Reachable sinf (frame sinf s inp).1
  | control (s c : Engine) : Reachable sinf s → Reachable sinf (setConfig s c)

/-- The state obtained from `s` by switching all six effects off. -/
def allOff (s : Engine) : Engine :=
  { s with
    reverb_enabled := false
    chorus_enabled := false
    stereo_enabled := false
    vibrato_enabled := false
    tremolo_enabled := false
    echo_enabled := false }

/-- Every cell of every one of the ten delay lines is zero. -/
def buffersZero (s : Engine) : Prop :=
  ∀ i : Int, s.echo_buffer i = 0 ∧ s.reverb_buffer1 i = 0 ∧ s.reverb_buffer2 i = 0 ∧
    s.reverb_buffer3 i = 0 ∧ s.reverb_buffer4 i = 0 ∧ s.reverb_buffer5 i = 0 ∧
    s.chorus_buffer1 i = 0 ∧ s.chorus_buffer2 i = 0 ∧ s.chorus_buffer3 i = 0 ∧
    s.stereo_buffer i = 0

/-- The loop body is at silence: zero dry samples, zero accumulators, zero delay lines. -/
def Acc.silent (a : Acc) : Prop :=
  a.left_sample = 0 ∧ a.right_sample = 0 ∧ a.mixed_left = 0 ∧ a.mixed_right = 0 ∧
    buffersZero a.s

/-- Every one of the ten delay-line cursors is inside its line. -/
def cursorsInRange (s : Engine) : Prop :=
  (0 ≤ s.echo_pos ∧ s.echo_pos < 11025) ∧
  (0 ≤ s.reverb_pos1 ∧ s.reverb_pos1 < 2205) ∧
  (0 ≤ s.reverb_pos2 ∧ s.reverb_pos2 < 4410) ∧
  (0 ≤ s.reverb_pos3 ∧ s.reverb_pos3 < 6610) ∧
  (0 ≤ s.reverb_pos4 ∧ s.reverb_pos4 < 1764) ∧
  (0 ≤ s.reverb_pos5 ∧ s.reverb_pos5 < 3675) ∧
  (0 ≤ s.chorus_pos1 ∧ s.chorus_pos1 < 441) ∧
  (0 ≤ s.chorus_pos2 ∧ s.chorus_pos2 < 661) ∧
  (0 ≤ s.chorus_pos3 ∧ s.chorus_pos3 < 882) ∧
  (0 ≤ s.stereo_pos ∧ s.stereo_pos < 220)

/-- Default parameters, all effects off, `global_volume = 1.0f`. -/
def unitVolumeOff : Engine := { allOff init with global_volume := f32 1 }

/-- Default parameters, all effects off, `global_volume` the `float` `32769 * 2 ^ (-24)`. -/
def smallVolumeOff : Engine := { allOff init with global_volume := f32 (32769 / 16777216) }

/-- Default parameters with only echo and stereo widening enabled, in the state left by a
full-scale frame that was processed 11025 echo frames and 220 stereo frames earlier: the cell
under the echo cursor and the cell under the stereo cursor hold its downmix 21298. -/
def loudState : Engine :=
  { init with
    reverb_enabled := false
    chorus_enabled := false
    vibrato_enabled := false
    tremolo_enabled := false
    echo_buffer := Function.update (fun _ => 0) 0 21298
    stereo_buffer := Function.update (fun _ => 0) 0 21298 }

/-- States the engine can be in while `chorus_speed` keeps its default value `3.0f`: the
initial state, closed under processing one frame and under changes of toggles and parameters
that leave `chorus_speed` at `3.0f`. -/
inductive ReachableDefaultSpeed (sinf : ℚ → ℚ) : Engine → Prop
  | init : ReachableDefaultSpeed sinf init
  | frame (s : Engine) (inp : Int × Int) :
      ReachableDefaultSpeed sinf s → ReachableDefaultSpeed sinf (frame sinf s inp).1
  | control (s c : Engine) :
      ReachableDefaultSpeed sinf s → c.chorus_speed = f32 3 →
      ReachableDefaultSpeed sinf (setConfig s c)

/-- The largest `float` below `2 * M_PI`, `13176794 * 2 ^ (-21)`. -/
def PHASE_MAX : ℚ := 13176794 / 2097152

/-- A phase is a value in `[0, PHASE_MAX]`. -/
def phaseInRange (ph : ℚ) : Prop := 0 ≤ ph ∧ ph ≤ PHASE_MAX

/-! ## Evaluation of the phase recurrence on the grid of multiples of `2 ^ (-64)` -/

/-- Search downwards from `e` for the largest exponent whose power of two is at most `k`. -/
def scanDown : Nat → Nat → Nat → Nat
  | 0, _, _ => 0
  | fuel + 1, e, k => if 2 ^ e ≤ k then e else scanDown fuel (e - 1) k

/-- Floor of the base 2 logarithm, found by `scanDown` below `2 ^ 68`. -/
def natExp (k : Nat) : Nat := if k < 2 ^ 68 then scanDown 68 67 k else nlog2 k

/-- Round a natural number to `p` significant bits, to nearest, ties to even. -/
def roundNat (p k : Nat) : Nat :=
  if k < 2 ^ p then k
  else
    let h := 2 ^ (natExp k - p)
    let f := k / (2 * h)
    let r := k % (2 * h)
    (if r < h then f else if h < r then f + 1 else if f % 2 = 0 then f else f + 1) * (2 * h)

/-- The step `advancePhase · (phaseInc 3.0f)` on numerators over `2 ^ 64`. -/
def advancePhaseNat (k : Nat) : Nat :=
  let k1 := roundNat 24 (roundNat 53 (k + 7884647029199589))
  if 115904311329233960960 < k1 then roundNat 24 (roundNat 53 (k1 - 115904311329233960960))
  else k1

/-- Apply `f` to `k` after evaluating `k` to a numeral. -/
def force (k : Nat) (f : Nat → Nat) : Nat :=
  match k with
  | 0 => f 0
  | j + 1 => f (j + 1)

/-- The iteration of `advancePhaseNat`, evaluating each value before the next step. -/
def iterPhaseNat : Nat → Nat → Nat
  | 0, k => k
  | n + 1, k => force (advancePhaseNat k) (iterPhaseNat n)

/-- A sequence of calls of `audio_effect`, one per block: the state after the last call and
the concatenation of the blocks it leaves. -/
def processBlocks (sinf : ℚ → ℚ) : Engine → List (List (Int × Int)) → Engine × List (Int × Int)
  | s, [] => (s, [])
  | s, block :: rest =>
    let r := audio_effect sinf s block
    let t := processBlocks sinf r.1 rest
    (t.1, r.2 ++ t.2)

/-- Default parameters except `global_volume = 1.0f`, with only the echo enabled. -/
def echoOnlyUnit : Engine :=
  { init with
    reverb_enabled := false
    chorus_enabled := false
    stereo_enabled := false
    vibrato_enabled := false
    tremolo_enabled := false
    global_volume := f32 1 }

/-- Default parameters with only the echo enabled. -/
def echoOnly : Engine :=
  { init with
    reverb_enabled := false
    chorus_enabled := false
    stereo_enabled := false
    vibrato_enabled := false
    tremolo_enabled := false }

/-- The accumulator value of a silent frame whose echo tap reads the cell value `b`:
`0 + b * 0.3f`, converted back to `Sint32`. -/
def echoTap (b : Int) : Int := addAssign 0 (f32 (i2f b * f32 (3 / 10)))

/-- Round `x` to a multiple of `2 * h`, to nearest (ties are excluded by the callers). -/
def roundTo (h x : Nat) : Nat :=
  (if x % (2 * h) < h then x / (2 * h) else x / (2 * h) + 1) * (2 * h)

/-- The constant step of the phase numerator inside the binade `[2 ^ e, 2 ^ (e + 1))`. -/
def stepInc (e : Nat) : Nat :=
  roundTo (2 ^ (e - 24)) (roundTo (2 ^ (e - 53)) 7884647029199589)

/-- A sufficient condition for `n` consecutive phase steps from `k` to stay in the binade
`[2 ^ e, 2 ^ (e + 1))` without a tie and without a wrap. -/
def linearOK (e k n : Nat) : Bool :=
  decide (53 ≤ e) && decide (1 ≤ n) && decide (2 ^ e ≤ k) &&
  decide (k % (2 * 2 ^ (e - 24)) = 0) &&
  decide (7884647029199589 % (2 * 2 ^ (e - 53)) ≠ 2 ^ (e - 53)) &&
  decide (roundTo (2 ^ (e - 53)) 7884647029199589 % (2 * 2 ^ (e - 24)) ≠ 2 ^ (e - 24)) &&
  decide (k + (n - 1) * stepInc e + 7884647029199589 < 2 ^ (e + 1)) &&
  decide (k + (n - 1) * stepInc e + roundTo (2 ^ (e - 53)) 7884647029199589 < 2 ^ (e + 1)) &&
  decide (k + n * stepInc e ≤ 115904311329233960960)

/-- Evaluation of the phase recurrence along a schedule of segments `(e, n)`: `n` steps at
once where `linearOK e k n` holds, `n` single steps otherwise. -/
def iterJump : List (Nat × Nat) → Nat → Nat
  | [], k => k
  | seg :: rest, k =>
    force (if linearOK seg.1 k seg.2 then k + seg.2 * stepInc seg.1 else iterPhaseNat seg.2 k)
      (iterJump rest)

/-- A schedule of 14700 phase steps starting from the phase 0.5: segments `(e, n)` of `n` steps
inside the binade `[2 ^ e, 2 ^ (e + 1))`, and single steps `(0, 1)` at the binade borders and
at the wrap. -/
def scheduleHalf : List (Nat × Nat) :=
  [(63, 1169), (0, 1), (64, 2339), (0, 1), (65, 4677), (0, 1), (66, 5343), (0, 1), (0, 1),
    (0, 1), (54, 2), (0, 1), (55, 3), (0, 1), (56, 8), (0, 1), (57, 18), (0, 1), (58, 35), (0,
    1), (59, 72), (0, 1), (60, 146), (0, 1), (61, 291), (0, 1), (62, 583)]

/-- A schedule of 14700 phase steps starting from the phase 0: segments `(e, n)` of `n` steps
inside the binade `[2 ^ e, 2 ^ (e + 1))`, and single steps `(0, 1)` at the binade borders and
at the wrap. -/
def scheduleZero : List (Nat × Nat) :=
  [(0, 1), (0, 1), (0, 1), (54, 1), (0, 1), (55, 4), (0, 1), (56, 8), (0, 1), (57, 17), (0,
    1), (58, 36), (0, 1), (59, 72), (0, 1), (60, 145), (0, 1), (61, 291), (0, 1), (62, 584),
    (0, 1), (63, 1169), (0, 1), (64, 2338), (0, 1), (65, 4678), (0, 1), (66, 5342)]

/-- The initial state with echo, reverb and chorus switched off and a stored stereo sample. -/
def lateOnly : Engine :=
  { init with
    echo_enabled := false
    reverb_enabled := false
    chorus_enabled := false
    stereo_buffer := Function.update (fun _ => 0) 0 7 }

/-- The `float` value `echo_buffer[echo_pos] * 0.3f` that the echo block adds to both
accumulators. -/
def echoWet (s : Engine) : ℚ := f32 (i2f (s.echo_buffer s.echo_pos) * f32 (3 / 10))

/-- The five-tap sum `reverb_sum` of the reverb block. -/
def reverbSum (s : Engine) : Int :=
  castSint16 (f32 (i2f (s.reverb_buffer1 s.reverb_pos1) * f32 (1 / 2)))
    + castSint16 (f32 (i2f (s.reverb_buffer2 s.reverb_pos2) * f32 (2 / 5)))
    + castSint16 (f32 (i2f (s.reverb_buffer3 s.reverb_pos3) * f32 (3 / 10)))
    + castSint16 (f32 (f32 (i2f (s.reverb_buffer4 s.reverb_pos4) * f32 (3 / 10))
        * f32 (f32 1 - s.reverb_damping)))
    + castSint16 (f32 (f32 (i2f (s.reverb_buffer5 s.reverb_pos5) * f32 (3 / 20))
        * f32 (f32 1 - s.reverb_damping)))

/-- The `float` value `reverb_sum * 0.2f` that the reverb block adds to both accumulators. -/
def reverbWet (s : Engine) : ℚ := f32 (i2f (reverbSum s) * f32 (1 / 5))

/-- The value `reverb_input` that the reverb block stores into its five lines. -/
def reverbInput (a : Acc) : Int :=
  castSint16 (f32 (i2f ((a.left_sample + a.right_sample).tdiv 2)
    + f32 (i2f (reverbSum a.s) * a.s.reverb_feedback)))

/-- The `float` value `(chorus1 + chorus2 + chorus3) * 0.15f` that the chorus block adds to
both accumulators. -/
def chorusWet (sinf : ℚ → ℚ) (s : Engine) : ℚ :=
  f32 (i2f
    (castSint16 (f32 (f32 (i2f (s.chorus_buffer1
          ((s.chorus_pos1 - CHORUS_DELAY_1 + CHORUS_DELAY_1).tmod CHORUS_DELAY_1))
        * f32 (f32 (1 / 2) + f32 (s.chorus_depth * sinf s.chorus_phase1))) * f32 (2 / 5)))
      + castSint16 (f32 (f32 (i2f (s.chorus_buffer2
          ((s.chorus_pos2 - CHORUS_DELAY_2 + CHORUS_DELAY_2).tmod CHORUS_DELAY_2))
        * f32 (f32 (1 / 2) + f32 (s.chorus_depth * sinf s.chorus_phase2))) * f32 (2 / 5)))
      + castSint16 (f32 (f32 (i2f (s.chorus_buffer3
          ((s.chorus_pos3 - CHORUS_DELAY_3 + CHORUS_DELAY_3).tmod CHORUS_DELAY_3))
        * f32 (f32 (1 / 2) + f32 (s.chorus_depth * sinf s.chorus_phase3))) * f32 (3 / 10))))
    * f32 (3 / 20))

/-- The loop body after the volume step for the input frame `(16, -16)` (dry samples 10 and
-10), default parameters, only the echo enabled, and the value 5 under the echo cursor. -/
def signedEcho : Acc :=
  volumeStage { echoOnly with echo_buffer := Function.update (fun _ => 0) 0 5 } (16, -16)

/-- The range of the C type `Sint16`, the cell type of the delay lines. -/
def isSint16 (n : Int) : Prop := -32768 ≤ n ∧ n ≤ 32767

instance (n : Int) : Decidable (isSint16 n) := by unfold isSint16; infer_instance

/-- The five values `b1 .. b5` the reverb block reads at its cursors. -/
def reverbReads (s : Engine) : List Int :=
  [s.reverb_buffer1 s.reverb_pos1, s.reverb_buffer2 s.reverb_pos2,
    s.reverb_buffer3 s.reverb_pos3, s.reverb_buffer4 s.reverb_pos4,
    s.reverb_buffer5 s.reverb_pos5]

/-- The five-tap sum as the specification words it, in exact arithmetic:
`trunc(0.5 b1) + trunc(0.4 b2) + trunc(0.3 b3) + trunc(0.3 (1 - damping) b4)
+ trunc(0.15 (1 - damping) b5)`. -/
def specTapSum (damping : ℚ) (b1 b2 b3 b4 b5 : Int) : Int :=
  truncQ ((1 / 2 : ℚ) * b1) + truncQ ((2 / 5 : ℚ) * b2) + truncQ ((3 / 10 : ℚ) * b3)
    + truncQ ((3 / 10 : ℚ) * (1 - damping) * b4) + truncQ ((3 / 20 : ℚ) * (1 - damping) * b5)

/-- The written value as the specification words it: the downmix `trunc((l + r) / 2)` plus
`reverb_feedback` times the five-tap sum, narrowed to 16 bits. -/
def specReverbInput (feedback damping : ℚ) (l r b1 b2 b3 b4 b5 : Int) : Int :=
  toSint16 (truncQ ((((l + r).tdiv 2 : Int) : ℚ) + feedback * specTapSum damping b1 b2 b3 b4 b5))

/-- Default parameters with only the reverb enabled and the value `b4` under the cursor of the
fourth reverb line. -/
def reverbOnly (b4 : Int) : Engine :=
  { init with
    echo_enabled := false
    chorus_enabled := false
    stereo_enabled := false
    vibrato_enabled := false
    tremolo_enabled := false
    reverb_buffer4 := Function.update (fun _ => 0) 0 b4 }

/-- The volume-scaled dry samples `(l, r)` of an input frame at volume `v`. -/
def dry (v : ℚ) (inp : Int × Int) : Int × Int :=
  (castSint16 (f32 (i2f inp.1 * v)), castSint16 (f32 (i2f inp.2 * v)))

/-- The mono downmix `(l + r) / 2` of the volume-scaled dry samples of an input frame. -/
def dryMix (v : ℚ) (inp : Int × Int) : Int := ((dry v inp).1 + (dry v inp).2).tdiv 2

/-- The final accumulators of a frame with dry samples `lr` whose stereo tap reads `d`. -/
def widen (lr : Int × Int) (d : Int) : Int × Int := (lr.1 + d.tdiv 2, lr.2 - d.tdiv 2)

/-- Default parameters with only stereo widening enabled. -/
def stereoOnly : Engine :=
  { init with
    echo_enabled := false
    reverb_enabled := false
    chorus_enabled := false
    vibrato_enabled := false
    tremolo_enabled := false }

/-- States the engine can be in while `global_volume` keeps its default value `0.65f` and the
input is 16-bit: the initial state, closed under processing one frame of 16-bit samples and
under changes of toggles and parameters that leave `global_volume` at `0.65f`. -/
inductive ReachableDefaultVolume (sinf : ℚ → ℚ) : Engine → Prop
  | init : ReachableDefaultVolume sinf init
  | frame (s : Engine) (inp : Int × Int) :
      ReachableDefaultVolume sinf s → isSint16 inp.1 → isSint16 inp.2 →
      ReachableDefaultVolume sinf (frame sinf s inp).1
  | control (s c : Engine) :
      ReachableDefaultVolume sinf s → c.global_volume = f32 (13 / 20) →
      ReachableDefaultVolume sinf (setConfig s c)

/-! ## Track navigation in the main loop of the player -/

/-- Key code 1 (Right Arrow) in the main loop: with a non-empty playlist,
`current_index = (current_index + 2) % midi_list->count`. -/
def keyRight (count current_index : Int) : Int :=
  if count > 0 then (current_index + 2).tmod count else current_index

/-- Key code 2 (Left Arrow) in the main loop: with a non-empty playlist,
`current_index = (current_index - 2 + midi_list->count) % midi_list->count`. -/
def keyLeft (count current_index : Int) : Int :=
  if count > 0 then (current_index - 2 + count).tmod count else current_index

/-- The branch of the main loop that starts a track when none is playing (the file exists and
loads): `current_index` is reset to 0 when it is not below `count`, the track at that index is
started and `current_index` becomes `(current_index + 1) % count`. The result is the index of
the track started and the new `current_index`. -/
def startTrack (count current_index : Int) : Int × Int :=
  let idx := if current_index ≥ count then 0 else current_index
  (idx, (idx + 1).tmod count)

/-- The index of the track that the main loop starts after the key `key` is pressed while
track `k` is playing: the value of `current_index` left by the start of track `k`, the key
handler, then the start of the next track (the handler has halted the music). -/
def afterKey (key count k : Int) : Int :=
  let playing := (startTrack count k).2
  let current_index :=
    if key = 1 then keyRight count playing
    else if key = 2 then keyLeft count playing
    else playing
  (startTrack count current_index).1

/-- The state `s` with `chorus_speed` replaced by `c`. -/
def setChorusSpeed (s : Engine) (c : ℚ) : Engine := { s with chorus_speed := c }

/-- The state `s` with the five parameters `reverb_level`, `chorus_level`, `stereo_width`,
`limiter_threshold` and `limiter_enabled` replaced by the components of `p`. -/
def setUnused (s : Engine) (p : ℚ × ℚ × ℚ × ℚ × Int) : Engine :=
  { s with
    reverb_level := p.1
    chorus_level := p.2.1
    stereo_width := p.2.2.1
    limiter_threshold := p.2.2.2.1
    limiter_enabled := p.2.2.2.2 }

/-- The loop-body state `a` with the five parameters of its engine state replaced. -/
def Acc.setUnused (a : Acc) (p : ℚ × ℚ × ℚ × ℚ × Int) : Acc :=
  { a with s := EchoMidi.setUnused a.s p }

/-- The fields of the engine state other than the five parameters `reverb_level`,
`chorus_level`, `stereo_width`, `limiter_threshold` and `limiter_enabled`: delay lines, cursors,
phases, toggles and the remaining five parameters. -/
def Engine.core (s : Engine) :=
  (s.echoPart, s.reverbPart, s.chorusPart, s.stereoPart, s.vibrato_phase, s.tremolo_phase,
    s.toggles, s.reverb_feedback, s.reverb_damping, s.chorus_depth, s.chorus_speed,
    s.global_volume)

/-! ## The playlist -/

/-- The playlist `MidiList`: the entries `files[0 .. count - 1]` as a list, and the capacity of
the allocated array. -/
structure MidiList where
  files : List String
  capacity : Int

/-- The field `count`: the number of entries. -/
def MidiList.count (l : MidiList) : Int := l.files.length

/-- The function `midi_list_init`: an empty list of capacity 10. -/
def midi_list_init : MidiList := { files := [], capacity := 10 }

/-- The search loop at the head of `midi_list_add`: whether `strcmp(files[i], filename) == 0`
for some entry. -/
def nameFound : List String → String → Bool
  | [], _ => false
  | f :: rest, filename => if f = filename then true else nameFound rest filename

/-- The function `midi_list_add`: return at once when the name is found; otherwise double the
capacity when the array is full and store the name at index `count`. -/
def midi_list_add (l : MidiList) (filename : String) : MidiList :=
  if nameFound l.files filename then l
  else
    let capacity := if l.count ≥ l.capacity then l.capacity * 2 else l.capacity
    { files := l.files ++ [filename], capacity := capacity }

/-- Lists built from the empty list of `midi_list_init` by `midi_list_add` alone. -/
inductive Built : MidiList → Prop
  | init : Built midi_list_init
  | add (l : MidiList) (filename : String) : Built l → Built (midi_list_add l filename)

/-! ## Delay lines -/

/-- The statements `buffer[pos] = v; pos = (pos + 1) % N;` on a delay line `(buffer, pos)`. -/
def lineWrite (N : Int) (l : (Int → Int) × Int) (v : Int) : (Int → Int) × Int :=
  (Function.update l.1 l.2 v, (l.2 + 1).tmod N)

/-- The delay line of capacity `N` after the writes `v 0, .., v (t - 1)`, starting from the
all-zero line with cursor 0. -/
def lineAfter (N : Nat) (v : Nat → Int) : Nat → (Int → Int) × Int
  | 0 => (fun _ => 0, 0)
  | t + 1 => lineWrite N (lineAfter N v t) (v t)

/-- The engine state after the frames `x 0, .., x (t - 1)`, starting from `s`. -/
def stateAt (sinf : ℚ → ℚ) (s : Engine) (x : Nat → Int × Int) : Nat → Engine
  | 0 => s
  | t + 1 => (frame sinf (stateAt sinf s x t) (x t)).1

/-- The first chorus line with its cursor. -/
def Engine.chorusLine1 (s : Engine) : (Int → Int) × Int := (s.chorus_buffer1, s.chorus_pos1)

/-- The second chorus line with its cursor. -/
def Engine.chorusLine2 (s : Engine) : (Int → Int) × Int := (s.chorus_buffer2, s.chorus_pos2)

/-- The third chorus line with its cursor. -/
def Engine.chorusLine3 (s : Engine) : (Int → Int) × Int := (s.chorus_buffer3, s.chorus_pos3)

/-- The first reverb line with its cursor. -/
def Engine.reverbLine1 (s : Engine) : (Int → Int) × Int := (s.reverb_buffer1, s.reverb_pos1)

/-- The second reverb line with its cursor. -/
def Engine.reverbLine2 (s : Engine) : (Int → Int) × Int := (s.reverb_buffer2, s.reverb_pos2)

/-- The third reverb line with its cursor. -/
def Engine.reverbLine3 (s : Engine) : (Int → Int) × Int := (s.reverb_buffer3, s.reverb_pos3)

/-- The fourth reverb line with its cursor. -/
def Engine.reverbLine4 (s : Engine) : (Int → Int) × Int := (s.reverb_buffer4, s.reverb_pos4)

/-- The fifth reverb line with its cursor. -/
def Engine.reverbLine5 (s : Engine) : (Int → Int) × Int := (s.reverb_buffer5, s.reverb_pos5)

/-- The `float` gain `tremolo = 0.85f + 0.075f * sinf(tremolo_phase)` of the tremolo block. -/
def tremoloGain (sinf : ℚ → ℚ) (phase : ℚ) : ℚ :=
  f32 (f32 (17 / 20) + f32 (f32 (3 / 40) * sinf phase))

/-- The `float` gain `1.0f + vibrato` of the vibrato block, where
`vibrato = sinf(vibrato_phase) * 0.03f`. -/
def vibratoGain (sinf : ℚ → ℚ) (phase : ℚ) : ℚ :=
  f32 (f32 1 + f32 (sinf phase * f32 (3 / 100)))

/-- Every cell of every one of the ten delay lines holds a 16-bit value. -/
def cellsSint16 (s : Engine) : Prop :=
  ∀ i : Int, isSint16 (s.echo_buffer i) ∧ isSint16 (s.reverb_buffer1 i) ∧
    isSint16 (s.reverb_buffer2 i) ∧ isSint16 (s.reverb_buffer3 i) ∧
    isSint16 (s.reverb_buffer4 i) ∧ isSint16 (s.reverb_buffer5 i) ∧
    isSint16 (s.chorus_buffer1 i) ∧ isSint16 (s.chorus_buffer2 i) ∧
    isSint16 (s.chorus_buffer3 i) ∧ isSint16 (s.stereo_buffer i)

/-- The value `(left_sample + right_sample) / 2 + reverb_sum * reverb_feedback` of the reverb
block, converted to an integer, before it is narrowed to the `Sint16` variable
`reverb_input`. -/
def reverbPre (a : Acc) : Int :=
  truncQ (f32 (i2f ((a.left_sample + a.right_sample).tdiv 2)
    + f32 (i2f (reverbSum a.s) * a.s.reverb_feedback)))

/-- Default parameters and toggles, with the values `b1 .. b5` in all cells of the five reverb
lines. -/
def reverbCells (b1 b2 b3 b4 b5 : Int) : Engine :=
  { init with
    reverb_buffer1 := fun _ => b1
    reverb_buffer2 := fun _ => b2
    reverb_buffer3 := fun _ => b3
    reverb_buffer4 := fun _ => b4
    reverb_buffer5 := fun _ => b5 }

/-- States the engine can be in with the default parameters and 16-bit input: the initial
state, closed under processing one frame of 16-bit samples and under changes of the toggles. -/
inductive ReachableDefault (sinf : ℚ → ℚ) : Engine → Prop
  | init : ReachableDefault sinf init
  | frame (s : Engine) (inp : Int × Int) :
      ReachableDefault sinf s → isSint16 inp.1 → isSint16 inp.2 →
      ReachableDefault sinf (frame sinf s inp).1
  | control (s c : Engine) :
      ReachableDefault sinf s → c.params = init.params → ReachableDefault sinf (setConfig s c)

/-- The value written into the reverb lines at frame `t` of the constant full-scale stream
`(32767, 32767), (32767, 32767), ..` processed from the initial state. -/
def fullScaleWrite (sinf : ℚ → ℚ) (t : Nat) : Int :=
  reverbInput (volumeStage (stateAt sinf init (fun _ => (32767, 32767)) t) (32767, 32767))

/-! # Properties -/

/-! ## Elementary facts on the conversions -/

theorem f32_zero : f32 0 = 0 := by simp [f32, roundBin]

theorem f64_zero : f64 0 = 0 := by simp [f64, roundBin]

theorem i2f_zero : i2f 0 = 0 := by simp [i2f, f32_zero]

theorem truncQ_zero : truncQ 0 = 0 := by simp [truncQ]

theorem toSint16_of_range {n : Int} (h1 : -32768 ≤ n) (h2 : n ≤ 32767) : toSint16 n = n := by
  unfold toSint16
  omega

theorem toSint16_zero : toSint16 0 = 0 := by decide

theorem castSint16_zero : castSint16 0 = 0 := by simp [castSint16, truncQ_zero, toSint16_zero]

theorem addAssign_zero : addAssign 0 0 = 0 := by
  simp [addAssign, i2f_zero, f32_zero, truncQ_zero]

/-! ## Which stage touches which part of the state -/

section parts
variable (sinf : ℚ → ℚ) (a : Acc)

@[simp] theorem echoStage_toggles : (echoStage a).s.toggles = a.s.toggles := by
  unfold echoStage; split_ifs <;> rfl
@[simp] theorem reverbStage_toggles : (reverbStage a).s.toggles = a.s.toggles := by
  unfold reverbStage; split_ifs <;> rfl
@[simp] theorem chorusStage_toggles : (chorusStage sinf a).s.toggles = a.s.toggles := by
  unfold chorusStage; split_ifs <;> rfl
@[simp] theorem vibratoStage_toggles : (vibratoStage sinf a).s.toggles = a.s.toggles := by
  unfold vibratoStage; split_ifs <;> rfl
@[simp] theorem tremoloStage_toggles : (tremoloStage sinf a).s.toggles = a.s.toggles := by
  unfold tremoloStage; split_ifs <;> rfl
@[simp] theorem stereoStage_toggles : (stereoStage a).s.toggles = a.s.toggles := by
  unfold stereoStage; split_ifs <;> rfl

@[simp] theorem echoStage_params : (echoStage a).s.params = a.s.params := by
  unfold echoStage; split_ifs <;> rfl
@[simp] theorem reverbStage_params : (reverbStage a).s.params = a.s.params := by
  unfold reverbStage; split_ifs <;> rfl
@[simp] theorem chorusStage_params : (chorusStage sinf a).s.params = a.s.params := by
  unfold chorusStage; split_ifs <;> rfl
@[simp] theorem vibratoStage_params : (vibratoStage sinf a).s.params = a.s.params := by
  unfold vibratoStage; split_ifs <;> rfl
@[simp] theorem tremoloStage_params : (tremoloStage sinf a).s.params = a.s.params := by
  unfold tremoloStage; split_ifs <;> rfl
@[simp] theorem stereoStage_params : (stereoStage a).s.params = a.s.params := by
  unfold stereoStage; split_ifs <;> rfl

@[simp] theorem reverbStage_echoPart : (reverbStage a).s.echoPart = a.s.echoPart := by
  unfold reverbStage; split_ifs <;> rfl
@[simp] theorem chorusStage_echoPart : (chorusStage sinf a).s.echoPart = a.s.echoPart := by
  unfold chorusStage; split_ifs <;> rfl
@[simp] theorem vibratoStage_echoPart : (vibratoStage sinf a).s.echoPart = a.s.echoPart := by
  unfold vibratoStage; split_ifs <;> rfl
@[simp] theorem tremoloStage_echoPart : (tremoloStage sinf a).s.echoPart = a.s.echoPart := by
  unfold tremoloStage; split_ifs <;> rfl
@[simp] theorem stereoStage_echoPart : (stereoStage a).s.echoPart = a.s.echoPart := by
  unfold stereoStage; split_ifs <;> rfl

@[simp] theorem echoStage_reverbPart : (echoStage a).s.reverbPart = a.s.reverbPart := by
  unfold echoStage; split_ifs <;> rfl
@[simp] theorem chorusStage_reverbPart : (chorusStage sinf a).s.reverbPart = a.s.reverbPart := by
  unfold chorusStage; split_ifs <;> rfl
@[simp] theorem vibratoStage_reverbPart : (vibratoStage sinf a).s.reverbPart = a.s.reverbPart := by
  unfold vibratoStage; split_ifs <;> rfl
@[simp] theorem tremoloStage_reverbPart : (tremoloStage sinf a).s.reverbPart = a.s.reverbPart := by
  unfold tremoloStage; split_ifs <;> rfl
@[simp] theorem stereoStage_reverbPart : (stereoStage a).s.reverbPart = a.s.reverbPart := by
  unfold stereoStage; split_ifs <;> rfl

@[simp] theorem echoStage_chorusPart : (echoStage a).s.chorusPart = a.s.chorusPart := by
  unfold echoStage; split_ifs <;> rfl
@[simp] theorem reverbStage_chorusPart : (reverbStage a).s.chorusPart = a.s.chorusPart := by
  unfold reverbStage; split_ifs <;> rfl
@[simp] theorem vibratoStage_chorusPart : (vibratoStage sinf a).s.chorusPart = a.s.chorusPart := by
  unfold vibratoStage; split_ifs <;> rfl
@[simp] theorem tremoloStage_chorusPart : (tremoloStage sinf a).s.chorusPart = a.s.chorusPart := by
  unfold tremoloStage; split_ifs <;> rfl
@[simp] theorem stereoStage_chorusPart : (stereoStage a).s.chorusPart = a.s.chorusPart := by
  unfold stereoStage; split_ifs <;> rfl

@[simp] theorem echoStage_stereoPart : (echoStage a).s.stereoPart = a.s.stereoPart := by
  unfold echoStage; split_ifs <;> rfl
@[simp] theorem reverbStage_stereoPart : (reverbStage a).s.stereoPart = a.s.stereoPart := by
  unfold reverbStage; split_ifs <;> rfl
@[simp] theorem chorusStage_stereoPart : (chorusStage sinf a).s.stereoPart = a.s.stereoPart := by
  unfold chorusStage; split_ifs <;> rfl
@[simp] theorem vibratoStage_stereoPart : (vibratoStage sinf a).s.stereoPart = a.s.stereoPart := by
  unfold vibratoStage; split_ifs <;> rfl
@[simp] theorem tremoloStage_stereoPart : (tremoloStage sinf a).s.stereoPart = a.s.stereoPart := by
  unfold tremoloStage; split_ifs <;> rfl

@[simp] theorem echoStage_vibrato_phase : (echoStage a).s.vibrato_phase = a.s.vibrato_phase := by
  unfold echoStage; split_ifs <;> rfl
@[simp] theorem reverbStage_vibrato_phase : (reverbStage a).s.vibrato_phase = a.s.vibrato_phase := by
  unfold reverbStage; split_ifs <;> rfl
@[simp] theorem chorusStage_vibrato_phase :
    (chorusStage sinf a).s.vibrato_phase = a.s.vibrato_phase := by
  unfold chorusStage; split_ifs <;> rfl
@[simp] theorem tremoloStage_vibrato_phase :
    (tremoloStage sinf a).s.vibrato_phase = a.s.vibrato_phase := by
  unfold tremoloStage; split_ifs <;> rfl
@[simp] theorem stereoStage_vibrato_phase : (stereoStage a).s.vibrato_phase = a.s.vibrato_phase := by
  unfold stereoStage; split_ifs <;> rfl

@[simp] theorem echoStage_tremolo_phase : (echoStage a).s.tremolo_phase = a.s.tremolo_phase := by
  unfold echoStage; split_ifs <;> rfl
@[simp] theorem reverbStage_tremolo_phase : (reverbStage a).s.tremolo_phase = a.s.tremolo_phase := by
  unfold reverbStage; split_ifs <;> rfl
@[simp] theorem chorusStage_tremolo_phase :
    (chorusStage sinf a).s.tremolo_phase = a.s.tremolo_phase := by
  unfold chorusStage; split_ifs <;> rfl
@[simp] theorem vibratoStage_tremolo_phase :
    (vibratoStage sinf a).s.tremolo_phase = a.s.tremolo_phase := by
  unfold vibratoStage; split_ifs <;> rfl
@[simp] theorem stereoStage_tremolo_phase : (stereoStage a).s.tremolo_phase = a.s.tremolo_phase := by
  unfold stereoStage; split_ifs <;> rfl

end parts

/-! ## Constants evaluated -/

theorem ECHO_DELAY_eq : ECHO_DELAY = 11025 := by decide
theorem REVERB_DELAY_1_eq : REVERB_DELAY_1 = 2205 := by decide
theorem REVERB_DELAY_2_eq : REVERB_DELAY_2 = 4410 := by decide
theorem REVERB_DELAY_4_eq : REVERB_DELAY_4 = 1764 := by decide
theorem REVERB_DELAY_5_eq : REVERB_DELAY_5 = 3675 := by decide
theorem CHORUS_DELAY_1_eq : CHORUS_DELAY_1 = 441 := by decide
theorem CHORUS_DELAY_3_eq : CHORUS_DELAY_3 = 882 := by decide
theorem STEREO_DELAY_eq : STEREO_DELAY = 220 := by decide

/-! ## A disabled stage is the identity -/

section disabled
variable (sinf : ℚ → ℚ) (a : Acc)

theorem echoStage_off (h : a.s.echo_enabled = false) : echoStage a = a := by
  simp [echoStage, h]
theorem reverbStage_off (h : a.s.reverb_enabled = false) : reverbStage a = a := by
  simp [reverbStage, h]
theorem chorusStage_off (h : a.s.chorus_enabled = false) : chorusStage sinf a = a := by
  simp [chorusStage, h]
theorem vibratoStage_off (h : a.s.vibrato_enabled = false) : vibratoStage sinf a = a := by
  simp [vibratoStage, h]
theorem tremoloStage_off (h : a.s.tremolo_enabled = false) : tremoloStage sinf a = a := by
  simp [tremoloStage, h]
theorem stereoStage_off (h : a.s.stereo_enabled = false) : stereoStage a = a := by
  simp [stereoStage, h]

end disabled

/-! ## Frames and blocks leave the configuration alone -/

theorem volumeStage_s (s : Engine) (inp : Int × Int) : (volumeStage s inp).s = s := rfl

theorem frame_toggles (sinf : ℚ → ℚ) (s : Engine) (inp : Int × Int) :
    (frame sinf s inp).1.toggles = s.toggles := by
  simp [frame, frameAcc, volumeStage_s]

theorem frame_params (sinf : ℚ → ℚ) (s : Engine) (inp : Int × Int) :
    (frame sinf s inp).1.params = s.params := by
  simp [frame, frameAcc, volumeStage_s]

theorem runFrames_toggles (sinf : ℚ → ℚ) (s : Engine) (block : List (Int × Int)) :
    (runFrames sinf s block).1.toggles = s.toggles := by
  induction block generalizing s with
  | nil => rfl
  | cons inp rest ih => simp only [runFrames]; rw [ih, frame_toggles]

theorem audio_effect_state (sinf : ℚ → ℚ) (s : Engine) (block : List (Int × Int)) :
    (audio_effect sinf s block).1 = (runFrames sinf s block).1 := by
  simp only [audio_effect]
  split_ifs <;> rfl

/-! ## Frozen state of a disabled stage -/

section frozen
variable (sinf : ℚ → ℚ) (s : Engine) (inp : Int × Int)

theorem frame_echo_off (h : s.echo_enabled = false) :
    (frame sinf s inp).1.echoPart = s.echoPart := by
  have h1 : echoStage (volumeStage s inp) = volumeStage s inp := echoStage_off _ h
  simp [frame, frameAcc, h1, volumeStage_s]

theorem frame_reverb_off (h : s.reverb_enabled = false) :
    (frame sinf s inp).1.reverbPart = s.reverbPart := by
  have ht : (echoStage (volumeStage s inp)).s.toggles = s.toggles := by simp [volumeStage_s]
  have h1 : reverbStage (echoStage (volumeStage s inp)) = echoStage (volumeStage s inp) :=
    reverbStage_off _ ((congrArg (fun t => t.2.1) ht).trans h)
  simp [frame, frameAcc, h1, volumeStage_s]

theorem frame_chorus_off (h : s.chorus_enabled = false) :
    (frame sinf s inp).1.chorusPart = s.chorusPart := by
  have ht : (reverbStage (echoStage (volumeStage s inp))).s.toggles = s.toggles := by
    simp [volumeStage_s]
  have h1 := chorusStage_off sinf _ ((congrArg (fun t => t.2.2.1) ht).trans h)
  simp [frame, frameAcc, h1, volumeStage_s]

theorem frame_vibrato_off (h : s.vibrato_enabled = false) :
    (frame sinf s inp).1.vibrato_phase = s.vibrato_phase := by
  have ht : (chorusStage sinf (reverbStage (echoStage (volumeStage s inp)))).s.toggles
      = s.toggles := by simp [volumeStage_s]
  have h1 := vibratoStage_off sinf _ ((congrArg (fun t => t.2.2.2.1) ht).trans h)
  simp [frame, frameAcc, h1, volumeStage_s]

theorem frame_tremolo_off (h : s.tremolo_enabled = false) :
    (frame sinf s inp).1.tremolo_phase = s.tremolo_phase := by
  have ht : (vibratoStage sinf (chorusStage sinf (reverbStage (echoStage
      (volumeStage s inp))))).s.toggles = s.toggles := by simp [volumeStage_s]
  have h1 := tremoloStage_off sinf _ ((congrArg (fun t => t.2.2.2.2.1) ht).trans h)
  simp [frame, frameAcc, h1, volumeStage_s]

theorem frame_stereo_off (h : s.stereo_enabled = false) :
    (frame sinf s inp).1.stereoPart = s.stereoPart := by
  have ht : (tremoloStage sinf (vibratoStage sinf (chorusStage sinf (reverbStage (echoStage
      (volumeStage s inp)))))).s.toggles = s.toggles := by simp [volumeStage_s]
  have h1 := stereoStage_off _ ((congrArg (fun t => t.2.2.2.2.2) ht).trans h)
  simp [frame, frameAcc, h1, volumeStage_s]

end frozen

/-- A property of the state that every frame preserves as long as the toggles keep their
values is preserved by a whole block. -/
theorem runFrames_preserves {α : Type} (sinf : ℚ → ℚ) (part : Engine → α)
    (P : Engine → Prop)
    (hP : ∀ s inp, P s → P (frame sinf s inp).1)
    (hstep : ∀ s inp, P s → part (frame sinf s inp).1 = part s)
    (s : Engine) (block : List (Int × Int)) (h : P s) :
    part (runFrames sinf s block).1 = part s := by
  induction block generalizing s with
  | nil => rfl
  | cons inp rest ih =>
    simp only [runFrames]
    rw [ih _ (hP s inp h), hstep s inp h]

/-- C6 (frozen state): in a call of `audio_effect`, a stage whose toggle is off leaves its
delay lines, its cursors and its phases exactly as they were, for each of echo, reverb,
chorus, vibrato, tremolo and stereo widening. -/
theorem frozen_state (sinf : ℚ → ℚ) (s : Engine) (block : List (Int × Int)) :
    (s.echo_enabled = false →
      (audio_effect sinf s block).1.echo_buffer = s.echo_buffer ∧
      (audio_effect sinf s block).1.echo_pos = s.echo_pos) ∧
    (s.reverb_enabled = false →
      (audio_effect sinf s block).1.reverb_buffer1 = s.reverb_buffer1 ∧
      (audio_effect sinf s block).1.reverb_buffer2 = s.reverb_buffer2 ∧
      (audio_effect sinf s block).1.reverb_buffer3 = s.reverb_buffer3 ∧
      (audio_effect sinf s block).1.reverb_buffer4 = s.reverb_buffer4 ∧
      (audio_effect sinf s block).1.reverb_buffer5 = s.reverb_buffer5 ∧
      (audio_effect sinf s block).1.reverb_pos1 = s.reverb_pos1 ∧
      (audio_effect sinf s block).1.reverb_pos2 = s.reverb_pos2 ∧
      (audio_effect sinf s block).1.reverb_pos3 = s.reverb_pos3 ∧
      (audio_effect sinf s block).1.reverb_pos4 = s.reverb_pos4 ∧
      (audio_effect sinf s block).1.reverb_pos5 = s.reverb_pos5) ∧
    (s.chorus_enabled = false →
      (audio_effect sinf s block).1.chorus_buffer1 = s.chorus_buffer1 ∧
      (audio_effect sinf s block).1.chorus_buffer2 = s.chorus_buffer2 ∧
      (audio_effect sinf s block).1.chorus_buffer3 = s.chorus_buffer3 ∧
      (audio_effect sinf s block).1.chorus_pos1 = s.chorus_pos1 ∧
      (audio_effect sinf s block).1.chorus_pos2 = s.chorus_pos2 ∧
      (audio_effect sinf s block).1.chorus_pos3 = s.chorus_pos3 ∧
      (audio_effect sinf s block).1.chorus_phase1 = s.chorus_phase1 ∧
      (audio_effect sinf s block).1.chorus_phase2 = s.chorus_phase2 ∧
      (audio_effect sinf s block).1.chorus_phase3 = s.chorus_phase3) ∧
    (s.vibrato_enabled = false →
      (audio_effect sinf s block).1.vibrato_phase = s.vibrato_phase) ∧
    (s.tremolo_enabled = false →
      (audio_effect sinf s block).1.tremolo_phase = s.tremolo_phase) ∧
    (s.stereo_enabled = false →
      (audio_effect sinf s block).1.stereo_buffer = s.stereo_buffer ∧
      (audio_effect sinf s block).1.stereo_pos = s.stereo_pos) := by
  rw [audio_effect_state]
  have tog : ∀ (t : Engine) (inp : Int × Int), (frame sinf t inp).1.toggles = t.toggles :=
    fun t inp => frame_toggles sinf t inp
  refine ⟨fun h => ?_, fun h => ?_, fun h => ?_, fun h => ?_, fun h => ?_, fun h => ?_⟩
  · have := runFrames_preserves sinf Engine.echoPart (fun t => t.echo_enabled = false)
      (fun t inp ht => (congrArg (fun x => x.1) (tog t inp)).trans ht)
      (fun t inp ht => frame_echo_off sinf t inp ht) s block h
    simpa [Engine.echoPart] using this
  · have := runFrames_preserves sinf Engine.reverbPart (fun t => t.reverb_enabled = false)
      (fun t inp ht => (congrArg (fun x => x.2.1) (tog t inp)).trans ht)
      (fun t inp ht => frame_reverb_off sinf t inp ht) s block h
    simp only [Engine.reverbPart, Prod.mk.injEq] at this
    tauto
  · have := runFrames_preserves sinf Engine.chorusPart (fun t => t.chorus_enabled = false)
      (fun t inp ht => (congrArg (fun x => x.2.2.1) (tog t inp)).trans ht)
      (fun t inp ht => frame_chorus_off sinf t inp ht) s block h
    simp only [Engine.chorusPart, Prod.mk.injEq] at this
    tauto
  · exact runFrames_preserves sinf Engine.vibrato_phase (fun t => t.vibrato_enabled = false)
      (fun t inp ht => (congrArg (fun x => x.2.2.2.1) (tog t inp)).trans ht)
      (fun t inp ht => frame_vibrato_off sinf t inp ht) s block h
  · exact runFrames_preserves sinf Engine.tremolo_phase (fun t => t.tremolo_enabled = false)
      (fun t inp ht => (congrArg (fun x => x.2.2.2.2.1) (tog t inp)).trans ht)
      (fun t inp ht => frame_tremolo_off sinf t inp ht) s block h
  · have := runFrames_preserves sinf Engine.stereoPart (fun t => t.stereo_enabled = false)
      (fun t inp ht => (congrArg (fun x => x.2.2.2.2.2) (tog t inp)).trans ht)
      (fun t inp ht => frame_stereo_off sinf t inp ht) s block h
    simpa [Engine.stereoPart] using this

/-- Witness for C6: a block of two frames processed with all six effects switched off on top
of the initial state leaves every delay line, cursor and phase as it was. -/
theorem frozen_state_witness :
    (allOff init).echo_enabled = false ∧ (allOff init).reverb_enabled = false ∧
    (allOff init).chorus_enabled = false ∧ (allOff init).vibrato_enabled = false ∧
    (allOff init).tremolo_enabled = false ∧ (allOff init).stereo_enabled = false ∧
    (audio_effect (fun _ => 0) (allOff init) [(1000, -2000), (30000, 7)]).1.echo_pos = 0 ∧
    (audio_effect (fun _ => 0) (allOff init) [(1000, -2000), (30000, 7)]).1.reverb_pos3 = 0 ∧
    (audio_effect (fun _ => 0) (allOff init) [(1000, -2000), (30000, 7)]).1.chorus_phase1
      = f32 (1 / 2) ∧
    (audio_effect (fun _ => 0) (allOff init) [(1000, -2000), (30000, 7)]).1.vibrato_phase
      = f32 0 ∧
    (audio_effect (fun _ => 0) (allOff init) [(1000, -2000), (30000, 7)]).1.tremolo_phase
      = f32 0 ∧
    (audio_effect (fun _ => 0) (allOff init) [(1000, -2000), (30000, 7)]).1.stereo_pos = 0 :=
  have h := frozen_state (fun _ => 0) (allOff init) [(1000, -2000), (30000, 7)]
  ⟨rfl, rfl, rfl, rfl, rfl, rfl, (h.1 rfl).2, (h.2.1 rfl).2.2.2.2.2.2.2.1,
    (h.2.2.1 rfl).2.2.2.2.2.2.1, h.2.2.2.1 rfl, h.2.2.2.2.1 rfl, (h.2.2.2.2.2 rfl).2⟩

/-! ## Silence -/

theorem update_zero (f : Int → Int) (p i : Int) (h : f i = 0) : Function.update f p 0 i = 0 := by
  by_cases hi : i = p
  · subst hi; simp
  · simp [Function.update_noteq hi, h]

theorem downmix_silent {a : Acc} (h : a.silent) : downmix a = 0 := by
  obtain ⟨h1, h2, -⟩ := h
  simp [downmix, h1, h2, toSint16_zero]

theorem volumeStage_silent (s : Engine) (h : buffersZero s) : (volumeStage s (0, 0)).silent := by
  simp [Acc.silent, volumeStage, i2f_zero, f32_zero, castSint16_zero, h]

theorem echoStage_silent {a : Acc} (h : a.silent) : (echoStage a).silent := by
  have hd := downmix_silent h
  obtain ⟨h1, h2, h3, h4, hb⟩ := h
  unfold echoStage
  split_ifs
  · refine ⟨h1, h2, ?_, ?_, fun i => ?_⟩
    · simp [(hb _).1, h3, i2f_zero, f32_zero, addAssign_zero]
    · simp [(hb _).1, h4, i2f_zero, f32_zero, addAssign_zero]
    · have := hb i
      simp only [hd]
      exact ⟨update_zero _ _ _ this.1, this.2⟩
  · exact ⟨h1, h2, h3, h4, hb⟩

theorem reverbStage_silent {a : Acc} (h : a.silent) : (reverbStage a).silent := by
  obtain ⟨h1, h2, h3, h4, hb⟩ := h
  unfold reverbStage
  split_ifs
  · have e1 := (hb a.s.reverb_pos1).2.1
    have e2 := (hb a.s.reverb_pos2).2.2.1
    have e3 := (hb a.s.reverb_pos3).2.2.2.1
    have e4 := (hb a.s.reverb_pos4).2.2.2.2.1
    have e5 := (hb a.s.reverb_pos5).2.2.2.2.2.1
    refine ⟨h1, h2, ?_, ?_, fun i => ?_⟩
    · simp [e1, e2, e3, e4, e5, h3, i2f_zero, f32_zero, castSint16_zero, addAssign_zero]
    · simp [e1, e2, e3, e4, e5, h4, i2f_zero, f32_zero, castSint16_zero, addAssign_zero]
    · have := hb i
      simp only [e1, e2, e3, e4, e5, h1, h2, i2f_zero, f32_zero, castSint16_zero, zero_mul,
        add_zero, Int.zero_tdiv, Int.cast_zero]
      exact ⟨this.1, update_zero _ _ _ this.2.1, update_zero _ _ _ this.2.2.1,
        update_zero _ _ _ this.2.2.2.1, update_zero _ _ _ this.2.2.2.2.1,
        update_zero _ _ _ this.2.2.2.2.2.1, this.2.2.2.2.2.2⟩
  · exact ⟨h1, h2, h3, h4, hb⟩

theorem chorusStage_silent (sinf : ℚ → ℚ) {a : Acc} (h : a.silent) :
    (chorusStage sinf a).silent := by
  have hd := downmix_silent h
  obtain ⟨h1, h2, h3, h4, hb⟩ := h
  unfold chorusStage
  split_ifs
  · have e1 := fun i => (hb i).2.2.2.2.2.2.1
    have e2 := fun i => (hb i).2.2.2.2.2.2.2.1
    have e3 := fun i => (hb i).2.2.2.2.2.2.2.2.1
    refine ⟨h1, h2, ?_, ?_, fun i => ?_⟩
    · simp [e1, e2, e3, h3, i2f_zero, f32_zero, castSint16_zero, addAssign_zero]
    · simp [e1, e2, e3, h4, i2f_zero, f32_zero, castSint16_zero, addAssign_zero]
    · have := hb i
      simp only [hd]
      exact ⟨this.1, this.2.1, this.2.2.1, this.2.2.2.1, this.2.2.2.2.1, this.2.2.2.2.2.1,
        update_zero _ _ _ (e1 i), update_zero _ _ _ (e2 i), update_zero _ _ _ (e3 i),
        this.2.2.2.2.2.2.2.2.2⟩
  · exact ⟨h1, h2, h3, h4, hb⟩

theorem vibratoStage_silent (sinf : ℚ → ℚ) {a : Acc} (h : a.silent) :
    (vibratoStage sinf a).silent := by
  obtain ⟨h1, h2, h3, h4, hb⟩ := h
  unfold vibratoStage
  split_ifs
  · exact ⟨h1, h2, by simp [h3, i2f_zero, f32_zero, truncQ_zero],
      by simp [h4, i2f_zero, f32_zero, truncQ_zero], hb⟩
  · exact ⟨h1, h2, h3, h4, hb⟩

theorem tremoloStage_silent (sinf : ℚ → ℚ) {a : Acc} (h : a.silent) :
    (tremoloStage sinf a).silent := by
  obtain ⟨h1, h2, h3, h4, hb⟩ := h
  unfold tremoloStage
  split_ifs
  · exact ⟨h1, h2, by simp [h3, i2f_zero, f32_zero, truncQ_zero],
      by simp [h4, i2f_zero, f32_zero, truncQ_zero], hb⟩
  · exact ⟨h1, h2, h3, h4, hb⟩

theorem stereoStage_silent {a : Acc} (h : a.silent) : (stereoStage a).silent := by
  have hd := downmix_silent h
  obtain ⟨h1, h2, h3, h4, hb⟩ := h
  unfold stereoStage
  split_ifs
  · have e := (hb a.s.stereo_pos).2.2.2.2.2.2.2.2.2
    refine ⟨h1, h2, ?_, ?_, fun i => ?_⟩
    · simp [e, h3, i2f_zero, f32_zero, truncQ_zero]
    · simp [e, h4, i2f_zero, f32_zero, truncQ_zero]
    · have := hb i
      simp only [hd]
      exact ⟨this.1, this.2.1, this.2.2.1, this.2.2.2.1, this.2.2.2.2.1, this.2.2.2.2.2.1,
        this.2.2.2.2.2.2.1, this.2.2.2.2.2.2.2.1, this.2.2.2.2.2.2.2.2.1,
        update_zero _ _ _ this.2.2.2.2.2.2.2.2.2⟩
  · exact ⟨h1, h2, h3, h4, hb⟩

theorem frame_silent (sinf : ℚ → ℚ) (s : Engine) (h : buffersZero s) :
    (frame sinf s (0, 0)).2 = (0, 0) ∧ buffersZero (frame sinf s (0, 0)).1 := by
  have := stereoStage_silent (tremoloStage_silent sinf (vibratoStage_silent sinf
    (chorusStage_silent sinf (reverbStage_silent (echoStage_silent (volumeStage_silent s h))))))
  obtain ⟨-, -, h3, h4, hb⟩ := this
  exact ⟨by simp only [frame, frameAcc, h3, h4], hb⟩

theorem runFrames_silent (sinf : ℚ → ℚ) (n : Nat) (s : Engine) (h : buffersZero s) :
    (runFrames sinf s (List.replicate n (0, 0))).2 = List.replicate n (0, 0) ∧
      buffersZero (runFrames sinf s (List.replicate n (0, 0))).1 := by
  induction n generalizing s with
  | zero => exact ⟨rfl, h⟩
  | succ k ih =>
    obtain ⟨f1, f2⟩ := frame_silent sinf s h
    obtain ⟨g1, g2⟩ := ih _ f2
    simp only [List.replicate_succ, runFrames]
    exact ⟨by rw [f1, g1], g2⟩

theorem blockPeak_replicate_zero (n : Nat) : blockPeak (List.replicate n (0, 0)) = 0 := by
  unfold blockPeak
  induction n with
  | zero => rfl
  | succ k ih => simpa [List.replicate_succ, peakStep] using ih

theorem buffersZero_init : buffersZero init := fun _ => by simp [init]

/-- C7 (silence in, silence out): from the initial state (default parameters, all six effects
enabled), a block of `n` all-zero frames comes out as `n` all-zero frames, for every `n` and
every `sinf`, and all ten delay lines are still all zero afterwards. -/
theorem silence_in_silence_out (sinf : ℚ → ℚ) (n : Nat) :
    (audio_effect sinf init (List.replicate n (0, 0))).2 = List.replicate n (0, 0) ∧
    buffersZero (audio_effect sinf init (List.replicate n (0, 0))).1 := by
  obtain ⟨h1, h2⟩ := runFrames_silent sinf n init buffersZero_init
  refine ⟨?_, by rw [audio_effect_state]; exact h2⟩
  simp only [audio_effect, h1, blockPeak_replicate_zero]
  simp [store, toSint16_zero]

/-! ## Cursors -/

theorem tmod_succ_eq {p N : Int} (h0 : 0 ≤ p) (hN : 0 < N) : (p + 1).tmod N = (p + 1) % N :=
  Int.tmod_eq_emod (by omega) (by omega)

section cursors
variable (sinf : ℚ → ℚ) (s : Engine) (inp : Int × Int)

theorem frame_echoPart :
    (frame sinf s inp).1.echoPart = (echoStage (volumeStage s inp)).s.echoPart := by
  simp [frame, frameAcc]

theorem frame_reverbPart :
    (frame sinf s inp).1.reverbPart
      = (reverbStage (echoStage (volumeStage s inp))).s.reverbPart := by
  simp [frame, frameAcc]

theorem frame_chorusPart :
    (frame sinf s inp).1.chorusPart
      = (chorusStage sinf (reverbStage (echoStage (volumeStage s inp)))).s.chorusPart := by
  simp [frame, frameAcc]

theorem frame_echo_pos :
    (frame sinf s inp).1.echo_pos
      = if s.echo_enabled then (s.echo_pos + 1).tmod ECHO_DELAY else s.echo_pos := by
  have h := congrArg Prod.snd (frame_echoPart sinf s inp)
  simp only [Engine.echoPart] at h
  rw [h]
  unfold echoStage
  simp only [volumeStage_s]
  split_ifs <;> rfl

theorem frame_reverb_pos :
    ((frame sinf s inp).1.reverb_pos1
      = if s.reverb_enabled then (s.reverb_pos1 + 1).tmod REVERB_DELAY_1 else s.reverb_pos1) ∧
    ((frame sinf s inp).1.reverb_pos2
      = if s.reverb_enabled then (s.reverb_pos2 + 1).tmod REVERB_DELAY_2 else s.reverb_pos2) ∧
    ((frame sinf s inp).1.reverb_pos3
      = if s.reverb_enabled then (s.reverb_pos3 + 1).tmod REVERB_DELAY_3 else s.reverb_pos3) ∧
    ((frame sinf s inp).1.reverb_pos4
      = if s.reverb_enabled then (s.reverb_pos4 + 1).tmod REVERB_DELAY_4 else s.reverb_pos4) ∧
    ((frame sinf s inp).1.reverb_pos5
      = if s.reverb_enabled then (s.reverb_pos5 + 1).tmod REVERB_DELAY_5 else s.reverb_pos5) := by
  have h := frame_reverbPart sinf s inp
  have ht : (echoStage (volumeStage s inp)).s.toggles = s.toggles := by simp [volumeStage_s]
  have hr : (echoStage (volumeStage s inp)).s.reverbPart = s.reverbPart := by
    simp [volumeStage_s]
  have hen : (echoStage (volumeStage s inp)).s.reverb_enabled = s.reverb_enabled :=
    congrArg (fun t => t.2.1) ht
  simp only [Engine.reverbPart, Prod.mk.injEq] at h hr
  obtain ⟨⟨-, h1⟩, ⟨-, h2⟩, ⟨-, h3⟩, ⟨-, h4⟩, ⟨-, h5⟩⟩ := h
  obtain ⟨⟨-, r1⟩, ⟨-, r2⟩, ⟨-, r3⟩, ⟨-, r4⟩, ⟨-, r5⟩⟩ := hr
  rw [h1, h2, h3, h4, h5, ← hen, ← r1, ← r2, ← r3, ← r4, ← r5]
  unfold reverbStage
  split_ifs <;> exact ⟨rfl, rfl, rfl, rfl, rfl⟩

theorem frame_chorus_pos :
    ((frame sinf s inp).1.chorus_pos1
      = if s.chorus_enabled then (s.chorus_pos1 + 1).tmod CHORUS_DELAY_1 else s.chorus_pos1) ∧
    ((frame sinf s inp).1.chorus_pos2
      = if s.chorus_enabled then (s.chorus_pos2 + 1).tmod CHORUS_DELAY_2 else s.chorus_pos2) ∧
    ((frame sinf s inp).1.chorus_pos3
      = if s.chorus_enabled then (s.chorus_pos3 + 1).tmod CHORUS_DELAY_3 else s.chorus_pos3) := by
  have h := frame_chorusPart sinf s inp
  have ht : (reverbStage (echoStage (volumeStage s inp))).s.toggles = s.toggles := by
    simp [volumeStage_s]
  have hr : (reverbStage (echoStage (volumeStage s inp))).s.chorusPart = s.chorusPart := by
    simp [volumeStage_s]
  have hen : (reverbStage (echoStage (volumeStage s inp))).s.chorus_enabled = s.chorus_enabled :=
    congrArg (fun t => t.2.2.1) ht
  simp only [Engine.chorusPart, Prod.mk.injEq] at h hr
  obtain ⟨⟨-, h1, -⟩, ⟨-, h2, -⟩, ⟨-, h3, -⟩⟩ := h
  obtain ⟨⟨-, r1, -⟩, ⟨-, r2, -⟩, ⟨-, r3, -⟩⟩ := hr
  rw [h1, h2, h3, ← hen, ← r1, ← r2, ← r3]
  unfold chorusStage
  split_ifs <;> exact ⟨rfl, rfl, rfl⟩

theorem frame_stereo_pos :
    (frame sinf s inp).1.stereo_pos
      = if s.stereo_enabled then (s.stereo_pos + 1).tmod STEREO_DELAY else s.stereo_pos := by
  have ht : (tremoloStage sinf (vibratoStage sinf (chorusStage sinf (reverbStage (echoStage
      (volumeStage s inp)))))).s.toggles = s.toggles := by simp [volumeStage_s]
  have hr : (tremoloStage sinf (vibratoStage sinf (chorusStage sinf (reverbStage (echoStage
      (volumeStage s inp)))))).s.stereoPart = s.stereoPart := by simp [volumeStage_s]
  have hen := congrArg (fun t => t.2.2.2.2.2) ht
  have hp := congrArg Prod.snd hr
  simp only [Engine.stereoPart, Engine.toggles] at hen hp
  rw [← hen, ← hp]
  simp only [frame, frameAcc]
  unfold stereoStage
  split_ifs <;> rfl

end cursors

theorem cursorsInRange_frame (sinf : ℚ → ℚ) (s : Engine) (inp : Int × Int)
    (h : cursorsInRange s) : cursorsInRange (frame sinf s inp).1 := by
  obtain ⟨he, h1, h2, h3, h4, h5, c1, c2, c3, hs⟩ := h
  obtain ⟨r1, r2, r3, r4, r5⟩ := frame_reverb_pos sinf s inp
  obtain ⟨k1, k2, k3⟩ := frame_chorus_pos sinf s inp
  unfold cursorsInRange
  rw [frame_echo_pos, frame_stereo_pos, r1, r2, r3, r4, r5, k1, k2, k3]
  rw [tmod_succ_eq he.1 (by decide), tmod_succ_eq h1.1 (by decide), tmod_succ_eq h2.1 (by decide),
    tmod_succ_eq h3.1 (by decide), tmod_succ_eq h4.1 (by decide), tmod_succ_eq h5.1 (by decide),
    tmod_succ_eq c1.1 (by decide), tmod_succ_eq c2.1 (by decide), tmod_succ_eq c3.1 (by decide),
    tmod_succ_eq hs.1 (by decide)]
  simp only [ECHO_DELAY_eq, REVERB_DELAY_1_eq, REVERB_DELAY_2_eq, REVERB_DELAY_3,
    REVERB_DELAY_4_eq, REVERB_DELAY_5_eq, CHORUS_DELAY_1_eq, CHORUS_DELAY_2, CHORUS_DELAY_3_eq,
    STEREO_DELAY_eq]
  refine ⟨?_, ?_, ?_, ?_, ?_, ?_, ?_, ?_, ?_, ?_⟩ <;> split_ifs <;> omega

theorem cursorsInRange_of_reachable (sinf : ℚ → ℚ) (s : Engine) (h : Reachable sinf s) :
    cursorsInRange s := by
  induction h with
  | init => simp [cursorsInRange, init]
  | frame s inp _ ih => exact cursorsInRange_frame sinf s inp ih
  | control s c _ ih => exact ih

/-- C8 (cursor invariant): in every reachable state each of the ten cursors lies in `[0, N)`
for the capacity `N` of its line; processing a frame with the owning stage enabled moves the
cursor to `(cursor + 1) mod N`; and the chorus read index `(pos - D + D) % D` is the cursor
itself, so all indices used to read and write the delay lines are in bounds. -/
theorem cursor_invariant (sinf : ℚ → ℚ) (s : Engine) (h : Reachable sinf s) :
    cursorsInRange s ∧
    (∀ inp : Int × Int,
      (s.echo_enabled = true → (frame sinf s inp).1.echo_pos = (s.echo_pos + 1) % 11025) ∧
      (s.reverb_enabled = true →
        (frame sinf s inp).1.reverb_pos1 = (s.reverb_pos1 + 1) % 2205 ∧
        (frame sinf s inp).1.reverb_pos2 = (s.reverb_pos2 + 1) % 4410 ∧
        (frame sinf s inp).1.reverb_pos3 = (s.reverb_pos3 + 1) % 6610 ∧
        (frame sinf s inp).1.reverb_pos4 = (s.reverb_pos4 + 1) % 1764 ∧
        (frame sinf s inp).1.reverb_pos5 = (s.reverb_pos5 + 1) % 3675) ∧
      (s.chorus_enabled = true →
        (frame sinf s inp).1.chorus_pos1 = (s.chorus_pos1 + 1) % 441 ∧
        (frame sinf s inp).1.chorus_pos2 = (s.chorus_pos2 + 1) % 661 ∧
        (frame sinf s inp).1.chorus_pos3 = (s.chorus_pos3 + 1) % 882) ∧
      (s.stereo_enabled = true → (frame sinf s inp).1.stereo_pos = (s.stereo_pos + 1) % 220)) ∧
    (s.chorus_pos1 - CHORUS_DELAY_1 + CHORUS_DELAY_1).tmod CHORUS_DELAY_1 = s.chorus_pos1 ∧
    (s.chorus_pos2 - CHORUS_DELAY_2 + CHORUS_DELAY_2).tmod CHORUS_DELAY_2 = s.chorus_pos2 ∧
    (s.chorus_pos3 - CHORUS_DELAY_3 + CHORUS_DELAY_3).tmod CHORUS_DELAY_3 = s.chorus_pos3 := by
  have hc := cursorsInRange_of_reachable sinf s h
  obtain ⟨he, h1, h2, h3, h4, h5, c1, c2, c3, hs⟩ := id hc
  refine ⟨hc, fun inp => ⟨fun en => ?_, fun en => ?_, fun en => ?_, fun en => ?_⟩, ?_, ?_, ?_⟩
  · rw [frame_echo_pos, if_pos en, tmod_succ_eq he.1 (by decide), ECHO_DELAY_eq]
  · obtain ⟨r1, r2, r3, r4, r5⟩ := frame_reverb_pos sinf s inp
    rw [r1, r2, r3, r4, r5]
    simp only [if_pos en]
    rw [tmod_succ_eq h1.1 (by decide), tmod_succ_eq h2.1 (by decide),
      tmod_succ_eq h3.1 (by decide), tmod_succ_eq h4.1 (by decide),
      tmod_succ_eq h5.1 (by decide), REVERB_DELAY_1_eq, REVERB_DELAY_2_eq, REVERB_DELAY_3,
      REVERB_DELAY_4_eq, REVERB_DELAY_5_eq]
    exact ⟨rfl, rfl, rfl, rfl, rfl⟩
  · obtain ⟨k1, k2, k3⟩ := frame_chorus_pos sinf s inp
    rw [k1, k2, k3]
    simp only [if_pos en]
    rw [tmod_succ_eq c1.1 (by decide), tmod_succ_eq c2.1 (by decide),
      tmod_succ_eq c3.1 (by decide), CHORUS_DELAY_1_eq, CHORUS_DELAY_2, CHORUS_DELAY_3_eq]
    exact ⟨rfl, rfl, rfl⟩
  · rw [frame_stereo_pos, if_pos en, tmod_succ_eq hs.1 (by decide), STEREO_DELAY_eq]
  · rw [CHORUS_DELAY_1_eq, sub_add_cancel]
    exact Int.tmod_eq_of_lt c1.1 c1.2
  · rw [CHORUS_DELAY_2, sub_add_cancel]
    exact Int.tmod_eq_of_lt c2.1 c2.2
  · rw [CHORUS_DELAY_3_eq, sub_add_cancel]
    exact Int.tmod_eq_of_lt c3.1 c3.2

/-- Witness for C8: the state after one frame from the initial state is reachable, and the
invariant and the advance law hold there. -/
theorem cursor_invariant_witness :
    Reachable (fun _ => 0) (frame (fun _ => 0) init (100, -200)).1 ∧
    cursorsInRange (frame (fun _ => 0) init (100, -200)).1 :=
  ⟨Reachable.frame init (100, -200) Reachable.init,
    (cursor_invariant (fun _ => 0) _ (Reachable.frame init (100, -200) Reachable.init)).1⟩

/-! ## The block peak -/

theorem le_peakStep (m : Int) (acc : Int × Int) :
    m ≤ peakStep m acc ∧ |acc.1| ≤ peakStep m acc ∧ |acc.2| ≤ peakStep m acc := by
  simp only [peakStep]
  refine ⟨?_, ?_, ?_⟩ <;> split_ifs <;> omega

theorem le_foldl_peakStep (accs : List (Int × Int)) (m : Int) : m ≤ accs.foldl peakStep m := by
  induction accs generalizing m with
  | nil => exact le_refl m
  | cons a rest ih => exact le_trans (le_peakStep m a).1 (ih _)

theorem abs_le_foldl_peakStep (accs : List (Int × Int)) (m : Int) (a : Int × Int)
    (ha : a ∈ accs) : |a.1| ≤ accs.foldl peakStep m ∧ |a.2| ≤ accs.foldl peakStep m := by
  induction accs generalizing m with
  | nil => cases ha
  | cons b rest ih =>
    rcases List.mem_cons.1 ha with rfl | hmem
    · exact ⟨le_trans (le_peakStep m a).2.1 (le_foldl_peakStep rest _),
        le_trans (le_peakStep m a).2.2 (le_foldl_peakStep rest _)⟩
    · exact ih _ hmem

/-- The value of `max_amplitude` dominates the magnitude of every accumulator of the block. -/
theorem abs_le_blockPeak (accs : List (Int × Int)) (a : Int × Int) (ha : a ∈ accs) :
    |a.1| ≤ blockPeak accs ∧ |a.2| ≤ blockPeak accs :=
  abs_le_foldl_peakStep accs 0 a ha

theorem store_of_abs_le (a : Int × Int) (h1 : |a.1| ≤ 32767) (h2 : |a.2| ≤ 32767) :
    store a = a := by
  have := abs_le.1 h1
  have := abs_le.1 h2
  unfold store
  rw [toSint16_of_range (by omega) (by omega), toSint16_of_range (by omega) (by omega)]

/-- Without rescale the block holds the accumulators themselves. -/
theorem audio_effect_within_headroom (sinf : ℚ → ℚ) (s : Engine) (block : List (Int × Int))
    (h : blockPeak (runFrames sinf s block).2 ≤ 32767) :
    (audio_effect sinf s block).2 = (runFrames sinf s block).2 := by
  simp only [audio_effect]
  rw [if_neg (by omega)]
  show List.map store (runFrames sinf s block).2 = (runFrames sinf s block).2
  conv_rhs => rw [← List.map_id (runFrames sinf s block).2]
  refine List.map_congr_left fun a ha => ?_
  obtain ⟨h1, h2⟩ := abs_le_blockPeak _ a ha
  exact store_of_abs_le a (le_trans h1 h) (le_trans h2 h)

/-- C2: if the block peak `P` (the maximum magnitude of the final left and right accumulators
over the frames of the block) is at most 32767, then `audio_effect` leaves in the block exactly
the final accumulators of every frame: no rescaling and no 16-bit wrap-around. -/
theorem no_rescale_within_headroom (sinf : ℚ → ℚ) (s : Engine) (block : List (Int × Int))
    (h : blockPeak (runFrames sinf s block).2 ≤ 32767) :
    (audio_effect sinf s block).2 = (runFrames sinf s block).2 :=
  audio_effect_within_headroom sinf s block h

/-- Witness for C2: two frames from the initial state with `sinf` constantly 0; the peak is
18104 and the block holds the accumulators themselves. -/
theorem no_rescale_within_headroom_witness :
    blockPeak (runFrames (fun _ => 0) init [(100, -200), (32767, -32768)]).2 ≤ 32767 ∧
    (audio_effect (fun _ => 0) init [(100, -200), (32767, -32768)]).2
      = (runFrames (fun _ => 0) init [(100, -200), (32767, -32768)]).2 :=
  ⟨by decide!, no_rescale_within_headroom _ _ _ (by decide!)⟩

/-! ## Powers of two and binary exponents -/

theorem log2Fuel_spec (fuel n : Nat) (hn : 1 ≤ n) (hf : n ≤ fuel) :
    2 ^ log2Fuel fuel n ≤ n ∧ n < 2 ^ (log2Fuel fuel n + 1) := by
  induction fuel generalizing n with
  | zero => omega
  | succ k ih =>
    unfold log2Fuel
    split_ifs with h2
    · constructor <;> simp <;> omega
    · obtain ⟨h3, h4⟩ := ih (n / 2) (by omega) (by omega)
      constructor
      · calc 2 ^ (log2Fuel k (n / 2) + 1) = 2 ^ log2Fuel k (n / 2) * 2 := pow_succ _ _
          _ ≤ n / 2 * 2 := Nat.mul_le_mul_right 2 h3
          _ ≤ n := Nat.div_mul_le_self n 2
      · have : n / 2 + 1 ≤ 2 ^ (log2Fuel k (n / 2) + 1) := h4
        calc n < (n / 2 + 1) * 2 := by omega
          _ ≤ 2 ^ (log2Fuel k (n / 2) + 1) * 2 := Nat.mul_le_mul_right 2 this
          _ = 2 ^ (log2Fuel k (n / 2) + 1 + 1) := (pow_succ _ _).symm

theorem nlog2_spec (n : Nat) (hn : 1 ≤ n) : 2 ^ nlog2 n ≤ n ∧ n < 2 ^ (nlog2 n + 1) :=
  log2Fuel_spec n n hn (le_refl n)

theorem pow2_eq_zpow (e : Int) : pow2 e = (2 : ℚ) ^ e := by
  unfold pow2
  split_ifs with h
  · obtain ⟨n, rfl⟩ := Int.eq_ofNat_of_zero_le h
    simp
  · obtain ⟨n, hn⟩ := Int.eq_ofNat_of_zero_le (show 0 ≤ -e by omega)
    have he : e = -(n : Int) := by omega
    subst he
    simp

theorem pow2_pos (e : Int) : 0 < pow2 e := by
  rw [pow2_eq_zpow]; exact zpow_pos (by norm_num) e

theorem pow2_ne_zero (e : Int) : pow2 e ≠ 0 := (pow2_pos e).ne'

theorem pow2_add (a b : Int) : pow2 (a + b) = pow2 a * pow2 b := by
  simp only [pow2_eq_zpow]; exact zpow_add₀ (by norm_num) a b

theorem pow2_zero : pow2 0 = 1 := by simp [pow2_eq_zpow]

theorem pow2_one : pow2 1 = 2 := by simp [pow2_eq_zpow]

theorem pow2_succ (a : Int) : pow2 (a + 1) = 2 * pow2 a := by
  rw [pow2_add, pow2_one, mul_comm]

theorem pow2_le_pow2 {a b : Int} (h : a ≤ b) : pow2 a ≤ pow2 b := by
  simp only [pow2_eq_zpow]; exact zpow_le_zpow_right₀ (by norm_num) h

theorem pow2_lt_pow2 {a b : Int} (h : a < b) : pow2 a < pow2 b := by
  simp only [pow2_eq_zpow]; exact zpow_lt_zpow_right₀ (by norm_num) h

theorem pow2_lt_pow2_iff {a b : Int} : pow2 a < pow2 b ↔ a < b := by
  simp only [pow2_eq_zpow]; exact zpow_lt_zpow_iff_right₀ (by norm_num)

theorem pow2_le_pow2_iff {a b : Int} : pow2 a ≤ pow2 b ↔ a ≤ b := by
  simp only [pow2_eq_zpow]; exact zpow_le_zpow_iff_right₀ (by norm_num)

theorem pow2_natCast (n : Nat) : pow2 (n : Int) = (2 : ℚ) ^ n := by
  simp [pow2_eq_zpow]

theorem pow2_sub (a b : Int) : pow2 (a - b) = pow2 a / pow2 b := by
  simp only [pow2_eq_zpow]; exact zpow_sub₀ (by norm_num) a b

/-- For `k ≥ 0` the power `2 ^ k` is an integer. -/
theorem pow2_of_nonneg {k : Int} (hk : 0 ≤ k) : pow2 k = (((2 : Int) ^ k.toNat : Int) : ℚ) := by
  obtain ⟨n, rfl⟩ := Int.eq_ofNat_of_zero_le hk
  simp [pow2_eq_zpow]

/-- The binary exponent brackets the magnitude. -/
theorem ilog2_spec (x : ℚ) (hx : x ≠ 0) : pow2 (ilog2 x) ≤ |x| ∧ |x| < pow2 (ilog2 x + 1) := by
  have hnum : 1 ≤ x.num.natAbs := Nat.one_le_iff_ne_zero.2 (by simpa using hx)
  have hden : 1 ≤ x.den := x.den_pos
  obtain ⟨a1, a2⟩ := nlog2_spec _ hnum
  obtain ⟨b1, b2⟩ := nlog2_spec _ hden
  have habs : |x| = (x.num.natAbs : ℚ) / (x.den : ℚ) := by
    have h1 : |x| = |(x.num : ℚ)| / (x.den : ℚ) := by
      conv_lhs => rw [← Rat.num_div_den x]
      rw [abs_div, Nat.abs_cast]
    rw [h1, ← Int.cast_abs, Int.abs_eq_natAbs, Int.cast_natCast]
  have hdpos : (0 : ℚ) < x.den := by exact_mod_cast hden
  set A := nlog2 x.num.natAbs with hA
  set B := nlog2 x.den with hB
  have a1q : (2 : ℚ) ^ A ≤ (x.num.natAbs : ℚ) := by exact_mod_cast a1
  have a2q : (x.num.natAbs : ℚ) < (2 : ℚ) ^ (A + 1) := by exact_mod_cast a2
  have b1q : (2 : ℚ) ^ B ≤ (x.den : ℚ) := by exact_mod_cast b1
  have b2q : (x.den : ℚ) < (2 : ℚ) ^ (B + 1) := by exact_mod_cast b2
  have hBpos : (0 : ℚ) < (2 : ℚ) ^ B := by positivity
  -- 2^(A-B-1) < |x| < 2^(A-B+1)
  have lo : pow2 ((A : Int) - B - 1) < |x| := by
    rw [habs, lt_div_iff₀ hdpos]
    have : pow2 ((A : Int) - B - 1) * (2 : ℚ) ^ (B + 1) = (2 : ℚ) ^ A := by
      rw [← pow2_natCast, ← pow2_natCast, ← pow2_add]; congr 1; push_cast; ring
    calc pow2 ((A : Int) - B - 1) * (x.den : ℚ)
        < pow2 ((A : Int) - B - 1) * (2 : ℚ) ^ (B + 1) :=
          mul_lt_mul_of_pos_left b2q (pow2_pos _)
      _ = (2 : ℚ) ^ A := this
      _ ≤ _ := a1q
  have hi : |x| < pow2 ((A : Int) - B + 1) := by
    rw [habs, div_lt_iff₀ hdpos]
    have : pow2 ((A : Int) - B + 1) * (2 : ℚ) ^ B = (2 : ℚ) ^ (A + 1) := by
      rw [← pow2_natCast, ← pow2_natCast, ← pow2_add]; congr 1; push_cast; ring
    calc (x.num.natAbs : ℚ) < (2 : ℚ) ^ (A + 1) := a2q
      _ = pow2 ((A : Int) - B + 1) * (2 : ℚ) ^ B := this.symm
      _ ≤ pow2 ((A : Int) - B + 1) * (x.den : ℚ) :=
          mul_le_mul_of_nonneg_left b1q (pow2_pos _).le
  unfold ilog2
  simp only [← hA, ← hB]
  split_ifs with h
  · refine ⟨lo.le, ?_⟩
    rw [sub_add_cancel]; exact h
  · exact ⟨le_of_not_lt h, hi⟩

/-- The binary exponent is determined by the bracket. -/
theorem ilog2_eq_of_bounds {x : ℚ} {e : Int} (h1 : pow2 e ≤ |x|) (h2 : |x| < pow2 (e + 1)) :
    ilog2 x = e := by
  have hx : x ≠ 0 := by
    intro h0; rw [h0, abs_zero] at h1; exact absurd (pow2_pos e) (not_lt.2 h1)
  obtain ⟨s1, s2⟩ := ilog2_spec x hx
  have u1 : pow2 e < pow2 (ilog2 x + 1) := lt_of_le_of_lt h1 s2
  have u2 : pow2 (ilog2 x) < pow2 (e + 1) := lt_of_le_of_lt s1 h2
  rw [pow2_lt_pow2_iff] at u1 u2
  omega

/-! ## Rounding to the nearest integer -/

theorem rne_intCast (n : Int) : rne (n : ℚ) = n := by
  simp [rne]

theorem floor_le_rne (y : ℚ) : ⌊y⌋ ≤ rne y := by
  simp only [rne]; split_ifs <;> omega

theorem rne_le_floor_add_one (y : ℚ) : rne y ≤ ⌊y⌋ + 1 := by
  simp only [rne]; split_ifs <;> omega

theorem rne_mono {y z : ℚ} (h : y ≤ z) : rne y ≤ rne z := by
  have hf : ⌊y⌋ ≤ ⌊z⌋ := Int.floor_mono h
  rcases hf.lt_or_eq with hlt | heq
  · have h1 := rne_le_floor_add_one y
    have h2 := floor_le_rne z
    omega
  · simp only [rne, heq]
    rw [heq] at *
    split_ifs <;> first | omega | (exfalso; linarith)

theorem rne_sub_le (y : ℚ) : (rne y : ℚ) - y ≤ 1 / 2 := by
  have h1 := Int.floor_le y
  have h2 := Int.lt_floor_add_one y
  simp only [rne]
  split_ifs <;> push_cast <;> linarith

theorem sub_rne_le (y : ℚ) : y - (rne y : ℚ) ≤ 1 / 2 := by
  have h1 := Int.floor_le y
  have h2 := Int.lt_floor_add_one y
  simp only [rne]
  split_ifs <;> push_cast <;> linarith

theorem rne_neg (y : ℚ) : rne (-y) = -rne y := by
  by_cases hy : (⌊y⌋ : ℚ) = y
  · rw [← hy, ← Int.cast_neg, rne_intCast, rne_intCast]
  · have hlt : (⌊y⌋ : ℚ) < y := lt_of_le_of_ne (Int.floor_le y) hy
    have hfl : ⌊-y⌋ = -⌊y⌋ - 1 := by
      rw [Int.floor_eq_iff]
      have := Int.lt_floor_add_one y
      push_cast
      constructor <;> linarith
    simp only [rne, hfl]
    have e1 : -y - ((-⌊y⌋ - 1 : Int) : ℚ) = 1 - (y - ⌊y⌋) := by push_cast; ring
    rw [e1]
    split_ifs <;> first | omega | (exfalso; linarith)

/-- `rne` returns the integer that is closer than one half. -/
theorem rne_eq_of_abs_lt {y : ℚ} {n : Int} (h : |y - n| < 1 / 2) : rne y = n := by
  obtain ⟨h1, h2⟩ := abs_lt.1 h
  have a1 : rne ((n : ℚ) - 1 / 2) ≤ rne y := rne_mono (by linarith)
  have a2 : rne y ≤ rne ((n : ℚ) + 1 / 2) := rne_mono (by linarith)
  have b1 := sub_rne_le y
  have b2 := rne_sub_le y
  have c1 : ((rne y : Int) : ℚ) < n + 1 := by linarith
  have c2 : ((n : Int) : ℚ) - 1 < rne y := by linarith
  have d1 : rne y < n + 1 := by exact_mod_cast c1
  have d2 : n - 1 < rne y := by exact_mod_cast c2
  omega

/-! ## Rounding onto the floating-point grid -/

theorem roundBin_of_ne_zero (p : Nat) (emin : Int) {x : ℚ} (hx : x ≠ 0) :
    roundBin p emin x
      = (rne (x / pow2 (max (ilog2 x - ((p : Int) - 1)) emin)) : ℚ)
        * pow2 (max (ilog2 x - ((p : Int) - 1)) emin) := by
  simp [roundBin, hx]

theorem ilog2_neg (x : ℚ) : ilog2 (-x) = ilog2 x := by
  by_cases hx : x = 0
  · simp [hx]
  · obtain ⟨h1, h2⟩ := ilog2_spec x hx
    exact ilog2_eq_of_bounds (by rwa [abs_neg]) (by rwa [abs_neg])

theorem roundBin_neg (p : Nat) (emin : Int) (x : ℚ) :
    roundBin p emin (-x) = -roundBin p emin x := by
  by_cases hx : x = 0
  · simp [hx, roundBin]
  · rw [roundBin_of_ne_zero p emin hx, roundBin_of_ne_zero p emin (neg_ne_zero.2 hx), ilog2_neg,
      neg_div, rne_neg]
    push_cast
    ring

theorem roundBin_nonneg (p : Nat) (emin : Int) {x : ℚ} (hx : 0 ≤ x) : 0 ≤ roundBin p emin x := by
  by_cases h0 : x = 0
  · simp [h0, roundBin]
  · rw [roundBin_of_ne_zero p emin h0]
    have hq := pow2_pos (max (ilog2 x - ((p : Int) - 1)) emin)
    have h1 : (0 : ℚ) ≤ x / pow2 (max (ilog2 x - ((p : Int) - 1)) emin) := div_nonneg hx hq.le
    have h2 : (0 : Int) ≤ rne (x / pow2 (max (ilog2 x - ((p : Int) - 1)) emin)) := by
      have := rne_mono h1
      rwa [show (0 : ℚ) = ((0 : Int) : ℚ) by simp, rne_intCast] at this
    exact mul_nonneg (by exact_mod_cast h2) hq.le

theorem roundBin_nonpos (p : Nat) (emin : Int) {x : ℚ} (hx : x ≤ 0) : roundBin p emin x ≤ 0 := by
  have := roundBin_nonneg p emin (neg_nonneg.2 hx)
  rw [roundBin_neg] at this
  linarith

/-- A number `m * 2 ^ k` with `|m| < 2 ^ p` and `emin ≤ k` is on the grid. -/
theorem roundBin_exact_lt (p : Nat) (emin : Int) (m k : Int) (hm : |m| < 2 ^ p)
    (hk : emin ≤ k) : roundBin p emin ((m : ℚ) * pow2 k) = (m : ℚ) * pow2 k := by
  by_cases h0 : m = 0
  · simp [h0, roundBin]
  have hx : (m : ℚ) * pow2 k ≠ 0 := mul_ne_zero (by exact_mod_cast h0) (pow2_ne_zero k)
  rw [roundBin_of_ne_zero p emin hx]
  obtain ⟨s1, s2⟩ := ilog2_spec _ hx
  set e := ilog2 ((m : ℚ) * pow2 k) with he
  set q := max (e - ((p : Int) - 1)) emin with hq
  -- the magnitude is below 2 ^ (k + p)
  have habs : |(m : ℚ) * pow2 k| < pow2 (k + p) := by
    rw [abs_mul, abs_of_pos (pow2_pos k), pow2_add, mul_comm (pow2 k)]
    apply mul_lt_mul_of_pos_right _ (pow2_pos k)
    rw [pow2_natCast]
    have : ((|m| : Int) : ℚ) < ((2 ^ p : Int) : ℚ) := by exact_mod_cast hm
    simpa using this
  have hek : e < k + p := pow2_lt_pow2_iff.1 (lt_of_le_of_lt s1 habs)
  have hqk : q ≤ k := by
    rw [hq]; exact max_le (by omega) hk
  have hdiv : (m : ℚ) * pow2 k / pow2 q = ((m * 2 ^ (k - q).toNat : Int) : ℚ) := by
    have : pow2 k = pow2 (k - q) * pow2 q := by rw [← pow2_add]; congr 1; ring
    rw [this, ← mul_assoc, mul_div_assoc, div_self (pow2_ne_zero q), mul_one,
      pow2_of_nonneg (by omega : 0 ≤ k - q)]
    push_cast
    ring
  rw [hdiv, rne_intCast]
  have : pow2 k = pow2 (k - q) * pow2 q := by rw [← pow2_add]; congr 1; ring
  rw [this, pow2_of_nonneg (by omega : 0 ≤ k - q)]
  push_cast
  ring

/-- A number `m * 2 ^ k` with `|m| ≤ 2 ^ p` and `emin ≤ k` is on the grid. -/
theorem roundBin_exact (p : Nat) (emin : Int) (hp : 1 ≤ p) (m k : Int) (hm : |m| ≤ 2 ^ p)
    (hk : emin ≤ k) : roundBin p emin ((m : ℚ) * pow2 k) = (m : ℚ) * pow2 k := by
  rcases lt_or_eq_of_le hm with h | h
  · exact roundBin_exact_lt p emin m k h hk
  · -- `m = ± 2 ^ p`: the same number is `± 1 * 2 ^ (k + p)`
    have h1 : |(1 : Int)| < 2 ^ p := by
      have : (2 : Int) ^ 0 < 2 ^ p := pow_lt_pow_right₀ (by norm_num) (by omega)
      simpa using this
    have key := roundBin_exact_lt p emin 1 (k + p) h1 (by omega)
    have e2 : ((1 : Int) : ℚ) * pow2 (k + p) = ((2 ^ p : Int) : ℚ) * pow2 k := by
      rw [pow2_add, pow2_natCast]; push_cast; ring
    rw [e2] at key
    rcases abs_choice m with hm' | hm'
    · rw [hm'] at h
      rw [h]; exact key
    · rw [hm'] at h
      have hmm : m = -(2 ^ p) := by omega
      rw [hmm, Int.cast_neg, neg_mul, roundBin_neg, key]

theorem roundBin_mono_pos (p : Nat) (emin : Int) (hp : 1 ≤ p) {x y : ℚ} (hx : 0 < x)
    (hxy : x ≤ y) : roundBin p emin x ≤ roundBin p emin y := by
  have hy : 0 < y := lt_of_lt_of_le hx hxy
  obtain ⟨x1, x2⟩ := ilog2_spec x hx.ne'
  obtain ⟨y1, y2⟩ := ilog2_spec y hy.ne'
  rw [abs_of_pos hx] at x1 x2
  rw [abs_of_pos hy] at y1 y2
  rw [roundBin_of_ne_zero p emin hx.ne', roundBin_of_ne_zero p emin hy.ne']
  set ex := ilog2 x with hex
  set ey := ilog2 y with hey
  have hexy : ex ≤ ey := by
    have : pow2 ex < pow2 (ey + 1) := lt_of_le_of_lt (le_trans x1 hxy) y2
    rw [pow2_lt_pow2_iff] at this
    omega
  set qx := max (ex - ((p : Int) - 1)) emin with hqx
  set qy := max (ey - ((p : Int) - 1)) emin with hqy
  have hq : qx ≤ qy := max_le_max (by omega) (le_refl _)
  rcases eq_or_lt_of_le hq with heq | hlt
  · rw [heq]
    have h1 : x / pow2 qy ≤ y / pow2 qy := div_le_div_of_nonneg_right hxy (pow2_pos _).le
    have h2 : ((rne (x / pow2 qy) : Int) : ℚ) ≤ (rne (y / pow2 qy) : Int) := by
      exact_mod_cast rne_mono h1
    exact mul_le_mul_of_nonneg_right h2 (pow2_pos _).le
  · have hemin : emin ≤ qx := le_max_right _ _
    have hqy' : qy = ey - ((p : Int) - 1) := by
      rcases max_choice (ey - ((p : Int) - 1)) emin with h | h
      · rw [hqy, h]
      · rw [hqy, h] at hlt; omega
    have hlt' : ex < ey := by
      by_contra hcon
      have : ex = ey := by omega
      rw [hqx, hqy, this] at hlt
      exact lt_irrefl _ hlt
    -- lower bound on the rounding of `y`
    have lower : pow2 ey ≤ (rne (y / pow2 qy) : ℚ) * pow2 qy := by
      have e1 : pow2 ey = (((2 : Int) ^ (p - 1) : Int) : ℚ) * pow2 qy := by
        have : ey = ((p - 1 : Nat) : Int) + qy := by rw [hqy']; omega
        rw [this, pow2_add, pow2_natCast]
        push_cast
        rw [hqy']
      have e2 : (((2 : Int) ^ (p - 1) : Int) : ℚ) ≤ y / pow2 qy := by
        rw [le_div_iff₀ (pow2_pos _), ← e1]; exact y1
      have e3 := rne_mono e2
      rw [rne_intCast] at e3
      rw [e1]
      exact mul_le_mul_of_nonneg_right (by exact_mod_cast e3) (pow2_pos _).le
    -- upper bound on the rounding of `x`
    have upper : (rne (x / pow2 qx) : ℚ) * pow2 qx ≤ pow2 (ex + 1) := by
      by_cases hc : qx ≤ ex + 1
      · have e1 : pow2 (ex + 1) = (((2 : Int) ^ (ex + 1 - qx).toNat : Int) : ℚ) * pow2 qx := by
          rw [← pow2_of_nonneg (by omega : 0 ≤ ex + 1 - qx), ← pow2_add]
          congr 1; ring
        have e2 : x / pow2 qx ≤ (((2 : Int) ^ (ex + 1 - qx).toNat : Int) : ℚ) := by
          rw [div_le_iff₀ (pow2_pos _), ← e1]; exact x2.le
        have e3 := rne_mono e2
        rw [rne_intCast] at e3
        rw [e1]
        exact mul_le_mul_of_nonneg_right (by exact_mod_cast e3) (pow2_pos _).le
      · have e1 : x / pow2 qx < 1 / 2 := by
          rw [div_lt_iff₀ (pow2_pos _)]
          have : pow2 (ex + 1) ≤ 1 / 2 * pow2 qx := by
            have h2 : pow2 qx = 2 * pow2 (qx - 1) := by rw [← pow2_succ]; congr 1; ring
            rw [h2]
            have : pow2 (ex + 1) ≤ pow2 (qx - 1) := pow2_le_pow2 (by omega)
            linarith
          linarith
        have e0 : 0 ≤ x / pow2 qx := div_nonneg hx.le (pow2_pos _).le
        have e2 : rne (x / pow2 qx) = 0 := by
          apply rne_eq_of_abs_lt
          rw [Int.cast_zero, sub_zero, abs_of_nonneg e0]
          exact e1
        rw [e2]
        simp only [Int.cast_zero, zero_mul]
        exact (pow2_pos _).le
    exact le_trans upper (le_trans (pow2_le_pow2 (by omega)) lower)

/-- Rounding is monotone. -/
theorem roundBin_mono (p : Nat) (emin : Int) (hp : 1 ≤ p) {x y : ℚ} (hxy : x ≤ y) :
    roundBin p emin x ≤ roundBin p emin y := by
  rcases lt_trichotomy x 0 with hx | hx | hx
  · rcases le_or_lt 0 y with hy | hy
    · exact le_trans (roundBin_nonpos p emin hx.le) (roundBin_nonneg p emin hy)
    · have := roundBin_mono_pos p emin hp (neg_pos.2 hy) (neg_le_neg hxy)
      rw [roundBin_neg, roundBin_neg] at this
      linarith
  · rw [hx] at hxy ⊢
    have := roundBin_nonneg p emin hxy
    simpa [roundBin] using this
  · exact roundBin_mono_pos p emin hp hx hxy

theorem f32_mono {x y : ℚ} (h : x ≤ y) : f32 x ≤ f32 y := roundBin_mono 24 (-149) (by norm_num) h

theorem f64_mono {x y : ℚ} (h : x ≤ y) : f64 x ≤ f64 y := roundBin_mono 53 (-1074) (by norm_num) h

theorem f32_neg (x : ℚ) : f32 (-x) = -f32 x := roundBin_neg 24 (-149) x

theorem f64_neg (x : ℚ) : f64 (-x) = -f64 x := roundBin_neg 53 (-1074) x

/-- Integers of magnitude at most `2 ^ 24` are `float` values. -/
theorem f32_intCast (n : Int) (h : |n| ≤ 16777216) : f32 (n : ℚ) = n := by
  have := roundBin_exact 24 (-149) (by norm_num) n 0 (by simpa using h) (by norm_num)
  simpa [pow2_zero, f32] using this

/-- Multiples of `1 / 16` of magnitude below `2 ^ 20` are `float` values. -/
theorem f32_sixteenth (n : Int) (h : |n| ≤ 16777216) : f32 ((n : ℚ) / 16) = (n : ℚ) / 16 := by
  have := roundBin_exact 24 (-149) (by norm_num) n (-4) (by simpa using h) (by norm_num)
  have e : pow2 (-4) = 1 / 16 := by rw [pow2_eq_zpow]; norm_num
  rw [e] at this
  simpa [f32, div_eq_mul_inv] using this

theorem i2f_of_abs_le (n : Int) (h : |n| ≤ 16777216) : i2f n = n := f32_intCast n h

/-! ## Truncation -/

theorem truncQ_intCast (n : Int) : truncQ (n : ℚ) = n := by
  unfold truncQ
  split_ifs with h
  · exact Int.floor_intCast n
  · rw [← Int.cast_neg, Int.floor_intCast]; omega

theorem truncQ_mono {x y : ℚ} (h : x ≤ y) : truncQ x ≤ truncQ y := by
  unfold truncQ
  split_ifs with hx hy hy
  · exact Int.floor_mono h
  · exact absurd (le_trans hx h) hy
  · have h1 : ⌊-x⌋ ≥ 0 := Int.floor_nonneg.2 (by linarith)
    have h2 : ⌊y⌋ ≥ 0 := Int.floor_nonneg.2 hy
    omega
  · have := Int.floor_mono (neg_le_neg h)
    omega

/-- Truncation of a value between an integer `n ≥ 0` and `n + 15/16` gives `n`. -/
theorem truncQ_eq_of_nonneg {x : ℚ} {n : Int} (hn : 0 ≤ n) (h1 : (n : ℚ) ≤ x)
    (h2 : x ≤ (n : ℚ) + 15 / 16) : truncQ x = n := by
  have hx : (0 : ℚ) ≤ x := le_trans (by exact_mod_cast hn) h1
  unfold truncQ
  rw [if_pos hx, Int.floor_eq_iff]
  constructor <;> linarith

/-- Truncation of a value between `n - 15/16` and an integer `n ≤ 0` gives `n`. -/
theorem truncQ_eq_of_nonpos {x : ℚ} {n : Int} (hn : n ≤ 0) (h1 : (n : ℚ) - 15 / 16 ≤ x)
    (h2 : x ≤ (n : ℚ)) : truncQ x = n := by
  have hx : x ≤ (0 : ℚ) := le_trans h2 (by exact_mod_cast hn)
  unfold truncQ
  split_ifs with h0
  · have hx0 : x = 0 := le_antisymm hx h0
    have hn0 : (n : ℚ) = 0 := le_antisymm (by exact_mod_cast hn) (by linarith)
    have : n = 0 := by exact_mod_cast hn0
    rw [hx0, this]; simp
  · have : ⌊-x⌋ = -n := by
      rw [Int.floor_eq_iff]; push_cast; constructor <;> linarith
    omega

/-! ## All effects off -/

theorem frame_allOff (sinf : ℚ → ℚ) (s : Engine) (inp : Int × Int)
    (h : s.toggles = (false, false, false, false, false, false)) :
    frame sinf s inp
      = (s, (castSint16 (f32 (i2f inp.1 * s.global_volume)),
          castSint16 (f32 (i2f inp.2 * s.global_volume)))) := by
  simp only [Engine.toggles, Prod.mk.injEq] at h
  obtain ⟨h1, h2, h3, h4, h5, h6⟩ := h
  have e1 : echoStage (volumeStage s inp) = volumeStage s inp := echoStage_off _ h1
  have e2 : reverbStage (volumeStage s inp) = volumeStage s inp := reverbStage_off _ h2
  have e3 : chorusStage sinf (volumeStage s inp) = volumeStage s inp := chorusStage_off sinf _ h3
  have e4 : vibratoStage sinf (volumeStage s inp) = volumeStage s inp :=
    vibratoStage_off sinf _ h4
  have e5 : tremoloStage sinf (volumeStage s inp) = volumeStage s inp :=
    tremoloStage_off sinf _ h5
  have e6 : stereoStage (volumeStage s inp) = volumeStage s inp := stereoStage_off _ h6
  simp only [frame, frameAcc, e1, e2, e3, e4, e5, e6]
  rfl

theorem runFrames_allOff (sinf : ℚ → ℚ) (s : Engine) (block : List (Int × Int))
    (h : s.toggles = (false, false, false, false, false, false)) :
    runFrames sinf s block
      = (s, block.map fun inp => (castSint16 (f32 (i2f inp.1 * s.global_volume)),
          castSint16 (f32 (i2f inp.2 * s.global_volume)))) := by
  induction block with
  | nil => rfl
  | cons inp rest ih => simp only [runFrames, frame_allOff sinf s inp h, ih, List.map_cons]

theorem foldl_peakStep_le (accs : List (Int × Int)) (m B : Int) (hm : m ≤ B)
    (h : ∀ a ∈ accs, |a.1| ≤ B ∧ |a.2| ≤ B) : accs.foldl peakStep m ≤ B := by
  induction accs generalizing m with
  | nil => exact hm
  | cons a rest ih =>
    have ha := h a (List.mem_cons_self _ _)
    refine ih _ ?_ (fun b hb => h b (List.mem_cons_of_mem _ hb))
    simp only [peakStep]
    split_ifs <;> omega

theorem blockPeak_le (accs : List (Int × Int)) (B : Int) (hB : 0 ≤ B)
    (h : ∀ a ∈ accs, |a.1| ≤ B ∧ |a.2| ≤ B) : blockPeak accs ≤ B :=
  foldl_peakStep_le accs 0 B hB h

/-- A 16-bit sample scaled by a volume in `[0, 1]` stays a 16-bit sample: the conversion to
`Sint16` does not wrap. -/
theorem volume_scaled_range (x : Int) (v : ℚ) (hx1 : -32768 ≤ x) (hx2 : x ≤ 32767)
    (hv0 : 0 ≤ v) (hv1 : v ≤ 1) :
    castSint16 (f32 (i2f x * v)) = truncQ (f32 ((x : ℚ) * v)) ∧
    -32768 ≤ truncQ (f32 ((x : ℚ) * v)) ∧ truncQ (f32 ((x : ℚ) * v)) ≤ 32767 := by
  have hi : i2f x = x := i2f_of_abs_le x (by rw [abs_le]; constructor <;> omega)
  have hxq1 : (-32768 : ℚ) ≤ x := by exact_mod_cast hx1
  have hxq2 : (x : ℚ) ≤ 32767 := by exact_mod_cast hx2
  have b1 : (((-32768 : Int)) : ℚ) ≤ (x : ℚ) * v := by
    push_cast
    rcases le_or_lt 0 (x : ℚ) with h | h
    · have := mul_nonneg h hv0; linarith
    · nlinarith
  have b2 : (x : ℚ) * v ≤ ((32767 : Int) : ℚ) := by
    push_cast
    rcases le_or_lt 0 (x : ℚ) with h | h
    · nlinarith
    · nlinarith
  have c1 := truncQ_mono (f32_mono b1)
  have c2 := truncQ_mono (f32_mono b2)
  rw [f32_intCast _ (by norm_num), truncQ_intCast] at c1 c2
  refine ⟨?_, c1, c2⟩
  rw [hi, castSint16, toSint16_of_range c1 c2]

/-- C4, as amended: with all six effects off, a volume in `[0, 1]` and 16-bit input samples,
every output sample is the single-precision product `sample * global_volume` truncated toward
zero and nothing else changes it, provided no volume-scaled sample of the block is `-32768`. -/
theorem volume_only (sinf : ℚ → ℚ) (s : Engine) (block : List (Int × Int))
    (htog : s.toggles = (false, false, false, false, false, false))
    (hv0 : 0 ≤ s.global_volume) (hv1 : s.global_volume ≤ 1)
    (hin : ∀ x ∈ block, (-32768 ≤ x.1 ∧ x.1 ≤ 32767) ∧ (-32768 ≤ x.2 ∧ x.2 ≤ 32767))
    (hpk : ∀ x ∈ block, truncQ (f32 ((x.1 : ℚ) * s.global_volume)) ≠ -32768 ∧
      truncQ (f32 ((x.2 : ℚ) * s.global_volume)) ≠ -32768) :
    (audio_effect sinf s block).2
      = block.map fun x => (truncQ (f32 ((x.1 : ℚ) * s.global_volume)),
          truncQ (f32 ((x.2 : ℚ) * s.global_volume))) := by
  have hacc : (runFrames sinf s block).2
      = block.map fun x => (truncQ (f32 ((x.1 : ℚ) * s.global_volume)),
          truncQ (f32 ((x.2 : ℚ) * s.global_volume))) := by
    rw [runFrames_allOff sinf s block htog]
    refine List.map_congr_left fun x hx => ?_
    obtain ⟨⟨a1, a2⟩, ⟨b1, b2⟩⟩ := hin x hx
    rw [(volume_scaled_range x.1 _ a1 a2 hv0 hv1).1, (volume_scaled_range x.2 _ b1 b2 hv0 hv1).1]
  rw [← hacc]
  apply audio_effect_within_headroom
  rw [hacc]
  refine blockPeak_le _ 32767 (by norm_num) fun a ha => ?_
  obtain ⟨x, hx, rfl⟩ := List.mem_map.1 ha
  obtain ⟨⟨a1, a2⟩, ⟨b1, b2⟩⟩ := hin x hx
  obtain ⟨n1, n2⟩ := hpk x hx
  obtain ⟨-, l1, l2⟩ := volume_scaled_range x.1 _ a1 a2 hv0 hv1
  obtain ⟨-, r1, r2⟩ := volume_scaled_range x.2 _ b1 b2 hv0 hv1
  simp only [abs_le]
  refine ⟨⟨?_, l2⟩, ⟨?_, r2⟩⟩ <;> omega

/-- Witness for C4 (amended): the default volume `0.65f` and a block with both extreme
samples. -/
theorem volume_only_witness :
    (audio_effect (fun _ => 0) (allOff init) [(32767, -32768), (100, -7)]).2
      = [(21298, -21299), (65, -4)] :=
  (volume_only (fun _ => 0) (allOff init) [(32767, -32768), (100, -7)] rfl (by decide!)
    (by decide!) (by decide) (by decide!)).trans (by decide!)

/-- Counterexample to C4 as stated.  At `global_volume = 1.0f` the frame `(-32768, 100)`
has peak 32768, so the block rescale turns it into `(-32767, 99)`; and at the `float` volume
`32769 * 2 ^ (-24)` the sample 32767 comes out as 64 although the exact product
`32767 * global_volume` is below 64 and truncates to 63. -/
theorem volume_only_counterexample :
    (unitVolumeOff.toggles = (false, false, false, false, false, false) ∧
      unitVolumeOff.global_volume = 1 ∧
      (audio_effect (fun _ => 0) unitVolumeOff [(-32768, 100)]).2 = [(-32767, 99)] ∧
      truncQ ((-32768 : ℚ) * unitVolumeOff.global_volume) = -32768 ∧
      truncQ ((100 : ℚ) * unitVolumeOff.global_volume) = 100) ∧
    (smallVolumeOff.toggles = (false, false, false, false, false, false) ∧
      0 ≤ smallVolumeOff.global_volume ∧ smallVolumeOff.global_volume ≤ 1 ∧
      (audio_effect (fun _ => 0) smallVolumeOff [(32767, 0)]).2 = [(64, 0)] ∧
      truncQ ((32767 : ℚ) * smallVolumeOff.global_volume) = 63) := by
  decide!

/-! ## The block rescale -/

theorem foldl_peakStep_attained (accs : List (Int × Int)) (m : Int) :
    accs.foldl peakStep m = m ∨
      ∃ a ∈ accs, accs.foldl peakStep m = |a.1| ∨ accs.foldl peakStep m = |a.2| := by
  induction accs generalizing m with
  | nil => exact Or.inl rfl
  | cons b rest ih =>
    simp only [List.foldl_cons]
    rcases ih (peakStep m b) with h | ⟨a, ha, h⟩
    · rw [h]
      have : peakStep m b = m ∨ peakStep m b = |b.1| ∨ peakStep m b = |b.2| := by
        simp only [peakStep]
        split_ifs <;> simp
      rcases this with h' | h'
      · exact Or.inl h'
      · exact Or.inr ⟨b, List.mem_cons_self _ _, h'⟩
    · exact Or.inr ⟨a, List.mem_cons_of_mem _ ha, h⟩

/-- A positive `max_amplitude` is the magnitude of one of the accumulators of the block. -/
theorem blockPeak_attained (accs : List (Int × Int)) (h : 0 < blockPeak accs) :
    ∃ a ∈ accs, blockPeak accs = |a.1| ∨ blockPeak accs = |a.2| := by
  rcases foldl_peakStep_attained accs 0 with h0 | h0
  · rw [blockPeak, h0] at h; exact absurd h (lt_irrefl 0)
  · exact h0

/-- C1, as amended (block rescale law): `max_amplitude` is the maximum `P` of the magnitudes
of the final accumulators of the block; if `P > 32767`, every output sample is
`(Sint16)(q * scale)` computed in single precision, where `q` is the 16-bit value stored for
that sample before the rescale loop and `scale` is the `float` quotient `32767.0f / P`. -/
theorem block_rescale_law (sinf : ℚ → ℚ) (s : Engine) (block : List (Int × Int))
    (h : 32767 < blockPeak (runFrames sinf s block).2) :
    (∀ a ∈ (runFrames sinf s block).2,
      |a.1| ≤ blockPeak (runFrames sinf s block).2 ∧
      |a.2| ≤ blockPeak (runFrames sinf s block).2) ∧
    (∃ a ∈ (runFrames sinf s block).2,
      blockPeak (runFrames sinf s block).2 = |a.1| ∨
      blockPeak (runFrames sinf s block).2 = |a.2|) ∧
    (audio_effect sinf s block).2
      = (runFrames sinf s block).2.map fun a =>
          (castSint16 (f32 (i2f (toSint16 a.1)
              * f32 (f32 32767 / i2f (blockPeak (runFrames sinf s block).2)))),
            castSint16 (f32 (i2f (toSint16 a.2)
              * f32 (f32 32767 / i2f (blockPeak (runFrames sinf s block).2))))) := by
  refine ⟨fun a ha => abs_le_blockPeak _ a ha, blockPeak_attained _ (by omega), ?_⟩
  simp only [audio_effect]
  rw [if_pos h, List.map_map]
  rfl

/-- Witness for C1 (amended): in `loudState` the frame `(32767, 32767)` has accumulators
`(38336, 17038)`; it is stored as `(-27200, 17038)` and rescaled to `(-23248, 14562)`. -/
theorem block_rescale_law_witness :
    32767 < blockPeak (runFrames (fun _ => 0) loudState [(32767, 32767), (31814, -31814)]).2 ∧
    (audio_effect (fun _ => 0) loudState [(32767, 32767), (31814, -31814)]).2
      = [(-23248, 14562), (17675, -17675)] :=
  ⟨by decide!,
    (block_rescale_law (fun _ => 0) loudState [(32767, 32767), (31814, -31814)]
      (by decide!)).2.2.trans (by decide!)⟩

/-- Counterexample to C1 as stated: in `loudState` the block `(32767, 32767), (31814, -31814)`
has accumulators `(38336, 17038), (20679, -20679)`, so `P = 38336`; the sample stored as
`q = 20679` comes out as 17675, whereas `q * 32767 / P` truncated toward zero is 17674. -/
theorem block_rescale_counterexample :
    (runFrames (fun _ => 0) loudState [(32767, 32767), (31814, -31814)]).2
      = [(38336, 17038), (20679, -20679)] ∧
    blockPeak (runFrames (fun _ => 0) loudState [(32767, 32767), (31814, -31814)]).2 = 38336 ∧
    (audio_effect (fun _ => 0) loudState [(32767, 32767), (31814, -31814)]).2
      = [(-23248, 14562), (17675, -17675)] ∧
    toSint16 20679 = 20679 ∧
    toSint16 (truncQ ((20679 : ℚ) * 32767 / 38336)) = 17674 := by
  decide!

/-- C3 at its failing input: in `loudState` the frame `(32767, 32767)` has final accumulators
`(38336, 17038)`, so the peak is `P = 38336`; the left sample, which attains the peak, is
stored wrapped as `-27200` and leaves the rescale as `-23248`, not as
`38336 * 32767 / 38336 = 32767`. -/
theorem rescale_after_wrap :
    (runFrames (fun _ => 0) loudState [(32767, 32767)]).2 = [(38336, 17038)] ∧
    blockPeak (runFrames (fun _ => 0) loudState [(32767, 32767)]).2 = 38336 ∧
    toSint16 38336 = -27200 ∧
    (audio_effect (fun _ => 0) loudState [(32767, 32767)]).2 = [(-23248, 14562)] ∧
    truncQ ((38336 : ℚ) * 32767 / 38336) = 32767 := by
  decide!

/-! ## Oscillator phases -/

/-- On `[4, 8)` the `float` grid has spacing `2 ^ (-21)`. -/
theorem f32_grid_4_8 {z : ℚ} (h1 : 4 ≤ z) (h2 : z < 8) :
    f32 z = (rne (z * 2097152) : ℚ) / 2097152 := by
  have hz : z ≠ 0 := by linarith
  have habs : |z| = z := abs_of_pos (by linarith)
  have e4 : pow2 2 = 4 := by rw [pow2_eq_zpow]; norm_num
  have e8 : pow2 (2 + 1) = 8 := by rw [pow2_eq_zpow]; norm_num
  have hlog : ilog2 z = 2 := ilog2_eq_of_bounds (by rw [habs, e4]; exact h1)
    (by rw [habs, e8]; exact h2)
  have hq : max (ilog2 z - (((24 : Nat) : Int) - 1)) (-149) = -21 := by rw [hlog]; decide
  have hp : pow2 (-21) = 1 / 2097152 := by rw [pow2_eq_zpow]; norm_num
  rw [f32, roundBin_of_ne_zero 24 (-149) hz, hq, hp]
  rw [div_div_eq_mul_div, div_one, mul_one_div]

theorem phaseInc_three : phaseInc (f32 3) = 7884647029199589 / 18446744073709551616 := by
  decide!

theorem advancePhase_range {ph : ℚ} (h : phaseInRange ph) :
    phaseInRange (advancePhase ph (phaseInc (f32 3))) := by
  obtain ⟨h0, hA⟩ := h
  rw [phaseInc_three]
  set inc : ℚ := 7884647029199589 / 18446744073709551616 with hinc
  have hz1 : f64 (0 + inc) ≤ f64 (ph + inc) := f64_mono (by linarith)
  have hz2 : f64 (ph + inc) ≤ f64 (PHASE_MAX + inc) := f64_mono (by linarith)
  have v1 : f64 (0 + inc) = inc := by decide!
  have v2 : f64 (PHASE_MAX + inc) = 7074718652679531 / 1125899906842624 := by decide!
  have v3 : f32 inc = 3671575 / 8589934592 := by decide!
  have v4 : f32 (7074718652679531 / 1125899906842624) = 6588845 / 1048576 := by decide!
  have v5 : f32 (f64 (6588845 / 1048576 - TWO_PI)) = 1833711 / 4294967296 := by decide!
  have v6 : f32 (f64 0) = 0 := by rw [f64_zero, f32_zero]
  have v7 : f32 4 = 4 := by decide!
  have vT : TWO_PI = 884279719003555 / 140737488355328 := by decide!
  rw [v1] at hz1
  rw [v2] at hz2
  have lo : 3671575 / 8589934592 ≤ f32 (f64 (ph + inc)) := by
    rw [← v3]; exact f32_mono hz1
  have hi : f32 (f64 (ph + inc)) ≤ 6588845 / 1048576 := by
    rw [← v4]; exact f32_mono hz2
  unfold advancePhase
  simp only []
  split_ifs with hw
  · constructor
    · rw [← v6]
      exact f32_mono (f64_mono (by linarith))
    · have : f32 (f64 (f32 (f64 (ph + inc)) - TWO_PI)) ≤ f32 (f64 (6588845 / 1048576 - TWO_PI)) :=
        f32_mono (f64_mono (by linarith))
      rw [v5] at this
      refine le_trans this ?_
      unfold PHASE_MAX; norm_num
  · refine ⟨le_trans (by norm_num) lo, ?_⟩
    rw [not_lt] at hw
    rcases lt_or_le (f64 (ph + inc)) 4 with h4 | h4
    · have := f32_mono h4.le
      rw [v7] at this
      refine le_trans this ?_
      unfold PHASE_MAX; norm_num
    · have h8 : f64 (ph + inc) < 8 := lt_of_le_of_lt hz2 (by norm_num)
      rw [f32_grid_4_8 h4 h8] at hw ⊢
      set k := rne (f64 (ph + inc) * 2097152) with hk
      rw [vT] at hw
      have hk1 : (k : ℚ) < 13176795 := by
        rw [div_le_iff₀ (by norm_num)] at hw
        refine lt_of_le_of_lt hw ?_
        norm_num
      have hk2 : k < 13176795 := by exact_mod_cast hk1
      have hk3 : (k : ℚ) ≤ 13176794 := by exact_mod_cast (show k ≤ 13176794 by omega)
      unfold PHASE_MAX
      exact div_le_div_of_nonneg_right hk3 (by norm_num)

theorem phaseInRange_init_half : phaseInRange (f32 (1 / 2)) := by
  unfold phaseInRange PHASE_MAX; decide!

theorem phaseInRange_init_zero : phaseInRange (f32 0) := by
  rw [f32_zero]; unfold phaseInRange PHASE_MAX; norm_num

/-- `PHASE_MAX` is below the real number `2π`. -/
theorem PHASE_MAX_lt_two_pi : ((PHASE_MAX : ℚ) : ℝ) < 2 * Real.pi := by
  have := Real.pi_gt_d20
  unfold PHASE_MAX
  push_cast
  norm_num at this ⊢
  linarith

theorem phaseInRange_real {ph : ℚ} (h : phaseInRange ph) :
    0 ≤ (ph : ℝ) ∧ (ph : ℝ) < 2 * Real.pi := by
  obtain ⟨h0, hA⟩ := h
  refine ⟨by exact_mod_cast h0, lt_of_le_of_lt ?_ PHASE_MAX_lt_two_pi⟩
  exact_mod_cast hA

section phases
variable (sinf : ℚ → ℚ) (s : Engine) (inp : Int × Int)

theorem frame_chorus_phase :
    ((frame sinf s inp).1.chorus_phase1 = if s.chorus_enabled
      then advancePhase s.chorus_phase1 (phaseInc s.chorus_speed) else s.chorus_phase1) ∧
    ((frame sinf s inp).1.chorus_phase2 = if s.chorus_enabled
      then advancePhase s.chorus_phase2 (phaseInc s.chorus_speed) else s.chorus_phase2) ∧
    ((frame sinf s inp).1.chorus_phase3 = if s.chorus_enabled
      then advancePhase s.chorus_phase3 (phaseInc s.chorus_speed) else s.chorus_phase3) := by
  have h := frame_chorusPart sinf s inp
  have ht : (reverbStage (echoStage (volumeStage s inp))).s.toggles = s.toggles := by
    simp [volumeStage_s]
  have hr : (reverbStage (echoStage (volumeStage s inp))).s.chorusPart = s.chorusPart := by
    simp [volumeStage_s]
  have hpa : (reverbStage (echoStage (volumeStage s inp))).s.params = s.params := by
    simp [volumeStage_s]
  have hen : (reverbStage (echoStage (volumeStage s inp))).s.chorus_enabled = s.chorus_enabled :=
    congrArg (fun t => t.2.2.1) ht
  have hsp : (reverbStage (echoStage (volumeStage s inp))).s.chorus_speed = s.chorus_speed :=
    congrArg (fun t => t.2.2.2.2.2.1) hpa
  simp only [Engine.chorusPart, Prod.mk.injEq] at h hr
  obtain ⟨⟨-, -, h1⟩, ⟨-, -, h2⟩, ⟨-, -, h3⟩⟩ := h
  obtain ⟨⟨-, -, r1⟩, ⟨-, -, r2⟩, ⟨-, -, r3⟩⟩ := hr
  rw [h1, h2, h3, ← hen, ← hsp, ← r1, ← r2, ← r3]
  unfold chorusStage
  split_ifs <;> exact ⟨rfl, rfl, rfl⟩

theorem frame_vibrato_phase :
    (frame sinf s inp).1.vibrato_phase = if s.vibrato_enabled
      then advancePhase s.vibrato_phase (phaseInc (f32 3)) else s.vibrato_phase := by
  have ht : (chorusStage sinf (reverbStage (echoStage (volumeStage s inp)))).s.toggles
      = s.toggles := by simp [volumeStage_s]
  have hr : (chorusStage sinf (reverbStage (echoStage (volumeStage s inp)))).s.vibrato_phase
      = s.vibrato_phase := by simp [volumeStage_s]
  have hen := congrArg (fun t => t.2.2.2.1) ht
  simp only [Engine.toggles] at hen
  rw [← hen, ← hr]
  simp only [frame, frameAcc, stereoStage_vibrato_phase, tremoloStage_vibrato_phase]
  unfold vibratoStage
  split_ifs <;> rfl

theorem frame_tremolo_phase :
    (frame sinf s inp).1.tremolo_phase = if s.tremolo_enabled
      then advancePhase s.tremolo_phase (phaseInc (f32 3)) else s.tremolo_phase := by
  have ht : (vibratoStage sinf (chorusStage sinf (reverbStage (echoStage
      (volumeStage s inp))))).s.toggles = s.toggles := by simp [volumeStage_s]
  have hr : (vibratoStage sinf (chorusStage sinf (reverbStage (echoStage
      (volumeStage s inp))))).s.tremolo_phase = s.tremolo_phase := by simp [volumeStage_s]
  have hen := congrArg (fun t => t.2.2.2.2.1) ht
  simp only [Engine.toggles] at hen
  rw [← hen, ← hr]
  simp only [frame, frameAcc, stereoStage_tremolo_phase]
  unfold tremoloStage
  split_ifs <;> rfl

end phases

/-- The invariant behind C9: default speed and all five phases in `[0, PHASE_MAX]`. -/
theorem phases_of_reachableDefaultSpeed (sinf : ℚ → ℚ) (s : Engine)
    (h : ReachableDefaultSpeed sinf s) :
    s.chorus_speed = f32 3 ∧ phaseInRange s.vibrato_phase ∧ phaseInRange s.tremolo_phase ∧
    phaseInRange s.chorus_phase1 ∧ phaseInRange s.chorus_phase2 ∧
    phaseInRange s.chorus_phase3 := by
  induction h with
  | init =>
    exact ⟨rfl, phaseInRange_init_zero, phaseInRange_init_zero, phaseInRange_init_half,
      phaseInRange_init_half, phaseInRange_init_zero⟩
  | frame s inp _ ih =>
    obtain ⟨hs, hv, ht, h1, h2, h3⟩ := ih
    obtain ⟨c1, c2, c3⟩ := frame_chorus_phase sinf s inp
    have hsp : (frame sinf s inp).1.chorus_speed = s.chorus_speed :=
      congrArg (fun t => t.2.2.2.2.2.1) (frame_params sinf s inp)
    rw [hsp, frame_vibrato_phase, frame_tremolo_phase, c1, c2, c3, hs]
    refine ⟨rfl, ?_, ?_, ?_, ?_, ?_⟩ <;> split_ifs <;>
      first | assumption | exact advancePhase_range (by assumption)
  | control s c _ hc ih =>
    obtain ⟨-, hv, ht, h1, h2, h3⟩ := ih
    exact ⟨hc, hv, ht, h1, h2, h3⟩

/-- C9 (phase range invariant): while `chorus_speed` has its default value 3 Hz, in every
state the engine reaches (so after every processed frame) each of the five oscillator phases
is a real number in the half-open interval `[0, 2π)`. -/
theorem phase_range_invariant (sinf : ℚ → ℚ) (s : Engine)
    (h : ReachableDefaultSpeed sinf s) :
    (0 ≤ (s.vibrato_phase : ℝ) ∧ (s.vibrato_phase : ℝ) < 2 * Real.pi) ∧
    (0 ≤ (s.tremolo_phase : ℝ) ∧ (s.tremolo_phase : ℝ) < 2 * Real.pi) ∧
    (0 ≤ (s.chorus_phase1 : ℝ) ∧ (s.chorus_phase1 : ℝ) < 2 * Real.pi) ∧
    (0 ≤ (s.chorus_phase2 : ℝ) ∧ (s.chorus_phase2 : ℝ) < 2 * Real.pi) ∧
    (0 ≤ (s.chorus_phase3 : ℝ) ∧ (s.chorus_phase3 : ℝ) < 2 * Real.pi) := by
  obtain ⟨-, hv, ht, h1, h2, h3⟩ := phases_of_reachableDefaultSpeed sinf s h
  exact ⟨phaseInRange_real hv, phaseInRange_real ht, phaseInRange_real h1, phaseInRange_real h2,
    phaseInRange_real h3⟩

/-- Witness for C9: the state after two frames from the initial state. -/
theorem phase_range_invariant_witness :
    ReachableDefaultSpeed (fun _ => 0)
      (frame (fun _ => 0) (frame (fun _ => 0) init (100, -200)).1 (5, 5)).1 ∧
    (0 ≤ ((frame (fun _ => 0) (frame (fun _ => 0) init (100, -200)).1 (5, 5)).1.chorus_phase3 : ℝ)
      ∧ ((frame (fun _ => 0) (frame (fun _ => 0) init (100, -200)).1 (5, 5)).1.chorus_phase3 : ℝ)
        < 2 * Real.pi) :=
  ⟨ReachableDefaultSpeed.frame _ _ (ReachableDefaultSpeed.frame _ _ ReachableDefaultSpeed.init),
    (phase_range_invariant (fun _ => 0) _
      (ReachableDefaultSpeed.frame _ _
        (ReachableDefaultSpeed.frame _ _ ReachableDefaultSpeed.init))).2.2.2.2⟩

/-! ## The grid evaluator agrees with the rounding of the model -/

theorem scanDown_spec (fuel e k : Nat) (hk : 1 ≤ k) (hlt : k < 2 ^ (e + 1)) (hf : e < fuel) :
    2 ^ scanDown fuel e k ≤ k ∧ k < 2 ^ (scanDown fuel e k + 1) := by
  induction fuel generalizing e with
  | zero => omega
  | succ n ih =>
    unfold scanDown
    split_ifs with h
    · exact ⟨h, hlt⟩
    · rw [not_le] at h
      rcases Nat.eq_zero_or_pos e with he | he
      · subst he; simp at h; omega
      · have h' : k < 2 ^ (e - 1 + 1) := by rwa [Nat.sub_add_cancel he]
        exact ih (e - 1) h' (by omega)

theorem natExp_spec (k : Nat) (hk : 1 ≤ k) : 2 ^ natExp k ≤ k ∧ k < 2 ^ (natExp k + 1) := by
  unfold natExp
  split_ifs with h
  · exact scanDown_spec 68 67 k hk h (by norm_num)
  · exact nlog2_spec k hk

theorem rne_nat_div (k h : Nat) (hh : 1 ≤ h) :
    rne ((k : ℚ) / ((2 * h : Nat) : ℚ))
      = (((if k % (2 * h) < h then k / (2 * h) else if h < k % (2 * h) then k / (2 * h) + 1
          else if k / (2 * h) % 2 = 0 then k / (2 * h) else k / (2 * h) + 1 : Nat)) : Int) := by
  have hd : (0 : ℚ) < ((2 * h : Nat) : ℚ) := by
    have : 0 < 2 * h := by omega
    exact_mod_cast this
  have hfloor : ⌊(k : ℚ) / ((2 * h : Nat) : ℚ)⌋ = ((k / (2 * h) : Nat) : Int) := by
    rw [Rat.floor_natCast_div_natCast]; rfl
  have hsplit : (k : ℚ) = ((2 * h : Nat) : ℚ) * ((k / (2 * h) : Nat) : ℚ) + ((k % (2 * h) : Nat) : ℚ) := by
    exact_mod_cast (Nat.div_add_mod k (2 * h)).symm
  have hfrac : (k : ℚ) / ((2 * h : Nat) : ℚ) - (((k / (2 * h) : Nat) : Int) : ℚ)
      = ((k % (2 * h) : Nat) : ℚ) / ((2 * h : Nat) : ℚ) := by
    rw [Int.cast_natCast]
    push_cast at hsplit ⊢
    field_simp
    linarith
  have hhalf : ∀ r : Nat, ((r : ℚ) / ((2 * h : Nat) : ℚ) < 1 / 2 ↔ r < h) ∧
      (1 / 2 < (r : ℚ) / ((2 * h : Nat) : ℚ) ↔ h < r) := by
    intro r
    have e : ((2 * h : Nat) : ℚ) = 2 * (h : ℚ) := by push_cast; ring
    have hhq : (0 : ℚ) < h := by exact_mod_cast hh
    constructor
    · rw [div_lt_iff₀ hd, e]
      constructor
      · intro hlt
        have : (r : ℚ) < h := by linarith
        exact_mod_cast this
      · intro hlt
        have : (r : ℚ) < h := by exact_mod_cast hlt
        linarith
    · rw [lt_div_iff₀ hd, e]
      constructor
      · intro hlt
        have : (h : ℚ) < r := by linarith
        exact_mod_cast this
      · intro hlt
        have : (h : ℚ) < r := by exact_mod_cast hlt
        linarith
  have hpar : (((k / (2 * h) : Nat) : Int) % 2 = 0) ↔ (k / (2 * h) % 2 = 0) := by omega
  simp only [rne, hfloor, hfrac]
  rw [if_congr (hhalf _).1 rfl rfl, if_congr (hhalf _).2 rfl rfl, if_congr hpar rfl rfl]
  split_ifs <;> push_cast <;> rfl

/-- The link between `roundBin` and `roundNat`: on numerators over `2 ^ G` the rounding of the
model is the integer rounding. -/
theorem roundBin_grid (p : Nat) (emin : Int) (G : Nat) (hG : emin ≤ -(G : Int))
    (k : Nat) : roundBin p emin ((k : ℚ) / 2 ^ G) = (roundNat p k : ℚ) / 2 ^ G := by
  have hpow : pow2 (-(G : Int)) = 1 / (2 : ℚ) ^ G := by
    rw [pow2_eq_zpow, zpow_neg, zpow_natCast, one_div]
  unfold roundNat
  split_ifs with hk
  · have := roundBin_exact_lt p emin (k : Int) (-(G : Int))
      (by
        rw [abs_of_nonneg (by positivity)]
        exact_mod_cast hk) hG
    rw [hpow] at this
    simpa [div_eq_mul_inv] using this
  · rw [not_lt] at hk
    have hk1 : 1 ≤ k := le_trans Nat.one_le_two_pow hk
    obtain ⟨s1, s2⟩ := natExp_spec k hk1
    set e := natExp k with he
    have hpe : p ≤ e := by
      have : 2 ^ p < 2 ^ (e + 1) := lt_of_le_of_lt hk s2
      have := (Nat.pow_lt_pow_iff_right (by norm_num : 1 < 2)).1 this
      omega
    have hG0 : (0 : ℚ) < 2 ^ G := by positivity
    have hx : (k : ℚ) / 2 ^ G ≠ 0 := by
      have : (0 : ℚ) < k := by exact_mod_cast hk1
      positivity
    have habs : |(k : ℚ) / 2 ^ G| = (k : ℚ) / 2 ^ G := abs_of_pos (by
      have : (0 : ℚ) < k := by exact_mod_cast hk1
      positivity)
    have hlog : ilog2 ((k : ℚ) / 2 ^ G) = (e : Int) - G := by
      apply ilog2_eq_of_bounds
      · rw [habs, pow2_sub, pow2_natCast, pow2_natCast]
        exact div_le_div_of_nonneg_right (by exact_mod_cast s1) hG0.le
      · rw [habs, show (e : Int) - G + 1 = ((e + 1 : Nat) : Int) - G by push_cast; ring,
          pow2_sub, pow2_natCast, pow2_natCast]
        exact div_lt_div_of_pos_right (by exact_mod_cast s2) hG0
    have hq : max (ilog2 ((k : ℚ) / 2 ^ G) - ((p : Int) - 1)) emin
        = ((e - p + 1 : Nat) : Int) - G := by
      rw [hlog, max_eq_left (by omega)]
      omega
    rw [roundBin_of_ne_zero p emin hx, hq]
    have hpq : pow2 (((e - p + 1 : Nat) : Int) - G)
        = ((2 * 2 ^ (e - p) : Nat) : ℚ) / 2 ^ G := by
      rw [pow2_sub, pow2_natCast, pow2_natCast, pow_succ]
      push_cast
      ring
    have hdivq : (k : ℚ) / 2 ^ G / pow2 (((e - p + 1 : Nat) : Int) - G)
        = (k : ℚ) / ((2 * 2 ^ (e - p) : Nat) : ℚ) := by
      rw [hpq]
      have : ((2 * 2 ^ (e - p) : Nat) : ℚ) ≠ 0 := by positivity
      field_simp
    rw [hdivq, rne_nat_div k (2 ^ (e - p)) Nat.one_le_two_pow, hpq]
    simp only [Int.cast_natCast]
    push_cast
    ring

theorem force_eq (k : Nat) (f : Nat → Nat) : force k f = f k := by
  cases k <;> rfl

theorem iterPhaseNat_succ (n k : Nat) :
    iterPhaseNat (n + 1) k = iterPhaseNat n (advancePhaseNat k) := by
  rw [iterPhaseNat, force_eq]

theorem iterPhaseNat_eq (n k : Nat) : iterPhaseNat n k = advancePhaseNat^[n] k := by
  induction n generalizing k with
  | zero => rw [iterPhaseNat, Function.iterate_zero, id]
  | succ n ih => rw [Function.iterate_succ_apply, iterPhaseNat_succ, ih]

theorem TWO_PI_grid : TWO_PI = ((115904311329233960960 : Nat) : ℚ) / 2 ^ 64 := by decide!

theorem phaseInc_grid : phaseInc (f32 3) = ((7884647029199589 : Nat) : ℚ) / 2 ^ 64 := by decide!

theorem f32_f64_grid (k : Nat) :
    f32 (f64 ((k : ℚ) / 2 ^ 64)) = (roundNat 24 (roundNat 53 k) : ℚ) / 2 ^ 64 := by
  rw [f64, roundBin_grid 53 (-1074) 64 (by norm_num), f32,
    roundBin_grid 24 (-149) 64 (by norm_num)]

/-- One phase step of the model is one step of the grid evaluator. -/
theorem advancePhase_grid (k : Nat) :
    advancePhase ((k : ℚ) / 2 ^ 64) (phaseInc (f32 3)) = (advancePhaseNat k : ℚ) / 2 ^ 64 := by
  have h1 : (k : ℚ) / 2 ^ 64 + ((7884647029199589 : Nat) : ℚ) / 2 ^ 64
      = ((k + 7884647029199589 : Nat) : ℚ) / 2 ^ 64 := by push_cast; ring
  unfold advancePhase advancePhaseNat
  simp only []
  rw [phaseInc_grid, h1, f32_f64_grid, TWO_PI_grid]
  set k1 := roundNat 24 (roundNat 53 (k + 7884647029199589)) with hk1
  have hcmp : ((k1 : ℚ) / 2 ^ 64 > ((115904311329233960960 : Nat) : ℚ) / 2 ^ 64)
      ↔ 115904311329233960960 < k1 := by
    rw [gt_iff_lt, div_lt_div_iff_of_pos_right (by positivity)]
    exact_mod_cast Iff.rfl
  by_cases hw : 115904311329233960960 < k1
  · rw [if_pos (hcmp.2 hw), if_pos hw]
    have h2 : (k1 : ℚ) / 2 ^ 64 - ((115904311329233960960 : Nat) : ℚ) / 2 ^ 64
        = ((k1 - 115904311329233960960 : Nat) : ℚ) / 2 ^ 64 := by
      rw [Nat.cast_sub hw.le]; ring
    rw [h2, f32_f64_grid]
  · rw [if_neg (fun h => hw (hcmp.1 h)), if_neg hw]

theorem advancePhase_iterate_grid (n k : Nat) :
    (fun ph => advancePhase ph (phaseInc (f32 3)))^[n] ((k : ℚ) / 2 ^ 64)
      = (iterPhaseNat n k : ℚ) / 2 ^ 64 := by
  rw [iterPhaseNat_eq]
  induction n generalizing k with
  | zero => rfl
  | succ n ih =>
    rw [Function.iterate_succ_apply, Function.iterate_succ_apply, advancePhase_grid, ih]

/-! ## State carried across blocks -/

theorem runFrames_append (sinf : ℚ → ℚ) (s : Engine) (a b : List (Int × Int)) :
    runFrames sinf s (a ++ b)
      = ((runFrames sinf (runFrames sinf s a).1 b).1,
          (runFrames sinf s a).2 ++ (runFrames sinf (runFrames sinf s a).1 b).2) := by
  induction a generalizing s with
  | nil => rfl
  | cons x rest ih =>
    show runFrames sinf s (x :: (rest ++ b)) = _
    simp only [runFrames, ih, List.cons_append]

theorem processBlocks_state (sinf : ℚ → ℚ) (s : Engine) (blocks : List (List (Int × Int))) :
    (processBlocks sinf s blocks).1 = (runFrames sinf s blocks.flatten).1 := by
  induction blocks generalizing s with
  | nil => rfl
  | cons b rest ih =>
    simp only [processBlocks, List.flatten_cons, runFrames_append, ih, audio_effect_state]

theorem runFrames_params (sinf : ℚ → ℚ) (s : Engine) (block : List (Int × Int)) :
    (runFrames sinf s block).1.params = s.params := by
  induction block generalizing s with
  | nil => rfl
  | cons inp rest ih => simp only [runFrames]; rw [ih, frame_params]

/-- With chorus enabled, a block advances each chorus phase once per frame, whatever the
samples and whatever `sinf`. -/
theorem runFrames_chorus_phase (sinf : ℚ → ℚ) (s : Engine) (block : List (Int × Int))
    (hen : s.chorus_enabled = true) :
    (runFrames sinf s block).1.chorus_phase1
      = (fun ph => advancePhase ph (phaseInc s.chorus_speed))^[block.length] s.chorus_phase1 ∧
    (runFrames sinf s block).1.chorus_phase2
      = (fun ph => advancePhase ph (phaseInc s.chorus_speed))^[block.length] s.chorus_phase2 ∧
    (runFrames sinf s block).1.chorus_phase3
      = (fun ph => advancePhase ph (phaseInc s.chorus_speed))^[block.length] s.chorus_phase3 := by
  induction block generalizing s with
  | nil => exact ⟨rfl, rfl, rfl⟩
  | cons inp rest ih =>
    obtain ⟨c1, c2, c3⟩ := frame_chorus_phase sinf s inp
    have hen' : (frame sinf s inp).1.chorus_enabled = true :=
      (congrArg (fun t => t.2.2.1) (frame_toggles sinf s inp)).trans hen
    have hsp : (frame sinf s inp).1.chorus_speed = s.chorus_speed :=
      congrArg (fun t => t.2.2.2.2.2.1) (frame_params sinf s inp)
    obtain ⟨i1, i2, i3⟩ := ih (frame sinf s inp).1 hen'
    simp only [runFrames, List.length_cons, Function.iterate_succ_apply]
    rw [i1, i2, i3, hsp, c1, c2, c3]
    simp only [if_pos hen, and_self]

/-! ## Jumps of the phase recurrence inside a binade -/

theorem natExp_eq {n e : Nat} (h1 : 2 ^ e ≤ n) (h2 : n < 2 ^ (e + 1)) : natExp n = e := by
  obtain ⟨s1, s2⟩ := natExp_spec n (le_trans Nat.one_le_two_pow h1)
  have a := (Nat.pow_lt_pow_iff_right (by norm_num : 1 < 2)).1 (lt_of_le_of_lt s1 h2)
  have b := (Nat.pow_lt_pow_iff_right (by norm_num : 1 < 2)).1 (lt_of_le_of_lt h1 s2)
  omega

theorem roundNat_shift {p e k x : Nat} (hp : p ≤ e) (hk : k % (2 * 2 ^ (e - p)) = 0)
    (h1 : 2 ^ e ≤ k + x) (h2 : k + x < 2 ^ (e + 1))
    (hx : x % (2 * 2 ^ (e - p)) ≠ 2 ^ (e - p)) :
    roundNat p (k + x) = k + roundTo (2 ^ (e - p)) x := by
  have hge : ¬ k + x < 2 ^ p :=
    not_lt.2 (le_trans (Nat.pow_le_pow_right (by norm_num) hp) h1)
  unfold roundNat roundTo
  rw [if_neg hge, natExp_eq h1 h2]
  simp only []
  set h := 2 ^ (e - p) with hh
  obtain ⟨j, hj⟩ := Nat.dvd_of_mod_eq_zero hk
  have hpos : 0 < 2 * h := by positivity
  have hmod : (k + x) % (2 * h) = x % (2 * h) := by rw [hj, Nat.mul_add_mod]
  have hdiv : (k + x) / (2 * h) = j + x / (2 * h) := by
    rw [hj, Nat.mul_add_div hpos]
  rw [hmod, hdiv]
  split_ifs with c1 c2
  · rw [hj]; ring
  · rw [hj]; ring
  · exact absurd (by omega) hx
  · exact absurd (by omega) hx

theorem linearOK_iff (e k n : Nat) :
    linearOK e k n = true ↔
      (53 ≤ e ∧ 1 ≤ n ∧ 2 ^ e ≤ k ∧ k % (2 * 2 ^ (e - 24)) = 0 ∧
      7884647029199589 % (2 * 2 ^ (e - 53)) ≠ 2 ^ (e - 53) ∧
      roundTo (2 ^ (e - 53)) 7884647029199589 % (2 * 2 ^ (e - 24)) ≠ 2 ^ (e - 24) ∧
      k + (n - 1) * stepInc e + 7884647029199589 < 2 ^ (e + 1) ∧
      k + (n - 1) * stepInc e + roundTo (2 ^ (e - 53)) 7884647029199589 < 2 ^ (e + 1) ∧
      k + n * stepInc e ≤ 115904311329233960960) := by
  simp only [linearOK, Bool.and_eq_true, decide_eq_true_eq, and_assoc]

theorem dvd_of_mod_unit {e k : Nat} (he : 53 ≤ e) (hk : k % (2 * 2 ^ (e - 24)) = 0) :
    k % (2 * 2 ^ (e - 53)) = 0 := by
  have hd : 2 * 2 ^ (e - 53) ∣ 2 * 2 ^ (e - 24) := by
    refine ⟨2 ^ 29, ?_⟩
    have : e - 24 = (e - 53) + 29 := by omega
    rw [this, pow_add]; ring
  exact Nat.mod_eq_zero_of_dvd (hd.trans (Nat.dvd_of_mod_eq_zero hk))

theorem stepInc_mod (e : Nat) : stepInc e % (2 * 2 ^ (e - 24)) = 0 := by
  unfold stepInc roundTo
  exact Nat.mul_mod_left _ _

/-- One phase step inside a binade adds the constant `stepInc e`. -/
theorem advancePhaseNat_linear {e k : Nat} (h : linearOK e k 1 = true) :
    advancePhaseNat k = k + stepInc e := by
  obtain ⟨he, -, hk, hmod, t1, t2, b1, b2, b3⟩ := (linearOK_iff e k 1).1 h
  simp only [Nat.sub_self, Nat.zero_mul, Nat.add_zero, Nat.one_mul] at b1 b2 b3
  have r1 : roundNat 53 (k + 7884647029199589)
      = k + roundTo (2 ^ (e - 53)) 7884647029199589 :=
    roundNat_shift he (dvd_of_mod_unit he hmod) (le_trans hk (Nat.le_add_right _ _)) b1 t1
  have r2 : roundNat 24 (k + roundTo (2 ^ (e - 53)) 7884647029199589) = k + stepInc e :=
    roundNat_shift (by omega) hmod (le_trans hk (Nat.le_add_right _ _)) b2 t2
  unfold advancePhaseNat
  simp only [r1, r2]
  rw [if_neg (not_lt.2 b3)]

theorem iterPhaseNat_linear (e n k : Nat) (h : linearOK e k n = true) :
    iterPhaseNat n k = k + n * stepInc e := by
  induction n generalizing k with
  | zero =>
    have := ((linearOK_iff e k 0).1 h).2.1
    omega
  | succ n ih =>
    obtain ⟨he, -, hk, hmod, t1, t2, b1, b2, b3⟩ := (linearOK_iff e k (n + 1)).1 h
    simp only [Nat.add_sub_cancel] at b1 b2
    have hstep : linearOK e k 1 = true := by
      rw [linearOK_iff]
      simp only [Nat.sub_self, Nat.zero_mul, Nat.add_zero, Nat.one_mul]
      have m1 : k ≤ k + n * stepInc e := Nat.le_add_right _ _
      have m2 : k + stepInc e ≤ k + (n + 1) * stepInc e := by
        apply Nat.add_le_add_left
        calc stepInc e = 1 * stepInc e := (Nat.one_mul _).symm
          _ ≤ (n + 1) * stepInc e := Nat.mul_le_mul_right _ (by omega)
      exact ⟨he, le_refl 1, hk, hmod, t1, t2, by omega, by omega, le_trans m2 b3⟩
    rw [iterPhaseNat_succ, advancePhaseNat_linear hstep]
    rcases Nat.eq_zero_or_pos n with hn | hn
    · subst hn
      rw [iterPhaseNat, Nat.zero_add, Nat.one_mul]
    · have hnext : linearOK e (k + stepInc e) n = true := by
        rw [linearOK_iff]
        have e1 : k + stepInc e + (n - 1) * stepInc e = k + n * stepInc e := by
          have : n = (n - 1) + 1 := by omega
          conv_rhs => rw [this, Nat.add_mul, Nat.one_mul]
          omega
        have e2 : k + stepInc e + n * stepInc e = k + (n + 1) * stepInc e := by
          rw [Nat.add_mul, Nat.one_mul]; omega
        refine ⟨he, hn, le_trans hk (Nat.le_add_right _ _), ?_, t1, t2, ?_, ?_, ?_⟩
        · rw [Nat.add_mod, hmod, stepInc_mod]; rfl
        · rw [e1]; exact b1
        · rw [e1]; exact b2
        · rw [e2]; exact b3
      rw [ih _ hnext, Nat.add_mul, Nat.one_mul]
      omega

theorem iterPhaseNat_add (a b k : Nat) :
    iterPhaseNat (a + b) k = iterPhaseNat b (iterPhaseNat a k) := by
  rw [iterPhaseNat_eq, iterPhaseNat_eq, iterPhaseNat_eq, Nat.add_comm,
    Function.iterate_add_apply]

/-- Evaluation along a schedule is the plain iteration over the total number of steps. -/
theorem iterJump_eq (sched : List (Nat × Nat)) (k : Nat) :
    iterJump sched k = iterPhaseNat (sched.map Prod.snd).sum k := by
  induction sched generalizing k with
  | nil => rw [iterJump, List.map_nil, List.sum_nil, iterPhaseNat]
  | cons seg rest ih =>
    rw [iterJump, force_eq, ih, List.map_cons, List.sum_cons, iterPhaseNat_add]
    split_ifs with h
    · rw [iterPhaseNat_linear _ _ _ h]
    · rfl

theorem iterPhaseNat_period_half : iterPhaseNat 14700 9223372036854775808 = 9212740309169995776 := by
  have h := iterJump_eq scheduleHalf 9223372036854775808
  have hs : (scheduleHalf.map Prod.snd).sum = 14700 := by decide
  have hv : iterJump scheduleHalf 9223372036854775808 = 9212740309169995776 := by decide!
  rw [hs] at h
  rw [← h, hv]

theorem iterPhaseNat_period_zero : iterPhaseNat 14700 0 = 115893688874194436096 := by
  have h := iterJump_eq scheduleZero 0
  have hs : (scheduleZero.map Prod.snd).sum = 14700 := by decide
  have hv : iterJump scheduleZero 0 = 115893688874194436096 := by decide!
  rw [hs] at h
  rw [← h, hv]

/-- The three chorus phases one nominal period (14700 frames at 3 Hz) after they had their
initial values. -/
theorem chorus_phases_after_period (sinf : ℚ → ℚ) (s : Engine) (blocks : List (List (Int × Int)))
    (hen : s.chorus_enabled = true) (hsp : s.chorus_speed = f32 3)
    (h1 : s.chorus_phase1 = 1 / 2) (h2 : s.chorus_phase2 = 1 / 2) (h3 : s.chorus_phase3 = 0)
    (hlen : blocks.flatten.length = 14700) :
    (processBlocks sinf s blocks).1.chorus_phase1 = 16757877 / 33554432 ∧
    (processBlocks sinf s blocks).1.chorus_phase2 = 16757877 / 33554432 ∧
    (processBlocks sinf s blocks).1.chorus_phase3 = 13175587 / 2097152 := by
  obtain ⟨c1, c2, c3⟩ := runFrames_chorus_phase sinf s blocks.flatten hen
  rw [processBlocks_state, c1, c2, c3, hlen, hsp, h1, h2, h3]
  have e1 : (1 / 2 : ℚ) = ((9223372036854775808 : Nat) : ℚ) / 2 ^ 64 := by norm_num
  have e0 : (0 : ℚ) = ((0 : Nat) : ℚ) / 2 ^ 64 := by norm_num
  rw [e1, e0, advancePhase_iterate_grid, advancePhase_iterate_grid, iterPhaseNat_period_half,
    iterPhaseNat_period_zero]
  norm_num

theorem init_chorus_phases :
    init.chorus_enabled = true ∧ init.chorus_speed = f32 3 ∧ init.chorus_phase1 = 1 / 2 ∧
    init.chorus_phase2 = 1 / 2 ∧ init.chorus_phase3 = 0 := by
  refine ⟨rfl, rfl, ?_, ?_, ?_⟩
  · show f32 (1 / 2) = 1 / 2
    decide!
  · show f32 (1 / 2) = 1 / 2
    decide!
  · exact f32_zero

/-- C10, as amended (chorus phase after one nominal period): with chorus enabled and
`chorus_speed = 3.0f`, exactly 14700 processed frames (in any number of blocks, for any
samples) after the three chorus phases had their initial values 0.5, 0.5 and 0, phases 1 and
2 are `16757877 * 2 ^ (-25)`, about 0.00058 below 0.5, and phase 3 is
`13175587 * 2 ^ (-21)`, about 0.00058 below `2 * M_PI`: it is back at its initial value only
modulo a full turn and has not yet wrapped. -/
theorem chorus_phase_period (sinf : ℚ → ℚ) (s : Engine) (blocks : List (List (Int × Int)))
    (hen : s.chorus_enabled = true) (hsp : s.chorus_speed = f32 3)
    (h1 : s.chorus_phase1 = 1 / 2) (h2 : s.chorus_phase2 = 1 / 2) (h3 : s.chorus_phase3 = 0)
    (hlen : blocks.flatten.length = 14700) :
    (processBlocks sinf s blocks).1.chorus_phase1 = 16757877 / 33554432 ∧
    (processBlocks sinf s blocks).1.chorus_phase2 = 16757877 / 33554432 ∧
    (processBlocks sinf s blocks).1.chorus_phase3 = 13175587 / 2097152 ∧
    |(processBlocks sinf s blocks).1.chorus_phase1 - 1 / 2| < 6 / 10000 ∧
    |(processBlocks sinf s blocks).1.chorus_phase2 - 1 / 2| < 6 / 10000 ∧
    |(processBlocks sinf s blocks).1.chorus_phase3 - 2 * M_PI| < 6 / 10000 := by
  obtain ⟨c1, c2, c3⟩ := chorus_phases_after_period sinf s blocks hen hsp h1 h2 h3 hlen
  rw [c1, c2, c3]
  refine ⟨rfl, rfl, rfl, ?_, ?_, ?_⟩
  · rw [abs_lt]; constructor <;> norm_num
  · rw [abs_lt]; constructor <;> norm_num
  · unfold M_PI; rw [abs_lt]; constructor <;> norm_num

/-- Witness for C10 (amended): 14700 silent frames from the initial state, delivered as one
block of 1024 frames and one of 13676 frames. -/
theorem chorus_phase_period_witness :
    (processBlocks (fun _ => 0) init
      [List.replicate 1024 (0, 0), List.replicate 13676 (0, 0)]).1.chorus_phase3
      = 13175587 / 2097152 :=
  (chorus_phase_period (fun _ => 0) init [List.replicate 1024 (0, 0), List.replicate 13676 (0, 0)]
    init_chorus_phases.1 init_chorus_phases.2.1 init_chorus_phases.2.2.1
    init_chorus_phases.2.2.2.1 init_chorus_phases.2.2.2.2
    (by rw [List.flatten_cons, List.flatten_cons, List.flatten_nil, List.append_nil,
      List.length_append, List.length_replicate, List.length_replicate])).2.2.1

/-- Counterexample to C10 as stated: 14700 frames after the initial state the third chorus
phase is `13175587 * 2 ^ (-21)`, more than 6.28 away from its initial value 0, and the first
is `16757877 * 2 ^ (-25)`, not its initial value 0.5. -/
theorem chorus_phase_period_counterexample :
    init.chorus_phase1 = 1 / 2 ∧ init.chorus_phase3 = 0 ∧
    (processBlocks (fun _ => 0) init [List.replicate 14700 (0, 0)]).1.chorus_phase1
      ≠ init.chorus_phase1 ∧
    (processBlocks (fun _ => 0) init [List.replicate 14700 (0, 0)]).1.chorus_phase3
      - init.chorus_phase3 > 628 / 100 := by
  obtain ⟨c1, -, c3⟩ := chorus_phases_after_period (fun _ => 0) init
    [List.replicate 14700 (0, 0)] init_chorus_phases.1 init_chorus_phases.2.1
    init_chorus_phases.2.2.1 init_chorus_phases.2.2.2.1 init_chorus_phases.2.2.2.2
    (by rw [List.flatten_cons, List.flatten_nil, List.append_nil, List.length_replicate])
  rw [c1, c3, init_chorus_phases.2.2.1, init_chorus_phases.2.2.2.2]
  refine ⟨rfl, rfl, ?_, ?_⟩ <;> norm_num

/-! ## Echo only -/

section echoOnly
variable (sinf : ℚ → ℚ) (s : Engine) (inp : Int × Int)

/-- One frame with only the echo enabled. -/
theorem frame_echoOnly (h : s.toggles = (true, false, false, false, false, false)) :
    (frame sinf s inp).1.toggles = (true, false, false, false, false, false) ∧
    (frame sinf s inp).1.global_volume = s.global_volume ∧
    (frame sinf s inp).1.echo_buffer
      = Function.update s.echo_buffer s.echo_pos (downmix (volumeStage s inp)) ∧
    (frame sinf s inp).1.echo_pos = (s.echo_pos + 1).tmod ECHO_DELAY ∧
    (frame sinf s inp).2
      = (addAssign (volumeStage s inp).left_sample
            (f32 (i2f (s.echo_buffer s.echo_pos) * f32 (3 / 10))),
          addAssign (volumeStage s inp).right_sample
            (f32 (i2f (s.echo_buffer s.echo_pos) * f32 (3 / 10)))) := by
  have ht : (echoStage (volumeStage s inp)).s.toggles = s.toggles := by simp [volumeStage_s]
  have h0 := h
  rw [h] at ht
  simp only [Engine.toggles, Prod.mk.injEq] at h ht
  obtain ⟨h1, -⟩ := h
  obtain ⟨-, t2, t3, t4, t5, t6⟩ := ht
  have e2 := reverbStage_off (echoStage (volumeStage s inp)) t2
  have e3 := chorusStage_off sinf (echoStage (volumeStage s inp)) t3
  have e4 := vibratoStage_off sinf (echoStage (volumeStage s inp)) t4
  have e5 := tremoloStage_off sinf (echoStage (volumeStage s inp)) t5
  have e6 := stereoStage_off (echoStage (volumeStage s inp)) t6
  have hf : frameAcc sinf s inp = echoStage (volumeStage s inp) := by
    simp only [frameAcc, e2, e3, e4, e5, e6]
  have hv : (volumeStage s inp).s.echo_enabled = true := h1
  refine ⟨?_, ?_, ?_, ?_, ?_⟩
  · rw [frame_toggles]; exact h0
  · exact congrArg (fun t => t.2.2.2.2.2.2.2.1) (frame_params sinf s inp)
  · simp only [frame, hf, echoStage, hv, if_true]
    rfl
  · simp only [frame, hf, echoStage, hv, if_true]
    rfl
  · simp only [frame, hf, echoStage, hv, if_true]
    rfl

end echoOnly

theorem toSint16_range (n : Int) : -32768 ≤ toSint16 n ∧ toSint16 n ≤ 32767 := by
  unfold toSint16
  omega

theorem toSint16_abs_le (n : Int) : |toSint16 n| ≤ 16777216 := by
  obtain ⟨h1, h2⟩ := toSint16_range n
  rw [abs_le]
  constructor <;> omega

theorem addAssign_zero_right (x : Int) (h : |x| ≤ 16777216) : addAssign x 0 = x := by
  rw [addAssign, add_zero, i2f_of_abs_le x h, f32_intCast x h, truncQ_intCast]

theorem echoTap_zero : echoTap 0 = 0 := by
  simp [echoTap, i2f_zero, f32_zero, addAssign_zero]

theorem volumeStage_zero (s : Engine) :
    (volumeStage s (0, 0)).left_sample = 0 ∧ (volumeStage s (0, 0)).right_sample = 0 ∧
    downmix (volumeStage s (0, 0)) = 0 := by
  have h : castSint16 (f32 (i2f 0 * s.global_volume)) = 0 := by
    rw [i2f_zero, zero_mul, f32_zero, castSint16_zero]
  refine ⟨h, h, ?_⟩
  simp only [downmix, volumeStage, h]
  decide

/-- A silent frame with only the echo enabled. -/
theorem frame_zero_echoOnly (sinf : ℚ → ℚ) (s : Engine)
    (h : s.toggles = (true, false, false, false, false, false)) :
    (frame sinf s (0, 0)).1.toggles = (true, false, false, false, false, false) ∧
    (frame sinf s (0, 0)).1.echo_buffer = Function.update s.echo_buffer s.echo_pos 0 ∧
    (frame sinf s (0, 0)).1.echo_pos = (s.echo_pos + 1).tmod ECHO_DELAY ∧
    (frame sinf s (0, 0)).2
      = (echoTap (s.echo_buffer s.echo_pos), echoTap (s.echo_buffer s.echo_pos)) := by
  obtain ⟨f1, -, f3, f4, f5⟩ := frame_echoOnly sinf s (0, 0) h
  obtain ⟨v1, v2, v3⟩ := volumeStage_zero s
  rw [v3] at f3
  rw [v1, v2] at f5
  exact ⟨f1, f3, f4, f5⟩

/-- Silence after the echo line has emptied: with only the echo enabled and an all-zero echo
line, silent frames give silent accumulators. -/
theorem runFrames_zeros_echoOnly (sinf : ℚ → ℚ) (k : Nat) (s : Engine)
    (h : s.toggles = (true, false, false, false, false, false))
    (hb : ∀ i, s.echo_buffer i = 0) :
    (runFrames sinf s (List.replicate k (0, 0))).2 = List.replicate k (0, 0) := by
  induction k generalizing s with
  | zero => rfl
  | succ k ih =>
    obtain ⟨f1, f2, -, f4⟩ := frame_zero_echoOnly sinf s h
    have hb' : ∀ i, (frame sinf s (0, 0)).1.echo_buffer i = 0 := by
      intro i; rw [f2]; exact update_zero _ _ _ (hb i)
    simp only [List.replicate_succ, runFrames]
    rw [ih _ f1 hb', f4, hb, echoTap_zero]

/-- The silent frames that follow an impulse: the echo line holds the single value `m` at
cell `p0`, and the cursor is `d` cells before `p0`.  The accumulators are zero except in frame
`d`, where the tap reads `m`. -/
theorem runFrames_zeros_before_echo (sinf : ℚ → ℚ) (p0 m : Int) (hp : 0 ≤ p0 ∧ p0 < 11025)
    (d : Nat) (hd : d ≤ 11024) (n : Nat) (s : Engine)
    (h : s.toggles = (true, false, false, false, false, false))
    (hb : s.echo_buffer = Function.update (fun _ => 0) p0 m)
    (hpos : s.echo_pos = (p0 + 11025 - d) % 11025) :
    (runFrames sinf s (List.replicate n (0, 0))).2
      = (List.replicate n (0, 0)).set d (echoTap m, echoTap m) := by
  induction d generalizing n s with
  | zero =>
    cases n with
    | zero => rfl
    | succ k =>
      obtain ⟨f1, f2, -, f4⟩ := frame_zero_echoOnly sinf s h
      have hpos' : s.echo_pos = p0 := by rw [hpos]; omega
      have hb' : ∀ i, (frame sinf s (0, 0)).1.echo_buffer i = 0 := by
        intro i
        rw [f2, hb, hpos', Function.update_idem]
        exact update_zero _ _ _ rfl
      simp only [List.replicate_succ, runFrames, List.set_cons_zero]
      rw [runFrames_zeros_echoOnly sinf k _ f1 hb', f4, hb, hpos', Function.update_same]
  | succ d ih =>
    cases n with
    | zero => rfl
    | succ k =>
      obtain ⟨f1, f2, f3, f4⟩ := frame_zero_echoOnly sinf s h
      have hne : s.echo_pos ≠ p0 := by rw [hpos]; omega
      have hcell : s.echo_buffer s.echo_pos = 0 := by
        rw [hb, Function.update_noteq hne]
      have hb' : (frame sinf s (0, 0)).1.echo_buffer = Function.update (fun _ => 0) p0 m := by
        have hself := Function.update_eq_self s.echo_pos s.echo_buffer
        rw [hcell] at hself
        rw [f2, hself, hb]
      have hpos' : (frame sinf s (0, 0)).1.echo_pos = (p0 + 11025 - (d : Nat)) % 11025 := by
        rw [f3, tmod_succ_eq (by rw [hpos]; omega) (by decide), ECHO_DELAY_eq, hpos]
        push_cast
        omega
      simp only [List.replicate_succ, runFrames, List.set_cons_succ]
      rw [ih (by omega) k _ f1 hb' hpos', f4, hcell, echoTap_zero]

/-- The accumulators of an impulse stream with only the echo enabled and an empty echo line:
the dry frame, then silence except for the echo tap 11025 frames after the impulse. -/
theorem runFrames_impulse (sinf : ℚ → ℚ) (s : Engine) (inp : Int × Int) (n : Nat)
    (h : s.toggles = (true, false, false, false, false, false))
    (hb : ∀ i, s.echo_buffer i = 0) (hp : 0 ≤ s.echo_pos ∧ s.echo_pos < 11025) :
    (runFrames sinf s (inp :: List.replicate n (0, 0))).2
      = ((volumeStage s inp).left_sample, (volumeStage s inp).right_sample)
        :: (List.replicate n (0, 0)).set 11024
            (echoTap (downmix (volumeStage s inp)), echoTap (downmix (volumeStage s inp))) := by
  obtain ⟨f1, -, f3, f4, f5⟩ := frame_echoOnly sinf s inp h
  have hb0 : s.echo_buffer = fun _ => 0 := funext hb
  have hpos' : (frame sinf s inp).1.echo_pos = (s.echo_pos + 11025 - (11024 : Nat)) % 11025 := by
    rw [f4, tmod_succ_eq hp.1 (by decide), ECHO_DELAY_eq]
    push_cast
    omega
  rw [hb0] at f3
  simp only [runFrames]
  rw [runFrames_zeros_before_echo sinf s.echo_pos _ hp 11024 (le_refl _) n _ f1 f3 hpos', f5, hb,
    i2f_zero, zero_mul, f32_zero]
  have hl : |(volumeStage s inp).left_sample| ≤ 16777216 := toSint16_abs_le _
  have hr : |(volumeStage s inp).right_sample| ≤ 16777216 := toSint16_abs_le _
  rw [addAssign_zero_right _ hl, addAssign_zero_right _ hr]

/-! ## The echo tap as an exact truncation -/

theorem f32_sandwich {y : ℚ} {T : Int} (hT : |T| ≤ 1000000) :
    ((T : ℚ) ≤ y → y ≤ (T : ℚ) + 15 / 16 → (T : ℚ) ≤ f32 y ∧ f32 y ≤ (T : ℚ) + 15 / 16) ∧
    ((T : ℚ) - 15 / 16 ≤ y → y ≤ (T : ℚ) → (T : ℚ) - 15 / 16 ≤ f32 y ∧ f32 y ≤ (T : ℚ)) := by
  have hb := abs_le.1 hT
  have e0 : f32 (T : ℚ) = T := f32_intCast T (le_trans hT (by norm_num))
  have e1 : f32 ((T : ℚ) + 15 / 16) = (T : ℚ) + 15 / 16 := by
    have := f32_sixteenth (16 * T + 15) (by rw [abs_le]; constructor <;> omega)
    have e : (((16 * T + 15 : Int)) : ℚ) / 16 = (T : ℚ) + 15 / 16 := by push_cast; ring
    rwa [e] at this
  have e2 : f32 ((T : ℚ) - 15 / 16) = (T : ℚ) - 15 / 16 := by
    have := f32_sixteenth (16 * T - 15) (by rw [abs_le]; constructor <;> omega)
    have e : (((16 * T - 15 : Int)) : ℚ) / 16 = (T : ℚ) - 15 / 16 := by push_cast; ring
    rwa [e] at this
  constructor
  · intro h1 h2
    exact ⟨by rw [← e0]; exact f32_mono h1, by rw [← e1]; exact f32_mono h2⟩
  · intro h1 h2
    exact ⟨by rw [← e2]; exact f32_mono h1, by rw [← e0]; exact f32_mono h2⟩

theorem f32_three_tenths : f32 (3 / 10) = 10066330 / 33554432 := by decide!

/-- The echo tap of a 16-bit cell value `m` is `0.3 * m` truncated toward zero: the two
single-precision roundings and the inexact constant `0.3f` do not change the result. -/
theorem echoTap_eq (m : Int) (h1 : -32768 ≤ m) (h2 : m ≤ 32767) :
    echoTap m = truncQ ((3 / 10 : ℚ) * m) := by
  have hm : i2f m = m := i2f_of_abs_le m (by rw [abs_le]; constructor <;> omega)
  have hq1 : (-32768 : ℚ) ≤ m := by exact_mod_cast h1
  have hq2 : (m : ℚ) ≤ 32767 := by exact_mod_cast h2
  unfold echoTap addAssign
  rw [i2f_zero, zero_add, hm, f32_three_tenths]
  rcases le_or_lt 0 m with hpos | hneg
  · set T : Int := 3 * m / 10 with hTdef
    have a1 : 10 * T ≤ 3 * m := by omega
    have a2 : 3 * m ≤ 10 * T + 9 := by omega
    have a0 : 0 ≤ T := by omega
    have b1 : (10 : ℚ) * T ≤ 3 * m := by exact_mod_cast a1
    have b2 : (3 : ℚ) * m ≤ 10 * T + 9 := by exact_mod_cast a2
    have hmq : (0 : ℚ) ≤ m := by exact_mod_cast hpos
    have hT : |T| ≤ 1000000 := by rw [abs_le]; constructor <;> omega
    have r1 : truncQ ((3 / 10 : ℚ) * m) = T :=
      truncQ_eq_of_nonneg a0 (by linarith) (by linarith)
    obtain ⟨s1, s2⟩ := (f32_sandwich hT).1
      (show (T : ℚ) ≤ (m : ℚ) * (10066330 / 33554432) by linarith)
      (show (m : ℚ) * (10066330 / 33554432) ≤ (T : ℚ) + 15 / 16 by linarith)
    obtain ⟨t1, t2⟩ := (f32_sandwich hT).1 s1 s2
    rw [r1]
    exact truncQ_eq_of_nonneg a0 t1 t2
  · set T : Int := -(3 * (-m) / 10) with hTdef
    have a1 : 3 * m ≤ 10 * T := by omega
    have a2 : 10 * T - 9 ≤ 3 * m := by omega
    have a0 : T ≤ 0 := by omega
    have b1 : (3 : ℚ) * m ≤ 10 * T := by exact_mod_cast a1
    have b2 : (10 : ℚ) * T - 9 ≤ 3 * m := by exact_mod_cast a2
    have hmq : (m : ℚ) < 0 := by exact_mod_cast hneg
    have hT : |T| ≤ 1000000 := by rw [abs_le]; constructor <;> omega
    have r1 : truncQ ((3 / 10 : ℚ) * m) = T :=
      truncQ_eq_of_nonpos a0 (by linarith) (by linarith)
    obtain ⟨s1, s2⟩ := (f32_sandwich hT).2
      (show (T : ℚ) - 15 / 16 ≤ (m : ℚ) * (10066330 / 33554432) by linarith)
      (show (m : ℚ) * (10066330 / 33554432) ≤ (T : ℚ) by linarith)
    obtain ⟨t1, t2⟩ := (f32_sandwich hT).2 s1 s2
    rw [r1]
    exact truncQ_eq_of_nonpos a0 t1 t2

/-! ## Blocks without rescale -/

/-- If no accumulator of the stream exceeds 32767 in magnitude, every block is left with its
accumulators, however the stream is cut into blocks. -/
theorem processBlocks_output (sinf : ℚ → ℚ) (s : Engine) (blocks : List (List (Int × Int)))
    (h : ∀ a ∈ (runFrames sinf s blocks.flatten).2, |a.1| ≤ 32767 ∧ |a.2| ≤ 32767) :
    (processBlocks sinf s blocks).2 = (runFrames sinf s blocks.flatten).2 := by
  induction blocks generalizing s with
  | nil => rfl
  | cons b rest ih =>
    simp only [List.flatten_cons, runFrames_append] at h
    have hb : (audio_effect sinf s b).2 = (runFrames sinf s b).2 :=
      audio_effect_within_headroom sinf s b
        (blockPeak_le _ 32767 (by norm_num) fun a ha => h a (List.mem_append_left _ ha))
    simp only [processBlocks, List.flatten_cons, runFrames_append, hb, audio_effect_state]
    rw [ih _ fun a ha => h a (List.mem_append_right _ ha)]

/-! ## The echo impulse response -/

theorem tdiv_two_range (a : Int) (h1 : -65536 ≤ a) (h2 : a ≤ 65534) :
    -32768 ≤ a.tdiv 2 ∧ a.tdiv 2 ≤ 32767 := by
  rcases le_or_lt 0 a with h | h
  · rw [Int.tdiv_eq_ediv h (by norm_num)]; omega
  · have e : a.tdiv 2 = -((-a).tdiv 2) := by rw [Int.neg_tdiv, neg_neg]
    rw [e, Int.tdiv_eq_ediv (by omega) (by norm_num)]
    omega

theorem downmix_volumeStage (s : Engine) (inp : Int × Int) :
    downmix (volumeStage s inp)
      = ((volumeStage s inp).left_sample + (volumeStage s inp).right_sample).tdiv 2 ∧
    -32768 ≤ downmix (volumeStage s inp) ∧ downmix (volumeStage s inp) ≤ 32767 := by
  have hl := toSint16_range (truncQ (f32 (i2f inp.1 * s.global_volume)))
  have hr := toSint16_range (truncQ (f32 (i2f inp.2 * s.global_volume)))
  have hd := tdiv_two_range ((volumeStage s inp).left_sample + (volumeStage s inp).right_sample)
    (by simp only [volumeStage, castSint16]; omega) (by simp only [volumeStage, castSint16]; omega)
  have e : downmix (volumeStage s inp)
      = ((volumeStage s inp).left_sample + (volumeStage s inp).right_sample).tdiv 2 := by
    rw [downmix, toSint16_of_range hd.1 hd.2]
  exact ⟨e, by rw [e]; exact hd.1, by rw [e]; exact hd.2⟩

theorem truncQ_three_tenths_range (m : Int) (h1 : -32768 ≤ m) (h2 : m ≤ 32767) :
    |truncQ ((3 / 10 : ℚ) * m)| ≤ 32767 := by
  have hq1 : (-32768 : ℚ) ≤ m := by exact_mod_cast h1
  have hq2 : (m : ℚ) ≤ 32767 := by exact_mod_cast h2
  have a := truncQ_mono (show (((-32767 : Int)) : ℚ) ≤ (3 / 10 : ℚ) * m by push_cast; linarith)
  have b := truncQ_mono (show (3 / 10 : ℚ) * m ≤ ((32767 : Int) : ℚ) by push_cast; linarith)
  rw [truncQ_intCast] at a b
  rw [abs_le]
  exact ⟨a, b⟩

/-- The accumulators of an impulse stream, with the echo tap as an exact truncation. -/
theorem runFrames_impulse_exact (sinf : ℚ → ℚ) (s : Engine) (L R : Int) (n : Nat)
    (htog : s.toggles = (true, false, false, false, false, false))
    (hbuf : ∀ i, s.echo_buffer i = 0) (hpos : 0 ≤ s.echo_pos ∧ s.echo_pos < 11025) :
    (runFrames sinf s ((L, R) :: List.replicate n (0, 0))).2
      = (castSint16 (f32 (i2f L * s.global_volume)), castSint16 (f32 (i2f R * s.global_volume)))
        :: (List.replicate n (0, 0)).set 11024
          (truncQ ((3 / 10 : ℚ) * ((castSint16 (f32 (i2f L * s.global_volume))
              + castSint16 (f32 (i2f R * s.global_volume))).tdiv 2 : Int)),
            truncQ ((3 / 10 : ℚ) * ((castSint16 (f32 (i2f L * s.global_volume))
              + castSint16 (f32 (i2f R * s.global_volume))).tdiv 2 : Int))) := by
  obtain ⟨d1, d2, d3⟩ := downmix_volumeStage s (L, R)
  rw [runFrames_impulse sinf s (L, R) n htog hbuf hpos, echoTap_eq _ d2 d3, d1]
  rfl

/-- C5, as amended (echo impulse response): with only the echo enabled and the echo line
initially all zero, for a stream whose frame 0 is `(L, R)` and whose other frames are zero,
cut into blocks in any way, frame 0 comes out as its volume-scaled samples `(l, r)`, frame
11025 comes out as `trunc(0.3 * m)` on both channels, `m = trunc((l + r) / 2)`, and every
other frame comes out as zero, provided neither `l` nor `r` is `-32768`. -/
theorem echo_impulse_response (sinf : ℚ → ℚ) (s : Engine) (blocks : List (List (Int × Int)))
    (L R : Int) (n : Nat)
    (htog : s.toggles = (true, false, false, false, false, false))
    (hbuf : ∀ i, s.echo_buffer i = 0) (hpos : 0 ≤ s.echo_pos ∧ s.echo_pos < 11025)
    (hstream : blocks.flatten = (L, R) :: List.replicate n (0, 0))
    (hl : castSint16 (f32 (i2f L * s.global_volume)) ≠ -32768)
    (hr : castSint16 (f32 (i2f R * s.global_volume)) ≠ -32768) :
    (processBlocks sinf s blocks).2
      = (castSint16 (f32 (i2f L * s.global_volume)), castSint16 (f32 (i2f R * s.global_volume)))
        :: (List.replicate n (0, 0)).set 11024
          (truncQ ((3 / 10 : ℚ) * ((castSint16 (f32 (i2f L * s.global_volume))
              + castSint16 (f32 (i2f R * s.global_volume))).tdiv 2 : Int)),
            truncQ ((3 / 10 : ℚ) * ((castSint16 (f32 (i2f L * s.global_volume))
              + castSint16 (f32 (i2f R * s.global_volume))).tdiv 2 : Int))) := by
  have hacc := runFrames_impulse_exact sinf s L R n htog hbuf hpos
  rw [← hstream] at hacc
  rw [← hacc]
  apply processBlocks_output
  rw [hacc]
  obtain ⟨-, d2, d3⟩ := downmix_volumeStage s (L, R)
  have hl2 := toSint16_range (truncQ (f32 (i2f L * s.global_volume)))
  have hr2 := toSint16_range (truncQ (f32 (i2f R * s.global_volume)))
  have hm := tdiv_two_range (castSint16 (f32 (i2f L * s.global_volume))
    + castSint16 (f32 (i2f R * s.global_volume)))
    (by simp only [castSint16]; omega) (by simp only [castSint16]; omega)
  have hT := truncQ_three_tenths_range _ hm.1 hm.2
  intro a ha
  rcases List.mem_cons.1 ha with rfl | ha
  · simp only [castSint16] at hl hr ⊢
    simp only [abs_le]
    refine ⟨⟨?_, ?_⟩, ⟨?_, ?_⟩⟩ <;> omega
  · rcases List.mem_or_eq_of_mem_set ha with hz | rfl
    · rw [List.eq_of_mem_replicate hz]
      simp
    · exact ⟨hT, hT⟩

theorem audio_effect_rescaled (sinf : ℚ → ℚ) (s : Engine) (block : List (Int × Int))
    (h : 32767 < blockPeak (runFrames sinf s block).2) :
    (audio_effect sinf s block).2
      = ((runFrames sinf s block).2.map store).map
          (rescale (scaleOf (blockPeak (runFrames sinf s block).2))) := by
  simp only [audio_effect]
  rw [if_pos h]

/-- Witness for C5 (amended): default parameters, only the echo enabled, the impulse
`(32767, -20000)` followed by 11523 silent frames, delivered as a block of 1024 frames and a
block of 10500 frames; the impulse comes out as `(21298, -13000)` and its echo as 1244. -/
theorem echo_impulse_response_witness :
    (processBlocks (fun _ => 0) echoOnly
      [(32767, -20000) :: List.replicate 1023 (0, 0), List.replicate 10500 (0, 0)]).2
      = (21298, -13000) :: (List.replicate (1023 + 10500) (0, 0)).set 11024 (1244, 1244) := by
  have h := echo_impulse_response (fun _ => 0) echoOnly
    [(32767, -20000) :: List.replicate 1023 (0, 0), List.replicate 10500 (0, 0)]
    32767 (-20000) (1023 + 10500) rfl (fun _ => rfl) ⟨by decide, by decide⟩
    (by rw [List.flatten_cons, List.flatten_cons, List.flatten_nil, List.append_nil,
      List.cons_append, List.append_replicate_replicate])
    (by decide!) (by decide!)
  have e1 : castSint16 (f32 (i2f 32767 * echoOnly.global_volume)) = 21298 := by decide!
  have e2 : castSint16 (f32 (i2f (-20000) * echoOnly.global_volume)) = -13000 := by decide!
  have e3 : truncQ ((3 / 10 : ℚ) * (((21298 : Int) + -13000).tdiv 2 : Int)) = 1244 := by decide!
  rw [e1, e2, e3] at h
  exact h

theorem processBlocks_single (sinf : ℚ → ℚ) (s : Engine) (block : List (Int × Int)) :
    (processBlocks sinf s [block]).2 = (audio_effect sinf s block).2 := by
  simp only [processBlocks, List.append_nil]

/-- Counterexample to C5 as stated: at `global_volume = 1.0f` with only the echo enabled, the
impulse `(-32768, -32768)` followed by 11025 silent frames in one block has the volume-scaled
samples `l = r = -32768`, so `m = -32768` and `trunc(0.3 * m) = -9830`; but the peak 32768
triggers the block rescale and frame 11025 comes out as `(-9829, -9829)`. -/
theorem echo_impulse_counterexample :
    echoOnlyUnit.toggles = (true, false, false, false, false, false) ∧
    (∀ i, echoOnlyUnit.echo_buffer i = 0) ∧
    castSint16 (f32 (i2f (-32768) * echoOnlyUnit.global_volume)) = -32768 ∧
    truncQ ((3 / 10 : ℚ) * ((((-32768 : Int)) + -32768).tdiv 2 : Int)) = -9830 ∧
    (processBlocks (fun _ => 0) echoOnlyUnit
      [(-32768, -32768) :: List.replicate 11025 (0, 0)]).2[11025]? = some (-9829, -9829) := by
  have e1 : castSint16 (f32 (i2f (-32768) * echoOnlyUnit.global_volume)) = -32768 := by decide!
  have e3 : truncQ ((3 / 10 : ℚ) * ((((-32768 : Int)) + -32768).tdiv 2 : Int)) = -9830 := by
    decide!
  refine ⟨rfl, fun _ => rfl, e1, e3, ?_⟩
  have hacc := runFrames_impulse_exact (fun _ => 0) echoOnlyUnit (-32768) (-32768) 11025 rfl
    (fun _ => rfl) ⟨by decide, by decide⟩
  rw [e1, e3] at hacc
  have hpk : blockPeak (runFrames (fun _ => 0) echoOnlyUnit
      ((-32768, -32768) :: List.replicate 11025 (0, 0))).2 = 32768 := by
    apply le_antisymm
    · refine blockPeak_le _ 32768 (by norm_num) fun a ha => ?_
      rw [hacc] at ha
      rcases List.mem_cons.1 ha with rfl | ha
      · decide
      · rcases List.mem_or_eq_of_mem_set ha with hz | rfl
        · rw [List.eq_of_mem_replicate hz]; decide
        · decide
    · have := (abs_le_blockPeak (runFrames (fun _ => 0) echoOnlyUnit
        ((-32768, -32768) :: List.replicate 11025 (0, 0))).2 (-32768, -32768)
        (by rw [hacc]; exact List.mem_cons_self _ _)).1
      have e : |(((-32768 : Int)), ((-32768 : Int))).1| = 32768 := by decide
      rw [e] at this
      exact this
  have hout := audio_effect_rescaled (fun _ => 0) echoOnlyUnit
    ((-32768, -32768) :: List.replicate 11025 (0, 0)) (by rw [hpk]; norm_num)
  rw [processBlocks_single, hout, hpk, hacc, List.map_map, List.getElem?_map, List.getElem?_cons_succ,
    List.getElem?_set_self (by rw [List.length_replicate]; norm_num)]
  show some (rescale (scaleOf 32768) (store (-9830, -9830))) = some (-9829, -9829)
  decide!

/-! ## Rounding error -/

/-- The rounding error is at most half a unit in the last place. -/
theorem roundBin_abs_error (p : Nat) (emin : Int) {x : ℚ} (hx : x ≠ 0) :
    |roundBin p emin x - x| ≤ pow2 (max (ilog2 x - ((p : Int) - 1)) emin) / 2 := by
  rw [roundBin_of_ne_zero p emin hx]
  set q := max (ilog2 x - ((p : Int) - 1)) emin with hq
  have hpos := pow2_pos q
  have h1 := rne_sub_le (x / pow2 q)
  have h2 := sub_rne_le (x / pow2 q)
  have e : (rne (x / pow2 q) : ℚ) * pow2 q - x = ((rne (x / pow2 q) : ℚ) - x / pow2 q) * pow2 q := by
    field_simp
  rw [e, abs_mul, abs_of_pos hpos]
  have : |(rne (x / pow2 q) : ℚ) - x / pow2 q| ≤ 1 / 2 := by
    rw [abs_le]; constructor <;> linarith
  calc |(rne (x / pow2 q) : ℚ) - x / pow2 q| * pow2 q ≤ 1 / 2 * pow2 q :=
        mul_le_mul_of_nonneg_right this hpos.le
    _ = pow2 q / 2 := by ring

/-- Absolute error of a single-precision rounding below `2 ^ k`. -/
theorem f32_error_le {x : ℚ} {k : Int} (hk : -125 ≤ k) (h : |x| ≤ pow2 k) :
    |f32 x - x| ≤ pow2 (k - 24) := by
  by_cases hx : x = 0
  · rw [hx, f32_zero, sub_zero, abs_zero]; exact (pow2_pos _).le
  have he : ilog2 x ≤ k := by
    have := (ilog2_spec x hx).1
    exact pow2_le_pow2_iff.1 (le_trans this h)
  have := roundBin_abs_error 24 (-149) hx
  refine le_trans this ?_
  have h2 : pow2 (k - 23) = pow2 (k - 24) * 2 := by
    rw [mul_comm, ← pow2_succ]; congr 1; ring
  rw [div_le_iff₀ (by norm_num : (0 : ℚ) < 2), ← h2]
  exact pow2_le_pow2 (max_le (by push_cast; omega) (by omega))

/-- Values of magnitude at most `2 ^ 17` are rounded to single precision with an error of at
most `2 ^ (-7)`. -/
theorem f32_error_small {x : ℚ} (h : |x| ≤ 131072) : |f32 x - x| ≤ 1 / 128 := by
  have e1 : pow2 17 = 131072 := by rw [pow2_eq_zpow]; norm_num
  have e2 : pow2 (17 - 24) = 1 / 128 := by rw [pow2_eq_zpow]; norm_num
  have := f32_error_le (k := 17) (by norm_num) (by rw [e1]; exact h)
  rwa [e2] at this

/-- Dyadic rationals `n / 2 ^ k` with `|n| ≤ 2 ^ 24` are `float` values. -/
theorem f32_dyadic (n : Int) (k : Nat) (hn : |n| ≤ 16777216) (hk : k ≤ 149) :
    f32 ((n : ℚ) / 2 ^ k) = (n : ℚ) / 2 ^ k := by
  have := roundBin_exact 24 (-149) (by norm_num) n (-(k : Int)) (by simpa using hn) (by omega)
  have e : pow2 (-(k : Int)) = 1 / (2 : ℚ) ^ k := by
    rw [pow2_eq_zpow, zpow_neg, zpow_natCast, one_div]
  rw [e] at this
  simpa [f32, div_eq_mul_inv] using this

theorem truncQ_neg (x : ℚ) : truncQ (-x) = -truncQ x := by
  unfold truncQ
  rcases lt_trichotomy x 0 with h | h | h
  · rw [if_pos (by linarith), if_neg (by linarith), neg_neg]
  · subst h; simp
  · rw [if_neg (by linarith), if_pos (by linarith), neg_neg]

/-- Truncation toward zero does not increase the magnitude and keeps the sign. -/
theorem truncQ_bounds (x : ℚ) :
    (0 ≤ x → 0 ≤ truncQ x ∧ (truncQ x : ℚ) ≤ x) ∧ (x ≤ 0 → truncQ x ≤ 0 ∧ x ≤ (truncQ x : ℚ)) := by
  constructor
  · intro h
    unfold truncQ
    rw [if_pos h]
    exact ⟨Int.floor_nonneg.2 h, Int.floor_le x⟩
  · intro h
    have h' : 0 ≤ -x := by linarith
    have e : truncQ x = -truncQ (-x) := by rw [truncQ_neg, neg_neg]
    have f0 : 0 ≤ truncQ (-x) := by unfold truncQ; rw [if_pos h']; exact Int.floor_nonneg.2 h'
    have f1 : (truncQ (-x) : ℚ) ≤ -x := by unfold truncQ; rw [if_pos h']; exact Int.floor_le _
    rw [e]
    refine ⟨by omega, ?_⟩
    push_cast
    linarith

/-- Half of a 16-bit value is a `float`, and its truncation is the C quotient by 2. -/
theorem half_exact (d : Int) (h1 : -32768 ≤ d) (h2 : d ≤ 32767) :
    truncQ (f32 (i2f d * f32 (1 / 2))) = d.tdiv 2 ∧
    truncQ (f32 (i2f d * f32 (-1 / 2))) = -(d.tdiv 2) := by
  have hd : i2f d = d := i2f_of_abs_le d (by rw [abs_le]; constructor <;> omega)
  have c1 : f32 (1 / 2) = 1 / 2 := by decide!
  have c2 : f32 (-1 / 2) = -(1 / 2) := by decide!
  have hx : f32 ((d : ℚ) * (1 / 2)) = (d : ℚ) * (1 / 2) := by
    have := f32_dyadic d 1 (by rw [abs_le]; constructor <;> omega) (by norm_num)
    simpa [div_eq_mul_inv] using this
  have ht : truncQ ((d : ℚ) * (1 / 2)) = d.tdiv 2 := by
    rcases le_or_lt 0 d with h | h
    · rw [Int.tdiv_eq_ediv h (by norm_num)]
      have hq : (0 : ℚ) ≤ (d : ℚ) * (1 / 2) := by
        have : (0 : ℚ) ≤ d := by exact_mod_cast h
        linarith
      unfold truncQ
      rw [if_pos hq, Int.floor_eq_iff]
      have a1 : 2 * (d / 2) ≤ d := by omega
      have a2 : d < 2 * (d / 2) + 2 := by omega
      have b1 : (2 : ℚ) * ((d / 2 : Int) : ℚ) ≤ d := by exact_mod_cast a1
      have b2 : (d : ℚ) < 2 * ((d / 2 : Int) : ℚ) + 2 := by exact_mod_cast a2
      constructor <;> linarith
    · have e : d.tdiv 2 = -((-d).tdiv 2) := by rw [Int.neg_tdiv, neg_neg]
      rw [e, Int.tdiv_eq_ediv (by omega) (by norm_num)]
      have hq : ¬ (0 : ℚ) ≤ (d : ℚ) * (1 / 2) := by
        have : (d : ℚ) < 0 := by exact_mod_cast h
        linarith
      unfold truncQ
      rw [if_neg hq]
      congr 1
      rw [Int.floor_eq_iff]
      have a1 : 2 * (-d / 2) ≤ -d := by omega
      have a2 : -d < 2 * (-d / 2) + 2 := by omega
      have b1 : (2 : ℚ) * ((-d / 2 : Int) : ℚ) ≤ -d := by exact_mod_cast a1
      have b2 : -(d : ℚ) < 2 * ((-d / 2 : Int) : ℚ) + 2 := by exact_mod_cast a2
      constructor <;> linarith
  constructor
  · rw [hd, c1, hx, ht]
  · rw [hd, c2, mul_neg, f32_neg, hx, truncQ_neg, ht]

/-! ## State across blocks, configuration, initial state -/

theorem blockPeak_append_le (x y : List (Int × Int)) (B : Int) (hB : 0 ≤ B)
    (hx : blockPeak x ≤ B) (hy : blockPeak y ≤ B) : blockPeak (x ++ y) ≤ B := by
  apply blockPeak_le _ _ hB
  intro a ha
  rcases List.mem_append.1 ha with h | h
  · have := abs_le_blockPeak x a h
    exact ⟨by omega, by omega⟩
  · have := abs_le_blockPeak y a h
    exact ⟨by omega, by omega⟩

/-- C13 (state carries across blocks independently of block boundaries): for every engine state
`s` (toggles and parameters are part of the state and are whatever they are), and every frame
sequence `A ++ B`, one call of `audio_effect` on `A ++ B` leaves exactly the engine state left by
a call on `A` followed by a call on `B`; and when the peak of block `A` and the peak of block
`B` (processed from the state `A` leaves) do not exceed 32767, the peak of `A ++ B` does not
either and the samples produced by the single call are those of the two calls, concatenated. -/
theorem state_across_blocks (sinf : ℚ → ℚ) (s : Engine) (A B : List (Int × Int)) :
    (audio_effect sinf s (A ++ B)).1 = (audio_effect sinf (audio_effect sinf s A).1 B).1 ∧
    (blockPeak (runFrames sinf s A).2 ≤ 32767 →
      blockPeak (runFrames sinf (audio_effect sinf s A).1 B).2 ≤ 32767 →
      blockPeak (runFrames sinf s (A ++ B)).2 ≤ 32767 ∧
      (audio_effect sinf s (A ++ B)).2
        = (audio_effect sinf s A).2 ++ (audio_effect sinf (audio_effect sinf s A).1 B).2) := by
  have hst : (audio_effect sinf s A).1 = (runFrames sinf s A).1 := audio_effect_state sinf s A
  refine ⟨?_, ?_⟩
  · rw [audio_effect_state, audio_effect_state, hst, runFrames_append]
  · intro hA hB
    rw [hst] at hB ⊢
    have hAB : blockPeak (runFrames sinf s (A ++ B)).2 ≤ 32767 := by
      rw [runFrames_append]
      exact blockPeak_append_le _ _ 32767 (by norm_num) hA hB
    refine ⟨hAB, ?_⟩
    rw [audio_effect_within_headroom sinf s (A ++ B) hAB,
      audio_effect_within_headroom sinf s A hA,
      audio_effect_within_headroom sinf _ B hB, runFrames_append]

/-- Witness for C13: the initial state with a two-frame block split after its first frame;
both peaks are within the headroom and the outputs agree. -/
theorem state_across_blocks_witness :
    (blockPeak (runFrames (fun _ => 0) init [(100, -200)]).2 ≤ 32767 ∧
      blockPeak (runFrames (fun _ => 0) (audio_effect (fun _ => 0) init [(100, -200)]).1
        [(5, 5)]).2 ≤ 32767) ∧
    (blockPeak (runFrames (fun _ => 0) init ([(100, -200)] ++ [(5, 5)])).2 ≤ 32767 ∧
      (audio_effect (fun _ => 0) init ([(100, -200)] ++ [(5, 5)])).2
        = (audio_effect (fun _ => 0) init [(100, -200)]).2
          ++ (audio_effect (fun _ => 0) (audio_effect (fun _ => 0) init [(100, -200)]).1
            [(5, 5)]).2) :=
  ⟨⟨by decide!, by decide!⟩,
    (state_across_blocks (fun _ => 0) init [(100, -200)] [(5, 5)]).2 (by decide!) (by decide!)⟩

/-- C15 (`audio_effect` never modifies configuration): for every state and every input block,
each of the six effect toggles and each of the ten effect parameters has the same value after
the call as before it. -/
theorem config_unchanged (sinf : ℚ → ℚ) (s : Engine) (block : List (Int × Int)) :
    ((audio_effect sinf s block).1.echo_enabled = s.echo_enabled ∧
      (audio_effect sinf s block).1.reverb_enabled = s.reverb_enabled ∧
      (audio_effect sinf s block).1.chorus_enabled = s.chorus_enabled ∧
      (audio_effect sinf s block).1.vibrato_enabled = s.vibrato_enabled ∧
      (audio_effect sinf s block).1.tremolo_enabled = s.tremolo_enabled ∧
      (audio_effect sinf s block).1.stereo_enabled = s.stereo_enabled) ∧
    ((audio_effect sinf s block).1.reverb_level = s.reverb_level ∧
      (audio_effect sinf s block).1.reverb_feedback = s.reverb_feedback ∧
      (audio_effect sinf s block).1.reverb_damping = s.reverb_damping ∧
      (audio_effect sinf s block).1.chorus_level = s.chorus_level ∧
      (audio_effect sinf s block).1.chorus_depth = s.chorus_depth ∧
      (audio_effect sinf s block).1.chorus_speed = s.chorus_speed ∧
      (audio_effect sinf s block).1.stereo_width = s.stereo_width ∧
      (audio_effect sinf s block).1.global_volume = s.global_volume ∧
      (audio_effect sinf s block).1.limiter_threshold = s.limiter_threshold ∧
      (audio_effect sinf s block).1.limiter_enabled = s.limiter_enabled) := by
  have ht := runFrames_toggles sinf s block
  have hp := runFrames_params sinf s block
  rw [← audio_effect_state] at ht hp
  simp only [Engine.toggles, Engine.params, Prod.mk.injEq] at ht hp
  exact ⟨ht, hp⟩

/-- Counterexample to C16 as stated: the first two chorus phases start at 0.5, not at 0. -/
theorem zero_init_counterexample :
    init.chorus_phase1 = 1 / 2 ∧ init.chorus_phase2 = 1 / 2 ∧ init.chorus_phase1 ≠ 0 ∧
      init.chorus_phase2 ≠ 0 := by
  refine ⟨?_, ?_, ?_, ?_⟩ <;> decide!

/-- C16, as amended (initialisation): in the initial engine state every one of the ten delay
lines is all zeros, every one of the ten cursors is 0, the vibrato, tremolo and third chorus
phases are 0, and the first and second chorus phases are 0.5. -/
theorem zero_init :
    buffersZero init ∧
    (init.echo_pos = 0 ∧ init.reverb_pos1 = 0 ∧ init.reverb_pos2 = 0 ∧ init.reverb_pos3 = 0 ∧
      init.reverb_pos4 = 0 ∧ init.reverb_pos5 = 0 ∧ init.chorus_pos1 = 0 ∧
      init.chorus_pos2 = 0 ∧ init.chorus_pos3 = 0 ∧ init.stereo_pos = 0) ∧
    (init.vibrato_phase = 0 ∧ init.tremolo_phase = 0 ∧ init.chorus_phase3 = 0) ∧
    (init.chorus_phase1 = 1 / 2 ∧ init.chorus_phase2 = 1 / 2) := by
  refine ⟨fun i => ⟨rfl, rfl, rfl, rfl, rfl, rfl, rfl, rfl, rfl, rfl⟩,
    ⟨rfl, rfl, rfl, rfl, rfl, rfl, rfl, rfl, rfl, rfl⟩, ⟨?_, ?_, ?_⟩, ⟨?_, ?_⟩⟩ <;> decide!

/-! ## Stage order -/

/-- The accumulators after vibrato, tremolo and stereo widening (all enabled), in terms of the
loop-body state `a` that reaches the vibrato block. -/
theorem late_stages (sinf : ℚ → ℚ) (a : Acc) (hv : a.s.vibrato_enabled = true)
    (ht : a.s.tremolo_enabled = true) (hs : a.s.stereo_enabled = true) :
    (stereoStage (tremoloStage sinf (vibratoStage sinf a))).mixed_left
      = truncQ (f32 (i2f (truncQ (f32 (i2f a.mixed_left
            * f32 (f32 1 + f32 (sinf a.s.vibrato_phase * f32 (3 / 100))))))
          * f32 (f32 (17 / 20) + f32 (f32 (3 / 40) * sinf a.s.tremolo_phase))))
        + truncQ (f32 (i2f (a.s.stereo_buffer a.s.stereo_pos) * f32 (1 / 2))) ∧
    (stereoStage (tremoloStage sinf (vibratoStage sinf a))).mixed_right
      = truncQ (f32 (i2f (truncQ (f32 (i2f a.mixed_right
            * f32 (f32 1 + f32 (sinf a.s.vibrato_phase * f32 (3 / 100))))))
          * f32 (f32 (17 / 20) + f32 (f32 (3 / 40) * sinf a.s.tremolo_phase))))
        + truncQ (f32 (i2f (a.s.stereo_buffer a.s.stereo_pos) * f32 (-1 / 2))) := by
  have e1 : (vibratoStage sinf a).s.tremolo_enabled = true := by
    have := vibratoStage_toggles sinf a
    simp only [Engine.toggles, Prod.mk.injEq] at this
    rw [this.2.2.2.2.1, ht]
  have e2 : (tremoloStage sinf (vibratoStage sinf a)).s.stereo_enabled = true := by
    have h1 := vibratoStage_toggles sinf a
    have h2 := tremoloStage_toggles sinf (vibratoStage sinf a)
    simp only [Engine.toggles, Prod.mk.injEq] at h1 h2
    rw [h2.2.2.2.2.2, h1.2.2.2.2.2, hs]
  have e3 : (tremoloStage sinf (vibratoStage sinf a)).s.stereoPart = a.s.stereoPart := by simp
  have e4 : (vibratoStage sinf a).s.tremolo_phase = a.s.tremolo_phase := by simp
  simp only [Engine.stereoPart, Prod.mk.injEq] at e3
  have s1 : (stereoStage (tremoloStage sinf (vibratoStage sinf a))).mixed_left
      = (tremoloStage sinf (vibratoStage sinf a)).mixed_left
        + truncQ (f32 (i2f (a.s.stereo_buffer a.s.stereo_pos) * f32 (1 / 2))) := by
    rw [← e3.1, ← e3.2]; simp only [stereoStage, e2, if_true]
  have s2 : (stereoStage (tremoloStage sinf (vibratoStage sinf a))).mixed_right
      = (tremoloStage sinf (vibratoStage sinf a)).mixed_right
        + truncQ (f32 (i2f (a.s.stereo_buffer a.s.stereo_pos) * f32 (-1 / 2))) := by
    rw [← e3.1, ← e3.2]; simp only [stereoStage, e2, if_true]
  have t1 : (tremoloStage sinf (vibratoStage sinf a)).mixed_left
      = truncQ (f32 (i2f (vibratoStage sinf a).mixed_left
          * f32 (f32 (17 / 20) + f32 (f32 (3 / 40) * sinf a.s.tremolo_phase)))) := by
    rw [← e4]; simp only [tremoloStage, e1, if_true]
  have t2 : (tremoloStage sinf (vibratoStage sinf a)).mixed_right
      = truncQ (f32 (i2f (vibratoStage sinf a).mixed_right
          * f32 (f32 (17 / 20) + f32 (f32 (3 / 40) * sinf a.s.tremolo_phase)))) := by
    rw [← e4]; simp only [tremoloStage, e1, if_true]
  have v1 : (vibratoStage sinf a).mixed_left = truncQ (f32 (i2f a.mixed_left
      * f32 (f32 1 + f32 (sinf a.s.vibrato_phase * f32 (3 / 100))))) := by
    simp only [vibratoStage, hv, if_true]
  have v2 : (vibratoStage sinf a).mixed_right = truncQ (f32 (i2f a.mixed_right
      * f32 (f32 1 + f32 (sinf a.s.vibrato_phase * f32 (3 / 100))))) := by
    simp only [vibratoStage, hv, if_true]
  rw [s1, s2, t1, t2, v1, v2]
  exact ⟨rfl, rfl⟩

/-- C14 (fixed stage order): the final accumulators of a frame are obtained by applying the
stages in the order volume, echo, reverb, chorus, vibrato, tremolo, stereo widening, a disabled
stage being skipped. With vibrato, tremolo and stereo widening enabled, the accumulators that
leave the chorus block (which carry the echo, reverb and chorus contributions) are multiplied by
the vibrato gain and then by the tremolo gain, each product truncated, and the stereo term is
added afterwards, unscaled. With only these three enabled and a 16-bit stored sample `d`,
`left = trunc(trunc(l * vib) * trem) + trunc(d / 2)` for the volume-scaled sample `l`. -/
theorem fixed_stage_order (sinf : ℚ → ℚ) (s : Engine) (inp : Int × Int) :
    frameAcc sinf s inp
      = stereoStage (tremoloStage sinf (vibratoStage sinf (chorusStage sinf
          (reverbStage (echoStage (volumeStage s inp)))))) ∧
    (∀ a : Acc, (a.s.echo_enabled = false → echoStage a = a) ∧
      (a.s.reverb_enabled = false → reverbStage a = a) ∧
      (a.s.chorus_enabled = false → chorusStage sinf a = a) ∧
      (a.s.vibrato_enabled = false → vibratoStage sinf a = a) ∧
      (a.s.tremolo_enabled = false → tremoloStage sinf a = a) ∧
      (a.s.stereo_enabled = false → stereoStage a = a)) ∧
    (s.vibrato_enabled = true → s.tremolo_enabled = true → s.stereo_enabled = true →
      (frame sinf s inp).2
        = (truncQ (f32 (i2f (truncQ (f32 (i2f
              (chorusStage sinf (reverbStage (echoStage (volumeStage s inp)))).mixed_left
              * f32 (f32 1 + f32 (sinf s.vibrato_phase * f32 (3 / 100))))))
            * f32 (f32 (17 / 20) + f32 (f32 (3 / 40) * sinf s.tremolo_phase))))
            + truncQ (f32 (i2f (s.stereo_buffer s.stereo_pos) * f32 (1 / 2))),
          truncQ (f32 (i2f (truncQ (f32 (i2f
              (chorusStage sinf (reverbStage (echoStage (volumeStage s inp)))).mixed_right
              * f32 (f32 1 + f32 (sinf s.vibrato_phase * f32 (3 / 100))))))
            * f32 (f32 (17 / 20) + f32 (f32 (3 / 40) * sinf s.tremolo_phase))))
            + truncQ (f32 (i2f (s.stereo_buffer s.stereo_pos) * f32 (-1 / 2))))) ∧
    (s.echo_enabled = false → s.reverb_enabled = false → s.chorus_enabled = false →
      s.vibrato_enabled = true → s.tremolo_enabled = true → s.stereo_enabled = true →
      -32768 ≤ s.stereo_buffer s.stereo_pos → s.stereo_buffer s.stereo_pos ≤ 32767 →
      (frame sinf s inp).2
        = (truncQ (f32 (i2f (truncQ (f32 (i2f (castSint16 (f32 (i2f inp.1 * s.global_volume)))
              * f32 (f32 1 + f32 (sinf s.vibrato_phase * f32 (3 / 100))))))
            * f32 (f32 (17 / 20) + f32 (f32 (3 / 40) * sinf s.tremolo_phase))))
            + (s.stereo_buffer s.stereo_pos).tdiv 2,
          truncQ (f32 (i2f (truncQ (f32 (i2f (castSint16 (f32 (i2f inp.2 * s.global_volume)))
              * f32 (f32 1 + f32 (sinf s.vibrato_phase * f32 (3 / 100))))))
            * f32 (f32 (17 / 20) + f32 (f32 (3 / 40) * sinf s.tremolo_phase))))
            - (s.stereo_buffer s.stereo_pos).tdiv 2)) := by
  have key : ∀ (hv : s.vibrato_enabled = true) (ht : s.tremolo_enabled = true)
      (hs : s.stereo_enabled = true),
      (frame sinf s inp).2
        = (truncQ (f32 (i2f (truncQ (f32 (i2f
              (chorusStage sinf (reverbStage (echoStage (volumeStage s inp)))).mixed_left
              * f32 (f32 1 + f32 (sinf s.vibrato_phase * f32 (3 / 100))))))
            * f32 (f32 (17 / 20) + f32 (f32 (3 / 40) * sinf s.tremolo_phase))))
            + truncQ (f32 (i2f (s.stereo_buffer s.stereo_pos) * f32 (1 / 2))),
          truncQ (f32 (i2f (truncQ (f32 (i2f
              (chorusStage sinf (reverbStage (echoStage (volumeStage s inp)))).mixed_right
              * f32 (f32 1 + f32 (sinf s.vibrato_phase * f32 (3 / 100))))))
            * f32 (f32 (17 / 20) + f32 (f32 (3 / 40) * sinf s.tremolo_phase))))
            + truncQ (f32 (i2f (s.stereo_buffer s.stereo_pos) * f32 (-1 / 2)))) := by
    intro hv ht hs
    have tg : (chorusStage sinf (reverbStage (echoStage (volumeStage s inp)))).s.toggles
        = s.toggles := by simp [volumeStage_s]
    have sp : (chorusStage sinf (reverbStage (echoStage (volumeStage s inp)))).s.stereoPart
        = s.stereoPart := by simp [volumeStage_s]
    have vp : (chorusStage sinf (reverbStage (echoStage (volumeStage s inp)))).s.vibrato_phase
        = s.vibrato_phase := by simp [volumeStage_s]
    have tp : (chorusStage sinf (reverbStage (echoStage (volumeStage s inp)))).s.tremolo_phase
        = s.tremolo_phase := by simp [volumeStage_s]
    simp only [Engine.toggles, Engine.stereoPart, Prod.mk.injEq] at tg sp
    have := late_stages sinf (chorusStage sinf (reverbStage (echoStage (volumeStage s inp))))
      (by rw [tg.2.2.2.1, hv]) (by rw [tg.2.2.2.2.1, ht]) (by rw [tg.2.2.2.2.2, hs])
    rw [vp, tp, sp.1, sp.2] at this
    show ((frameAcc sinf s inp).mixed_left, (frameAcc sinf s inp).mixed_right) = _
    rw [frameAcc, this.1, this.2]
  refine ⟨rfl, fun a => ⟨echoStage_off a, reverbStage_off a, chorusStage_off sinf a,
    vibratoStage_off sinf a, tremoloStage_off sinf a, stereoStage_off a⟩, key, ?_⟩
  intro he hr hc hv ht hs hd1 hd2
  rw [key hv ht hs]
  have p0 : echoStage (volumeStage s inp) = volumeStage s inp := echoStage_off _ he
  have p1 : reverbStage (volumeStage s inp) = volumeStage s inp := reverbStage_off _ hr
  have p2 : chorusStage sinf (volumeStage s inp) = volumeStage s inp := chorusStage_off sinf _ hc
  rw [p0, p1, p2]
  obtain ⟨h1, h2⟩ := half_exact _ hd1 hd2
  rw [h1, h2, ← sub_eq_add_neg]
  rfl

/-- Witness for C14: vibrato, tremolo and stereo widening only, a stored stereo sample of 7,
input frame `(1000, -1000)` and an oscillator reading of zero. -/
theorem fixed_stage_order_witness :
    (frame (fun _ => 0) lateOnly (1000, -1000)).2
      = (truncQ (f32 (i2f (truncQ (f32 (i2f (castSint16 (f32 (i2f 1000 * f32 (13 / 20))))
            * f32 (f32 1 + f32 (0 * f32 (3 / 100))))))
          * f32 (f32 (17 / 20) + f32 (f32 (3 / 40) * 0))))
          + (7 : Int).tdiv 2,
        truncQ (f32 (i2f (truncQ (f32 (i2f (castSint16 (f32 (i2f (-1000) * f32 (13 / 20))))
            * f32 (f32 1 + f32 (0 * f32 (3 / 100))))))
          * f32 (f32 (17 / 20) + f32 (f32 (3 / 40) * 0))))
          - (7 : Int).tdiv 2) ∧
    (frame (fun _ => 0) lateOnly (1000, -1000)).2 = (555, -555) :=
  ⟨(fixed_stage_order (fun _ => 0) lateOnly (1000, -1000)).2.2.2 rfl rfl rfl rfl rfl rfl
    (by decide) (by decide), by decide!⟩

/-! ## Mono stages -/

theorem echoStage_mixed (a : Acc) (h : a.s.echo_enabled = true) :
    (echoStage a).mixed_left = addAssign a.mixed_left (echoWet a.s) ∧
    (echoStage a).mixed_right = addAssign a.mixed_right (echoWet a.s) := by
  simp only [echoStage, h, if_true, echoWet, and_self]

theorem reverbStage_mixed (a : Acc) (h : a.s.reverb_enabled = true) :
    (reverbStage a).mixed_left = addAssign a.mixed_left (reverbWet a.s) ∧
    (reverbStage a).mixed_right = addAssign a.mixed_right (reverbWet a.s) := by
  simp only [reverbStage, h, if_true, reverbWet, reverbSum, and_self]

theorem chorusStage_mixed (sinf : ℚ → ℚ) (a : Acc) (h : a.s.chorus_enabled = true) :
    (chorusStage sinf a).mixed_left = addAssign a.mixed_left (chorusWet sinf a.s) ∧
    (chorusStage sinf a).mixed_right = addAssign a.mixed_right (chorusWet sinf a.s) := by
  simp only [chorusStage, h, if_true, chorusWet, and_self]

/-- Counterexample to C18 as stated: with dry samples 10 and -10 and the value 5 under the echo
cursor, the echo stage raises the left accumulator by 1 (to 11) and the right one by 2
(to -8). -/
theorem mono_stages_counterexample :
    signedEcho.mixed_left = 10 ∧ signedEcho.mixed_right = -10 ∧
    (echoStage signedEcho).mixed_left - signedEcho.mixed_left = 1 ∧
    (echoStage signedEcho).mixed_right - signedEcho.mixed_right = 2 := by
  refine ⟨?_, ?_, ?_, ?_⟩ <;> decide!

/-- C18, as amended (mono stages add the same value to both channels): each of the echo, reverb
and chorus stages, when enabled, computes one `float` value from its delay lines and performs
`acc = (Sint32)((float)acc + value)` with that same value on the left and on the right
accumulator, the sum being rounded to single precision and truncated toward zero; so the two
accumulators change by the same amount whenever they are equal before the stage. -/
theorem mono_stages (sinf : ℚ → ℚ) (a : Acc) :
    (a.s.echo_enabled = true →
      (echoStage a).mixed_left = addAssign a.mixed_left (echoWet a.s) ∧
      (echoStage a).mixed_right = addAssign a.mixed_right (echoWet a.s)) ∧
    (a.s.reverb_enabled = true →
      (reverbStage a).mixed_left = addAssign a.mixed_left (reverbWet a.s) ∧
      (reverbStage a).mixed_right = addAssign a.mixed_right (reverbWet a.s)) ∧
    (a.s.chorus_enabled = true →
      (chorusStage sinf a).mixed_left = addAssign a.mixed_left (chorusWet sinf a.s) ∧
      (chorusStage sinf a).mixed_right = addAssign a.mixed_right (chorusWet sinf a.s)) ∧
    (a.mixed_left = a.mixed_right →
      (echoStage a).mixed_left - a.mixed_left = (echoStage a).mixed_right - a.mixed_right ∧
      (reverbStage a).mixed_left - a.mixed_left = (reverbStage a).mixed_right - a.mixed_right ∧
      (chorusStage sinf a).mixed_left - a.mixed_left
        = (chorusStage sinf a).mixed_right - a.mixed_right) := by
  refine ⟨echoStage_mixed a, reverbStage_mixed a, chorusStage_mixed sinf a, ?_⟩
  intro heq
  refine ⟨?_, ?_, ?_⟩
  · cases h : a.s.echo_enabled
    · rw [echoStage_off a h, heq]
    · rw [(echoStage_mixed a h).1, (echoStage_mixed a h).2, heq]
  · cases h : a.s.reverb_enabled
    · rw [reverbStage_off a h, heq]
    · rw [(reverbStage_mixed a h).1, (reverbStage_mixed a h).2, heq]
  · cases h : a.s.chorus_enabled
    · rw [chorusStage_off sinf a h, heq]
    · rw [(chorusStage_mixed sinf a h).1, (chorusStage_mixed sinf a h).2, heq]

/-- Witness for C18: the echo stage on dry samples 10 and -10 with the value 5 under the
cursor adds the `float` 1.5 to both accumulators. -/
theorem mono_stages_witness :
    signedEcho.s.echo_enabled = true ∧ echoWet signedEcho.s = 3 / 2 ∧
    (echoStage signedEcho).mixed_left = addAssign signedEcho.mixed_left (echoWet signedEcho.s) ∧
    (echoStage signedEcho).mixed_right
      = addAssign signedEcho.mixed_right (echoWet signedEcho.s) :=
  ⟨rfl, by decide!, (mono_stages (fun _ => 0) signedEcho).1 rfl⟩

/-! ## Bounds for products with the reverb gains -/

theorem f32_le_dyadic {y : ℚ} (n : Int) (k : Nat) (hn : |n| ≤ 16777216) (hk : k ≤ 149)
    (h : y ≤ (n : ℚ) / 2 ^ k) : f32 y ≤ (n : ℚ) / 2 ^ k := by
  rw [← f32_dyadic n k hn hk]; exact f32_mono h

theorem f32_ge_dyadic {y : ℚ} (n : Int) (k : Nat) (hn : |n| ≤ 16777216) (hk : k ≤ 149)
    (h : (n : ℚ) / 2 ^ k ≤ y) : (n : ℚ) / 2 ^ k ≤ f32 y := by
  rw [← f32_dyadic n k hn hk]; exact f32_mono h

theorem f32_nonneg {x : ℚ} (h : 0 ≤ x) : 0 ≤ f32 x := roundBin_nonneg 24 (-149) h

/-- Rounding to single precision does not leave an interval `[-N, N]` with integer `N`. -/
theorem f32_abs_le_int {x : ℚ} (N : Int) (hN : |N| ≤ 16777216) (h : |x| ≤ N) : |f32 x| ≤ N := by
  obtain ⟨h1, h2⟩ := abs_le.1 h
  have e1 : f32 (N : ℚ) = N := f32_intCast N hN
  have a := f32_mono h1
  have b := f32_mono h2
  rw [f32_neg, e1] at a
  rw [e1] at b
  exact abs_le.2 ⟨a, b⟩

/-- Values of magnitude at most `2 ^ 14` are rounded with an error of at most `2 ^ (-10)`. -/
theorem f32_error_14 {x : ℚ} (h : |x| ≤ 16384) : |f32 x - x| ≤ 1 / 1024 := by
  have e1 : pow2 14 = 16384 := by rw [pow2_eq_zpow]; norm_num
  have e2 : pow2 (14 - 24) = 1 / 1024 := by rw [pow2_eq_zpow]; norm_num
  have := f32_error_le (k := 14) (by norm_num) (by rw [e1]; exact h)
  rwa [e2] at this

theorem truncQ_le_of_lt {x : ℚ} {n : Int} (h0 : 0 ≤ x) (h1 : x < (n : ℚ) + 1) :
    0 ≤ truncQ x ∧ truncQ x ≤ n := by
  unfold truncQ
  rw [if_pos h0]
  refine ⟨Int.floor_nonneg.2 h0, ?_⟩
  have : ⌊x⌋ < n + 1 := by
    rw [Int.floor_lt]; push_cast; exact h1
  omega

theorem abs_truncQ_le (x : ℚ) : |(truncQ x : ℚ)| ≤ |x| := by
  rcases le_total 0 x with h | h
  · obtain ⟨a, b⟩ := (truncQ_bounds x).1 h
    have a' : (0 : ℚ) ≤ truncQ x := by exact_mod_cast a
    rw [abs_of_nonneg a', abs_of_nonneg h]; exact b
  · obtain ⟨a, b⟩ := (truncQ_bounds x).2 h
    have a' : (truncQ x : ℚ) ≤ 0 := by exact_mod_cast a
    rw [abs_of_nonpos a', abs_of_nonpos h]; linarith

theorem truncQ_half (d : Int) : truncQ ((1 / 2 : ℚ) * d) = d.tdiv 2 := by
  rcases le_or_lt 0 d with h | h
  · rw [Int.tdiv_eq_ediv h (by norm_num)]
    have hq : (0 : ℚ) ≤ (1 / 2 : ℚ) * d := by
      have : (0 : ℚ) ≤ d := by exact_mod_cast h
      linarith
    unfold truncQ
    rw [if_pos hq, Int.floor_eq_iff]
    have a1 : 2 * (d / 2) ≤ d := by omega
    have a2 : d < 2 * (d / 2) + 2 := by omega
    have b1 : (2 : ℚ) * ((d / 2 : Int) : ℚ) ≤ d := by exact_mod_cast a1
    have b2 : (d : ℚ) < 2 * ((d / 2 : Int) : ℚ) + 2 := by exact_mod_cast a2
    constructor <;> linarith
  · have e : d.tdiv 2 = -((-d).tdiv 2) := by rw [Int.neg_tdiv, neg_neg]
    rw [e, Int.tdiv_eq_ediv (by omega) (by norm_num)]
    have hq : ¬ (0 : ℚ) ≤ (1 / 2 : ℚ) * d := by
      have : (d : ℚ) < 0 := by exact_mod_cast h
      linarith
    unfold truncQ
    rw [if_neg hq]
    congr 1
    rw [Int.floor_eq_iff]
    have a1 : 2 * (-d / 2) ≤ -d := by omega
    have a2 : -d < 2 * (-d / 2) + 2 := by omega
    have b1 : (2 : ℚ) * ((-d / 2 : Int) : ℚ) ≤ -d := by exact_mod_cast a1
    have b2 : -(d : ℚ) < 2 * ((-d / 2 : Int) : ℚ) + 2 := by exact_mod_cast a2
    constructor <;> linarith

theorem f32_two_fifths : f32 (2 / 5) = 13421773 / 33554432 := by decide!

theorem f32_three_twentieths : f32 (3 / 20) = 10066330 / 67108864 := by decide!

theorem f32_one : f32 1 = 1 := by decide!

theorem f32_half : f32 (1 / 2) = 1 / 2 := by decide!

/-- The default damping gain `1.0f - 0.6f`. -/
theorem default_damping_gain : f32 (f32 1 - f32 (3 / 5)) = 6710886 / 16777216 := by decide!

/-- A single-precision product of a 16-bit value with a `float` constant `c` that lies in
`[r, r + 2 ^ (-20)]`, truncated, is the truncation of the exact product with `r`, provided the
fractional parts of the multiples of `r` stay at most `9 / 10`. -/
theorem scaled_tap (c r : ℚ) (hc1 : r ≤ c) (hc2 : c ≤ r + 1 / 1048576) (hr0 : 0 ≤ r)
    (hr1 : r ≤ 1)
    (hfrac : ∀ m : Int, 0 ≤ m → ∃ n : Int, 0 ≤ n ∧ (n : ℚ) ≤ r * m ∧ r * m ≤ n + 9 / 10)
    (b : Int) (h1 : -32768 ≤ b) (h2 : b ≤ 32767) :
    castSint16 (f32 (i2f b * c)) = truncQ (r * b) ∧ |(truncQ (r * b) : ℚ)| ≤ r * |(b : ℚ)| := by
  have hb : i2f b = b := i2f_of_abs_le b (by rw [abs_le]; constructor <;> omega)
  have key : ∀ m : Int, 0 ≤ m → m ≤ 32768 →
      ∃ n : Int, 0 ≤ n ∧ n ≤ 32768 ∧ truncQ (f32 ((m : ℚ) * c)) = n ∧ truncQ (r * m) = n := by
    intro m hm0 hm1
    obtain ⟨n, hn0, hn1, hn2⟩ := hfrac m hm0
    have hmq0 : (0 : ℚ) ≤ m := by exact_mod_cast hm0
    have hmq1 : (m : ℚ) ≤ 32768 := by exact_mod_cast hm1
    have hnq : (n : ℚ) ≤ 32768 := by nlinarith
    have hn3 : n ≤ 32768 := by exact_mod_cast hnq
    have hT : |n| ≤ 1000000 := by rw [abs_le]; constructor <;> omega
    have u1 : (n : ℚ) ≤ (m : ℚ) * c := by nlinarith
    have u2 : (m : ℚ) * c ≤ (n : ℚ) + 15 / 16 := by nlinarith
    obtain ⟨s1, s2⟩ := (f32_sandwich hT).1 u1 u2
    exact ⟨n, hn0, hn3, truncQ_eq_of_nonneg hn0 s1 s2,
      truncQ_eq_of_nonneg hn0 hn1 (by linarith)⟩
  rw [hb]
  refine ⟨?_, by simpa [abs_mul, abs_of_nonneg hr0] using abs_truncQ_le (r * b)⟩
  rcases le_or_lt 0 b with hpos | hneg
  · obtain ⟨n, hn0, hn1, e1, e2⟩ := key b hpos (by omega)
    have hbq : (b : ℚ) ≤ 32767 := by exact_mod_cast h2
    have hbq0 : (0 : ℚ) ≤ b := by exact_mod_cast hpos
    have : truncQ (r * b) ≤ 32767 := by
      have := truncQ_mono (show r * (b : ℚ) ≤ ((32767 : Int) : ℚ) by push_cast; nlinarith)
      rwa [truncQ_intCast] at this
    rw [e2] at this
    rw [castSint16, e1, e2]
    exact toSint16_of_range (by omega) this
  · obtain ⟨n, hn0, hn1, e1, e2⟩ := key (-b) (by omega) (by omega)
    have c1 : ((-b : Int) : ℚ) * c = -((b : ℚ) * c) := by push_cast; ring
    have c2 : r * ((-b : Int) : ℚ) = -(r * (b : ℚ)) := by push_cast; ring
    rw [c1, f32_neg, truncQ_neg] at e1
    rw [c2, truncQ_neg] at e2
    rw [castSint16]
    have v1 : truncQ (f32 ((b : ℚ) * c)) = -n := by omega
    have v2 : truncQ (r * (b : ℚ)) = -n := by omega
    rw [v1, v2]
    exact toSint16_of_range (by omega) (by omega)

/-- Two successive single-precision products of a 16-bit value with constants `c` and `g`
(`c * g ≤ r ≤ 1 / 2`), truncated: the conversion to 16 bits does not wrap and the magnitude is
at most `r` times the magnitude of the value, provided the fractional parts of the multiples of
`r` stay at most `49 / 50`. -/
theorem two_step_tap (c g r : ℚ) (hc0 : 0 ≤ c) (hc1 : c ≤ 1 / 2) (hg0 : 0 ≤ g)
    (hg1 : g ≤ 1 / 2) (hr : c * g ≤ r) (hr1 : r ≤ 1 / 2)
    (hfrac : ∀ m : Int, 0 ≤ m → ∃ n : Int, 0 ≤ n ∧ (n : ℚ) ≤ r * m ∧ r * m ≤ n + 49 / 50)
    (b : Int) (h1 : -32768 ≤ b) (h2 : b ≤ 32767) :
    castSint16 (f32 (f32 (i2f b * c) * g)) = truncQ (f32 (f32 ((b : ℚ) * c) * g)) ∧
    |(truncQ (f32 (f32 ((b : ℚ) * c) * g)) : ℚ)| ≤ r * |(b : ℚ)| := by
  have hb : i2f b = b := i2f_of_abs_le b (by rw [abs_le]; constructor <;> omega)
  have hr0 : 0 ≤ r := le_trans (mul_nonneg hc0 hg0) hr
  have key : ∀ m : Int, 0 ≤ m → m ≤ 32768 →
      0 ≤ truncQ (f32 (f32 ((m : ℚ) * c) * g)) ∧
      (truncQ (f32 (f32 ((m : ℚ) * c) * g)) : ℚ) ≤ r * m := by
    intro m hm0 hm1
    obtain ⟨n, hn0, hn1, hn2⟩ := hfrac m hm0
    have hmq0 : (0 : ℚ) ≤ m := by exact_mod_cast hm0
    have hmq1 : (m : ℚ) ≤ 32768 := by exact_mod_cast hm1
    have hy0 : 0 ≤ (m : ℚ) * c := mul_nonneg hmq0 hc0
    have hy1 : (m : ℚ) * c ≤ 16384 := by nlinarith
    have herr := abs_le.1 (f32_error_14 (x := (m : ℚ) * c) (by rw [abs_of_nonneg hy0]; exact hy1))
    have hx0 : 0 ≤ f32 ((m : ℚ) * c) := f32_nonneg hy0
    have hz0 : 0 ≤ f32 ((m : ℚ) * c) * g := mul_nonneg hx0 hg0
    have hmr : (m : ℚ) * (c * g) ≤ (m : ℚ) * r := mul_le_mul_of_nonneg_left hr hmq0
    have hz1 : f32 ((m : ℚ) * c) * g ≤ ((m : ℚ) * c + 1 / 1024) * g :=
      mul_le_mul_of_nonneg_right (by linarith [herr.2]) hg0
    have hz2 : f32 ((m : ℚ) * c) * g ≤ (n : ℚ) + 127 / 128 := by nlinarith
    have hnq : (n : ℚ) ≤ 16384 := by nlinarith
    have hn3 : n ≤ 16384 := by exact_mod_cast hnq
    have hd : f32 (f32 ((m : ℚ) * c) * g) ≤ ((128 * n + 127 : Int) : ℚ) / 2 ^ 7 :=
      f32_le_dyadic (128 * n + 127) 7 (by rw [abs_le]; constructor <;> omega) (by norm_num)
        (by push_cast; linarith)
    have hd2 : f32 (f32 ((m : ℚ) * c) * g) < (n : ℚ) + 1 := by
      push_cast at hd; linarith
    obtain ⟨t0, t1⟩ := truncQ_le_of_lt (f32_nonneg hz0) hd2
    refine ⟨t0, ?_⟩
    have : (truncQ (f32 (f32 ((m : ℚ) * c) * g)) : ℚ) ≤ n := by exact_mod_cast t1
    linarith
  rw [hb]
  rcases le_or_lt 0 b with hpos | hneg
  · obtain ⟨k0, k1⟩ := key b hpos (by omega)
    have hbq0 : (0 : ℚ) ≤ b := by exact_mod_cast hpos
    have hbq1 : (b : ℚ) ≤ 32767 := by exact_mod_cast h2
    have hT : (truncQ (f32 (f32 ((b : ℚ) * c) * g)) : ℚ) ≤ 32767 := by nlinarith
    have hT2 : truncQ (f32 (f32 ((b : ℚ) * c) * g)) ≤ 32767 := by exact_mod_cast hT
    refine ⟨toSint16_of_range (by omega) hT2, ?_⟩
    rw [abs_of_nonneg (by exact_mod_cast k0), abs_of_nonneg hbq0]
    exact k1
  · obtain ⟨k0, k1⟩ := key (-b) (by omega) (by omega)
    have c1 : ((-b : Int) : ℚ) * c = -((b : ℚ) * c) := by push_cast; ring
    rw [c1, f32_neg, neg_mul, f32_neg, truncQ_neg] at k0 k1
    have hbq0 : (b : ℚ) < 0 := by exact_mod_cast hneg
    have hbq1 : (-32768 : ℚ) ≤ b := by exact_mod_cast h1
    push_cast at k1
    have hT : (-32768 : ℚ) ≤ (truncQ (f32 (f32 ((b : ℚ) * c) * g)) : ℚ) := by nlinarith
    have hT2 : -32768 ≤ truncQ (f32 (f32 ((b : ℚ) * c) * g)) := by exact_mod_cast hT
    refine ⟨toSint16_of_range hT2 (by omega), ?_⟩
    have hle : (truncQ (f32 (f32 ((b : ℚ) * c) * g)) : ℚ) ≤ 0 := by
      have : truncQ (f32 (f32 ((b : ℚ) * c) * g)) ≤ 0 := by omega
      exact_mod_cast this
    rw [abs_of_nonpos hle, abs_of_neg hbq0]
    linarith

theorem frac_two_fifths (m : Int) (hm : 0 ≤ m) :
    ∃ n : Int, 0 ≤ n ∧ (n : ℚ) ≤ 2 / 5 * m ∧ 2 / 5 * (m : ℚ) ≤ n + 9 / 10 := by
  refine ⟨2 * m / 5, by omega, ?_, ?_⟩
  · have a : 5 * (2 * m / 5) ≤ 2 * m := by omega
    have b : (5 : ℚ) * ((2 * m / 5 : Int) : ℚ) ≤ 2 * m := by exact_mod_cast a
    linarith
  · have a : 2 * m ≤ 5 * (2 * m / 5) + 4 := by omega
    have b : (2 : ℚ) * m ≤ 5 * ((2 * m / 5 : Int) : ℚ) + 4 := by exact_mod_cast a
    linarith

theorem frac_three_tenths (m : Int) (hm : 0 ≤ m) :
    ∃ n : Int, 0 ≤ n ∧ (n : ℚ) ≤ 3 / 10 * m ∧ 3 / 10 * (m : ℚ) ≤ n + 9 / 10 := by
  refine ⟨3 * m / 10, by omega, ?_, ?_⟩
  · have a : 10 * (3 * m / 10) ≤ 3 * m := by omega
    have b : (10 : ℚ) * ((3 * m / 10 : Int) : ℚ) ≤ 3 * m := by exact_mod_cast a
    linarith
  · have a : 3 * m ≤ 10 * (3 * m / 10) + 9 := by omega
    have b : (3 : ℚ) * m ≤ 10 * ((3 * m / 10 : Int) : ℚ) + 9 := by exact_mod_cast a
    linarith

theorem frac_half (m : Int) (hm : 0 ≤ m) :
    ∃ n : Int, 0 ≤ n ∧ (n : ℚ) ≤ 1 / 2 * m ∧ 1 / 2 * (m : ℚ) ≤ n + 9 / 10 := by
  refine ⟨m / 2, by omega, ?_, ?_⟩
  · have a : 2 * (m / 2) ≤ m := by omega
    have b : (2 : ℚ) * ((m / 2 : Int) : ℚ) ≤ m := by exact_mod_cast a
    linarith
  · have a : m ≤ 2 * (m / 2) + 1 := by omega
    have b : (m : ℚ) ≤ 2 * ((m / 2 : Int) : ℚ) + 1 := by exact_mod_cast a
    linarith

theorem frac_three_25 (m : Int) (hm : 0 ≤ m) :
    ∃ n : Int, 0 ≤ n ∧ (n : ℚ) ≤ 3 / 25 * m ∧ 3 / 25 * (m : ℚ) ≤ n + 49 / 50 := by
  refine ⟨3 * m / 25, by omega, ?_, ?_⟩
  · have a : 25 * (3 * m / 25) ≤ 3 * m := by omega
    have b : (25 : ℚ) * ((3 * m / 25 : Int) : ℚ) ≤ 3 * m := by exact_mod_cast a
    linarith
  · have a : 3 * m ≤ 25 * (3 * m / 25) + 24 := by omega
    have b : (3 : ℚ) * m ≤ 25 * ((3 * m / 25 : Int) : ℚ) + 24 := by exact_mod_cast a
    linarith

theorem frac_three_50 (m : Int) (hm : 0 ≤ m) :
    ∃ n : Int, 0 ≤ n ∧ (n : ℚ) ≤ 3 / 50 * m ∧ 3 / 50 * (m : ℚ) ≤ n + 49 / 50 := by
  refine ⟨3 * m / 50, by omega, ?_, ?_⟩
  · have a : 50 * (3 * m / 50) ≤ 3 * m := by omega
    have b : (50 : ℚ) * ((3 * m / 50 : Int) : ℚ) ≤ 3 * m := by exact_mod_cast a
    linarith
  · have a : 3 * m ≤ 50 * (3 * m / 50) + 49 := by omega
    have b : (3 : ℚ) * m ≤ 50 * ((3 * m / 50 : Int) : ℚ) + 49 := by exact_mod_cast a
    linarith

/-- The first three reverb taps of 16-bit cells are the exact products with 0.5, 0.4 and 0.3,
truncated toward zero. -/
theorem reverb_taps_exact (b : Int) (h1 : -32768 ≤ b) (h2 : b ≤ 32767) :
    (castSint16 (f32 (i2f b * f32 (1 / 2))) = truncQ ((1 / 2 : ℚ) * b) ∧
      |(truncQ ((1 / 2 : ℚ) * b) : ℚ)| ≤ 1 / 2 * |(b : ℚ)|) ∧
    (castSint16 (f32 (i2f b * f32 (2 / 5))) = truncQ ((2 / 5 : ℚ) * b) ∧
      |(truncQ ((2 / 5 : ℚ) * b) : ℚ)| ≤ 2 / 5 * |(b : ℚ)|) ∧
    (castSint16 (f32 (i2f b * f32 (3 / 10))) = truncQ ((3 / 10 : ℚ) * b) ∧
      |(truncQ ((3 / 10 : ℚ) * b) : ℚ)| ≤ 3 / 10 * |(b : ℚ)|) := by
  refine ⟨?_, ?_, ?_⟩
  · rw [f32_half]
    exact scaled_tap (1 / 2) (1 / 2) le_rfl (by norm_num) (by norm_num) (by norm_num)
      frac_half b h1 h2
  · rw [f32_two_fifths]
    exact scaled_tap _ (2 / 5) (by norm_num) (by norm_num) (by norm_num) (by norm_num)
      frac_two_fifths b h1 h2
  · rw [f32_three_tenths]
    exact scaled_tap _ (3 / 10) (by norm_num) (by norm_num) (by norm_num) (by norm_num)
      frac_three_tenths b h1 h2

/-- The damped reverb taps with the default damping: no wrap, and magnitudes at most 0.12 and
0.06 times the magnitude of the cell. -/
theorem reverb_taps_damped (b : Int) (h1 : -32768 ≤ b) (h2 : b ≤ 32767) :
    (castSint16 (f32 (f32 (i2f b * f32 (3 / 10)) * f32 (f32 1 - f32 (3 / 5))))
        = truncQ (f32 (f32 ((b : ℚ) * f32 (3 / 10)) * f32 (f32 1 - f32 (3 / 5)))) ∧
      |(truncQ (f32 (f32 ((b : ℚ) * f32 (3 / 10)) * f32 (f32 1 - f32 (3 / 5)))) : ℚ)|
        ≤ 3 / 25 * |(b : ℚ)|) ∧
    (castSint16 (f32 (f32 (i2f b * f32 (3 / 20)) * f32 (f32 1 - f32 (3 / 5))))
        = truncQ (f32 (f32 ((b : ℚ) * f32 (3 / 20)) * f32 (f32 1 - f32 (3 / 5)))) ∧
      |(truncQ (f32 (f32 ((b : ℚ) * f32 (3 / 20)) * f32 (f32 1 - f32 (3 / 5)))) : ℚ)|
        ≤ 3 / 50 * |(b : ℚ)|) := by
  rw [default_damping_gain, f32_three_tenths, f32_three_twentieths]
  exact ⟨two_step_tap _ _ (3 / 25) (by norm_num) (by norm_num) (by norm_num) (by norm_num)
      (by norm_num) (by norm_num) frac_three_25 b h1 h2,
    two_step_tap _ _ (3 / 50) (by norm_num) (by norm_num) (by norm_num) (by norm_num)
      (by norm_num) (by norm_num) frac_three_50 b h1 h2⟩

/-! ## Reverb write-back and feedback bound -/

theorem reverbSum_congr {s t : Engine} (h1 : s.reverbPart = t.reverbPart)
    (h2 : s.params = t.params) : reverbSum s = reverbSum t := by
  simp only [Engine.reverbPart, Engine.params, Prod.mk.injEq] at h1 h2
  obtain ⟨⟨a1, a2⟩, ⟨a3, a4⟩, ⟨a5, a6⟩, ⟨a7, a8⟩, ⟨a9, a10⟩⟩ := h1
  obtain ⟨-, -, p3, -⟩ := h2
  simp only [reverbSum, a1, a2, a3, a4, a5, a6, a7, a8, a9, a10, p3]

theorem echoStage_samples (a : Acc) :
    (echoStage a).left_sample = a.left_sample ∧ (echoStage a).right_sample = a.right_sample := by
  unfold echoStage
  split_ifs <;> exact ⟨rfl, rfl⟩

/-- The reverb block stores `reverb_input` at the pre-advance cursor of each of its lines. -/
theorem reverbStage_write (a : Acc) (h : a.s.reverb_enabled = true) :
    (reverbStage a).s.reverbPart
      = ((Function.update a.s.reverb_buffer1 a.s.reverb_pos1 (reverbInput a),
            (a.s.reverb_pos1 + 1).tmod REVERB_DELAY_1),
          (Function.update a.s.reverb_buffer2 a.s.reverb_pos2 (reverbInput a),
            (a.s.reverb_pos2 + 1).tmod REVERB_DELAY_2),
          (Function.update a.s.reverb_buffer3 a.s.reverb_pos3 (reverbInput a),
            (a.s.reverb_pos3 + 1).tmod REVERB_DELAY_3),
          (Function.update a.s.reverb_buffer4 a.s.reverb_pos4 (reverbInput a),
            (a.s.reverb_pos4 + 1).tmod REVERB_DELAY_4),
          (Function.update a.s.reverb_buffer5 a.s.reverb_pos5 (reverbInput a),
            (a.s.reverb_pos5 + 1).tmod REVERB_DELAY_5)) := by
  simp only [reverbStage, h, if_true, Engine.reverbPart, reverbInput, reverbSum]

/-- Two successive products with gains in `[0, 1/2]` and `[0, 1]` keep a 16-bit value inside
the 16-bit range. -/
theorem damped_tap_no_wrap (c g : ℚ) (hc0 : 0 ≤ c) (hc1 : c ≤ 1 / 2) (hg0 : 0 ≤ g) (hg1 : g ≤ 1)
    (b : Int) (h1 : -32768 ≤ b) (h2 : b ≤ 32767) :
    castSint16 (f32 (f32 (i2f b * c) * g)) = truncQ (f32 (f32 ((b : ℚ) * c) * g)) := by
  have hb : i2f b = b := i2f_of_abs_le b (by rw [abs_le]; constructor <;> omega)
  have hq1 : (-32768 : ℚ) ≤ b := by exact_mod_cast h1
  have hq2 : (b : ℚ) ≤ 32767 := by exact_mod_cast h2
  have hbabs : |(b : ℚ)| ≤ 32768 := by rw [abs_le]; constructor <;> linarith
  have hy : |(b : ℚ) * c| ≤ ((16384 : Int) : ℚ) := by
    rw [abs_mul, abs_of_nonneg hc0]; push_cast; nlinarith [abs_nonneg (b : ℚ)]
  have hx := f32_abs_le_int 16384 (by norm_num) hy
  have hz : |f32 ((b : ℚ) * c) * g| ≤ ((16384 : Int) : ℚ) := by
    rw [abs_mul, abs_of_nonneg hg0]
    have := abs_nonneg (f32 ((b : ℚ) * c))
    push_cast at hx ⊢
    nlinarith
  have hw := f32_abs_le_int 16384 (by norm_num) hz
  have ht := le_trans (abs_truncQ_le _) hw
  have ht2 : |truncQ (f32 (f32 ((b : ℚ) * c) * g))| ≤ 16384 := by exact_mod_cast ht
  obtain ⟨t1, t2⟩ := abs_le.1 ht2
  rw [hb, castSint16]
  exact toSint16_of_range (by omega) (by omega)

theorem reverbSum_range (s : Engine) : |reverbSum s| ≤ 163840 := by
  unfold reverbSum castSint16
  have a1 := toSint16_range (truncQ (f32 (i2f (s.reverb_buffer1 s.reverb_pos1) * f32 (1 / 2))))
  have a2 := toSint16_range (truncQ (f32 (i2f (s.reverb_buffer2 s.reverb_pos2) * f32 (2 / 5))))
  have a3 := toSint16_range (truncQ (f32 (i2f (s.reverb_buffer3 s.reverb_pos3) * f32 (3 / 10))))
  have a4 := toSint16_range (truncQ (f32 (f32 (i2f (s.reverb_buffer4 s.reverb_pos4)
    * f32 (3 / 10)) * f32 (f32 1 - s.reverb_damping))))
  have a5 := toSint16_range (truncQ (f32 (f32 (i2f (s.reverb_buffer5 s.reverb_pos5)
    * f32 (3 / 20)) * f32 (f32 1 - s.reverb_damping))))
  rw [abs_le]
  constructor <;> omega

/-- With `reverb_feedback = 0.5f` the feedback product is exact. -/
theorem feedback_half_exact (s : Engine) :
    f32 (i2f (reverbSum s) * f32 (1 / 2)) = (reverbSum s : ℚ) / 2 := by
  have hr := reverbSum_range s
  rw [i2f_of_abs_le _ (le_trans hr (by norm_num)), f32_half]
  have := f32_dyadic (reverbSum s) 1 (le_trans hr (by norm_num)) (by norm_num)
  rw [pow_one] at this
  rw [← this]
  congr 1
  ring

/-- Counterexample to C19 as stated. With default parameters, a silent input frame and 50 under
the cursor of the fourth line, the code stores 3, while the stated formula gives 2 when
`damping` is the stored `float` parameter; with 150 under that cursor the code stores 8, while
the stated formula gives 9 when `damping` is the decimal 0.6. -/
theorem reverb_write_back_counterexample :
    ((frame (fun _ => 0) (reverbOnly 50) (0, 0)).1.reverb_buffer4 0 = 3 ∧
      specReverbInput (reverbOnly 50).reverb_feedback (reverbOnly 50).reverb_damping
        0 0 0 0 0 50 0 = 2) ∧
    ((frame (fun _ => 0) (reverbOnly 150) (0, 0)).1.reverb_buffer4 0 = 8 ∧
      specReverbInput (1 / 2) (3 / 5) 0 0 0 0 0 150 0 = 9) := by
  refine ⟨⟨?_, ?_⟩, ⟨?_, ?_⟩⟩ <;> decide!

/-- C19, as amended (reverb write-back): in every frame processed with reverb enabled, one
single value is stored at the pre-advance cursor of all five reverb lines: the mono dry downmix
`trunc((l + r) / 2)` of the volume-scaled frame plus `reverb_feedback` times the five-tap sum
already computed for that frame, added in single precision and narrowed to 16 bits (with the
default feedback 0.5 the sum is exact). For 16-bit cells `b1 .. b5` and a damping in `[0, 1]`
the five-tap sum is `trunc(0.5 b1) + trunc(0.4 b2) + trunc(0.3 b3) + t4 + t5`, where the damped
taps are two successive single-precision products, truncated:
`t4 = trunc(fl(fl(b4 * 0.3f) * fl(1.0f - damping)))` and
`t5 = trunc(fl(fl(b5 * 0.15f) * fl(1.0f - damping)))`. -/
theorem reverb_write_back (sinf : ℚ → ℚ) (s : Engine) (inp : Int × Int)
    (hr : s.reverb_enabled = true) (hcells : ∀ b ∈ reverbReads s, isSint16 b)
    (hd0 : 0 ≤ s.reverb_damping) (hd1 : s.reverb_damping ≤ 1) :
    ((frame sinf s inp).1.reverb_buffer1
        = Function.update s.reverb_buffer1 s.reverb_pos1 (reverbInput (volumeStage s inp)) ∧
      (frame sinf s inp).1.reverb_buffer2
        = Function.update s.reverb_buffer2 s.reverb_pos2 (reverbInput (volumeStage s inp)) ∧
      (frame sinf s inp).1.reverb_buffer3
        = Function.update s.reverb_buffer3 s.reverb_pos3 (reverbInput (volumeStage s inp)) ∧
      (frame sinf s inp).1.reverb_buffer4
        = Function.update s.reverb_buffer4 s.reverb_pos4 (reverbInput (volumeStage s inp)) ∧
      (frame sinf s inp).1.reverb_buffer5
        = Function.update s.reverb_buffer5 s.reverb_pos5 (reverbInput (volumeStage s inp))) ∧
    reverbInput (volumeStage s inp)
      = castSint16 (f32 (i2f ((castSint16 (f32 (i2f inp.1 * s.global_volume))
            + castSint16 (f32 (i2f inp.2 * s.global_volume))).tdiv 2)
          + f32 (i2f (reverbSum s) * s.reverb_feedback))) ∧
    reverbSum s
      = truncQ ((1 / 2 : ℚ) * (s.reverb_buffer1 s.reverb_pos1))
        + truncQ ((2 / 5 : ℚ) * (s.reverb_buffer2 s.reverb_pos2))
        + truncQ ((3 / 10 : ℚ) * (s.reverb_buffer3 s.reverb_pos3))
        + truncQ (f32 (f32 ((s.reverb_buffer4 s.reverb_pos4 : ℚ) * f32 (3 / 10))
            * f32 (f32 1 - s.reverb_damping)))
        + truncQ (f32 (f32 ((s.reverb_buffer5 s.reverb_pos5 : ℚ) * f32 (3 / 20))
            * f32 (f32 1 - s.reverb_damping))) ∧
    (s.reverb_feedback = f32 (1 / 2) →
      reverbInput (volumeStage s inp)
        = toSint16 (truncQ ((((castSint16 (f32 (i2f inp.1 * s.global_volume))
            + castSint16 (f32 (i2f inp.2 * s.global_volume))).tdiv 2 : Int) : ℚ)
          + 1 / 2 * (reverbSum s : ℚ)))) := by
  have hc : ∀ b ∈ reverbReads s, -32768 ≤ b ∧ b ≤ 32767 := hcells
  simp only [reverbReads, List.mem_cons, List.mem_singleton, List.not_mem_nil, or_false,
    forall_eq_or_imp, forall_eq] at hc
  obtain ⟨c1, c2, c3, c4, c5⟩ := hc
  refine ⟨?_, rfl, ?_, ?_⟩
  · have h := frame_reverbPart sinf s inp
    have ht : (echoStage (volumeStage s inp)).s.toggles = s.toggles := by simp [volumeStage_s]
    have hp : (echoStage (volumeStage s inp)).s.params = s.params := by simp [volumeStage_s]
    have hrp : (echoStage (volumeStage s inp)).s.reverbPart = s.reverbPart := by
      simp [volumeStage_s]
    have hen : (echoStage (volumeStage s inp)).s.reverb_enabled = true := by
      have : (echoStage (volumeStage s inp)).s.reverb_enabled = s.reverb_enabled :=
        congrArg (fun t => t.2.1) ht
      rw [this, hr]
    have hin : reverbInput (echoStage (volumeStage s inp)) = reverbInput (volumeStage s inp) := by
      have hfb : (echoStage (volumeStage s inp)).s.reverb_feedback = s.reverb_feedback :=
        congrArg (fun t => t.2.1) hp
      unfold reverbInput
      rw [(echoStage_samples _).1, (echoStage_samples _).2, reverbSum_congr hrp hp, hfb]
      rfl
    rw [reverbStage_write _ hen, hin] at h
    simp only [Engine.reverbPart, Prod.mk.injEq] at h hrp
    obtain ⟨⟨h1, -⟩, ⟨h2, -⟩, ⟨h3, -⟩, ⟨h4, -⟩, ⟨h5, -⟩⟩ := h
    obtain ⟨⟨r1, q1⟩, ⟨r2, q2⟩, ⟨r3, q3⟩, ⟨r4, q4⟩, ⟨r5, q5⟩⟩ := hrp
    rw [r1, q1] at h1
    rw [r2, q2] at h2
    rw [r3, q3] at h3
    rw [r4, q4] at h4
    rw [r5, q5] at h5
    exact ⟨h1, h2, h3, h4, h5⟩
  · have hg0 : 0 ≤ f32 (f32 1 - s.reverb_damping) := f32_nonneg (by rw [f32_one]; linarith)
    have hg1 : f32 (f32 1 - s.reverb_damping) ≤ 1 := by
      have := f32_mono (show f32 1 - s.reverb_damping ≤ 1 by rw [f32_one]; linarith)
      exact le_trans this (le_of_eq f32_one)
    unfold reverbSum
    rw [(reverb_taps_exact _ c1.1 c1.2).1.1, (reverb_taps_exact _ c2.1 c2.2).2.1.1,
      (reverb_taps_exact _ c3.1 c3.2).2.2.1,
      damped_tap_no_wrap (f32 (3 / 10)) _ (by rw [f32_three_tenths]; norm_num)
        (by rw [f32_three_tenths]; norm_num) hg0 hg1 _ c4.1 c4.2,
      damped_tap_no_wrap (f32 (3 / 20)) _ (by rw [f32_three_twentieths]; norm_num)
        (by rw [f32_three_twentieths]; norm_num) hg0 hg1 _ c5.1 c5.2]
  · intro hf
    have hl := toSint16_range (truncQ (f32 (i2f inp.1 * s.global_volume)))
    have hrr := toSint16_range (truncQ (f32 (i2f inp.2 * s.global_volume)))
    have hdm := tdiv_two_range (castSint16 (f32 (i2f inp.1 * s.global_volume))
      + castSint16 (f32 (i2f inp.2 * s.global_volume)))
      (by unfold castSint16; omega) (by unfold castSint16; omega)
    have hs := abs_le.1 (reverbSum_range s)
    show castSint16 (f32 (i2f ((castSint16 (f32 (i2f inp.1 * s.global_volume))
            + castSint16 (f32 (i2f inp.2 * s.global_volume))).tdiv 2)
          + f32 (i2f (reverbSum s) * s.reverb_feedback))) = _
    rw [hf, feedback_half_exact, i2f_of_abs_le _ (by rw [abs_le]; constructor <;> omega)]
    set dm := (castSint16 (f32 (i2f inp.1 * s.global_volume))
      + castSint16 (f32 (i2f inp.2 * s.global_volume))).tdiv 2 with hdmdef
    have e : (dm : ℚ) + (reverbSum s : ℚ) / 2 = ((2 * dm + reverbSum s : Int) : ℚ) / 2 ^ 1 := by
      push_cast; ring
    have e2 : (dm : ℚ) + 1 / 2 * (reverbSum s : ℚ) = ((2 * dm + reverbSum s : Int) : ℚ) / 2 ^ 1 := by
      push_cast; ring
    rw [e, e2, f32_dyadic _ 1 (by rw [abs_le]; constructor <;> omega) (by norm_num)]
    rfl

/-- Witness for C19: default parameters, only the reverb enabled, 50 under the cursor of the
fourth line, a silent frame: the value 3 is stored. -/
theorem reverb_write_back_witness :
    reverbSum (reverbOnly 50)
      = truncQ ((1 / 2 : ℚ) * ((reverbOnly 50).reverb_buffer1 (reverbOnly 50).reverb_pos1))
        + truncQ ((2 / 5 : ℚ) * ((reverbOnly 50).reverb_buffer2 (reverbOnly 50).reverb_pos2))
        + truncQ ((3 / 10 : ℚ) * ((reverbOnly 50).reverb_buffer3 (reverbOnly 50).reverb_pos3))
        + truncQ (f32 (f32 (((reverbOnly 50).reverb_buffer4 (reverbOnly 50).reverb_pos4 : ℚ)
            * f32 (3 / 10)) * f32 (f32 1 - (reverbOnly 50).reverb_damping)))
        + truncQ (f32 (f32 (((reverbOnly 50).reverb_buffer5 (reverbOnly 50).reverb_pos5 : ℚ)
            * f32 (3 / 20)) * f32 (f32 1 - (reverbOnly 50).reverb_damping))) ∧
    reverbSum (reverbOnly 50) = 6 ∧ reverbInput (volumeStage (reverbOnly 50) (0, 0)) = 3 :=
  ⟨(reverb_write_back (fun _ => 0) (reverbOnly 50) (0, 0) rfl (by decide) (by decide!)
      (by decide!)).2.2.1, by decide!, by decide!⟩

/-- C20 (no runaway in the reverb feedback path): with the default `reverb_feedback = 0.5f` and
`reverb_damping = 0.6f`, whenever the five 16-bit values read from the reverb lines in a frame
all have magnitude at most `B`, the feedback term `reverb_sum * reverb_feedback` has magnitude
at most `0.69 * B`. -/
theorem reverb_feedback_bound (s : Engine) (B : ℚ) (hf : s.reverb_feedback = f32 (1 / 2))
    (hd : s.reverb_damping = f32 (3 / 5))
    (hcells : ∀ b ∈ reverbReads s, isSint16 b ∧ |(b : ℚ)| ≤ B) :
    |f32 (i2f (reverbSum s) * s.reverb_feedback)| ≤ 69 / 100 * B := by
  have hc : ∀ b ∈ reverbReads s, (-32768 ≤ b ∧ b ≤ 32767) ∧ |(b : ℚ)| ≤ B := hcells
  simp only [reverbReads, List.mem_cons, List.mem_singleton, List.not_mem_nil, or_false,
    forall_eq_or_imp, forall_eq] at hc
  obtain ⟨⟨c1, B1⟩, ⟨c2, B2⟩, ⟨c3, B3⟩, ⟨c4, B4⟩, ⟨c5, B5⟩⟩ := hc
  rw [hf, feedback_half_exact]
  have t1 := (reverb_taps_exact _ c1.1 c1.2).1
  have t2 := (reverb_taps_exact _ c2.1 c2.2).2.1
  have t3 := (reverb_taps_exact _ c3.1 c3.2).2.2
  have t4 := (reverb_taps_damped _ c4.1 c4.2).1
  have t5 := (reverb_taps_damped _ c5.1 c5.2).2
  have hsum : (reverbSum s : ℚ)
      = (truncQ ((1 / 2 : ℚ) * (s.reverb_buffer1 s.reverb_pos1)) : ℚ)
        + (truncQ ((2 / 5 : ℚ) * (s.reverb_buffer2 s.reverb_pos2)) : ℚ)
        + (truncQ ((3 / 10 : ℚ) * (s.reverb_buffer3 s.reverb_pos3)) : ℚ)
        + (truncQ (f32 (f32 ((s.reverb_buffer4 s.reverb_pos4 : ℚ) * f32 (3 / 10))
            * f32 (f32 1 - f32 (3 / 5)))) : ℚ)
        + (truncQ (f32 (f32 ((s.reverb_buffer5 s.reverb_pos5 : ℚ) * f32 (3 / 20))
            * f32 (f32 1 - f32 (3 / 5)))) : ℚ) := by
    unfold reverbSum
    rw [hd, t1.1, t2.1, t3.1, t4.1, t5.1]
    push_cast
    rfl
  rw [hsum, abs_div, abs_of_pos (by norm_num : (0 : ℚ) < 2)]
  have k1 := abs_le.1 t1.2
  have k2 := abs_le.1 t2.2
  have k3 := abs_le.1 t3.2
  have k4 := abs_le.1 t4.2
  have k5 := abs_le.1 t5.2
  rw [div_le_iff₀ (by norm_num : (0 : ℚ) < 2), abs_le]
  constructor <;> linarith

/-- Witness for C20: default parameters with 50 under the cursor of the fourth line and zeros
under the others: the feedback term is 3, below `0.69 * 50`. -/
theorem reverb_feedback_bound_witness :
    (∀ b ∈ reverbReads (reverbOnly 50), isSint16 b ∧ |(b : ℚ)| ≤ 50) ∧
    |f32 (i2f (reverbSum (reverbOnly 50)) * (reverbOnly 50).reverb_feedback)| ≤ 69 / 100 * 50 :=
  ⟨by decide!, reverb_feedback_bound (reverbOnly 50) 50 rfl rfl (by decide!)⟩

/-! ## Stereo widening -/

theorem reverbStage_samples (a : Acc) :
    (reverbStage a).left_sample = a.left_sample ∧
    (reverbStage a).right_sample = a.right_sample := by
  unfold reverbStage
  split_ifs <;> exact ⟨rfl, rfl⟩

theorem chorusStage_samples (sinf : ℚ → ℚ) (a : Acc) :
    (chorusStage sinf a).left_sample = a.left_sample ∧
    (chorusStage sinf a).right_sample = a.right_sample := by
  unfold chorusStage
  split_ifs <;> exact ⟨rfl, rfl⟩

theorem vibratoStage_samples (sinf : ℚ → ℚ) (a : Acc) :
    (vibratoStage sinf a).left_sample = a.left_sample ∧
    (vibratoStage sinf a).right_sample = a.right_sample := by
  unfold vibratoStage
  split_ifs <;> exact ⟨rfl, rfl⟩

theorem tremoloStage_samples (sinf : ℚ → ℚ) (a : Acc) :
    (tremoloStage sinf a).left_sample = a.left_sample ∧
    (tremoloStage sinf a).right_sample = a.right_sample := by
  unfold tremoloStage
  split_ifs <;> exact ⟨rfl, rfl⟩

/-- The downmix stored by the stereo block is the downmix of the volume-scaled dry samples. -/
theorem downmix_before_stereo (sinf : ℚ → ℚ) (s : Engine) (inp : Int × Int) :
    downmix (tremoloStage sinf (vibratoStage sinf (chorusStage sinf (reverbStage (echoStage
      (volumeStage s inp)))))) = dryMix s.global_volume inp := by
  unfold downmix
  rw [(tremoloStage_samples sinf _).1, (tremoloStage_samples sinf _).2,
    (vibratoStage_samples sinf _).1, (vibratoStage_samples sinf _).2,
    (chorusStage_samples sinf _).1, (chorusStage_samples sinf _).2,
    (reverbStage_samples _).1, (reverbStage_samples _).2,
    (echoStage_samples _).1, (echoStage_samples _).2]
  exact (downmix_volumeStage s inp).1

theorem dryMix_range (v : ℚ) (inp : Int × Int) :
    -32768 ≤ dryMix v inp ∧ dryMix v inp ≤ 32767 := by
  have := downmix_volumeStage { init with global_volume := v } inp
  have e : downmix (volumeStage { init with global_volume := v } inp) = dryMix v inp := this.1
  rw [e] at this
  exact this.2

/-- The stereo line after a frame, whatever the toggles. -/
theorem frame_stereo_buffer (sinf : ℚ → ℚ) (s : Engine) (inp : Int × Int) :
    (frame sinf s inp).1.stereo_buffer
      = if s.stereo_enabled then
          Function.update s.stereo_buffer s.stereo_pos (dryMix s.global_volume inp)
        else s.stereo_buffer := by
  have ht : (tremoloStage sinf (vibratoStage sinf (chorusStage sinf (reverbStage (echoStage
      (volumeStage s inp)))))).s.toggles = s.toggles := by simp [volumeStage_s]
  have hr : (tremoloStage sinf (vibratoStage sinf (chorusStage sinf (reverbStage (echoStage
      (volumeStage s inp)))))).s.stereoPart = s.stereoPart := by simp [volumeStage_s]
  have hen : (tremoloStage sinf (vibratoStage sinf (chorusStage sinf (reverbStage (echoStage
      (volumeStage s inp)))))).s.stereo_enabled = s.stereo_enabled :=
    congrArg (fun t => t.2.2.2.2.2) ht
  simp only [Engine.stereoPart, Prod.mk.injEq] at hr
  have hd := downmix_before_stereo sinf s inp
  show (stereoStage _).s.stereo_buffer = _
  unfold stereoStage
  rw [hen]
  split_ifs
  · show Function.update _ _ _ = _
    rw [hr.1, hr.2, hd]
  · exact hr.1

/-- One frame with only stereo widening enabled. -/
theorem frame_stereoOnly (sinf : ℚ → ℚ) (s : Engine) (inp : Int × Int)
    (h : s.toggles = (false, false, false, false, false, true)) :
    (frame sinf s inp).1.toggles = (false, false, false, false, false, true) ∧
    (frame sinf s inp).1.global_volume = s.global_volume ∧
    (frame sinf s inp).1.stereo_buffer
      = Function.update s.stereo_buffer s.stereo_pos (dryMix s.global_volume inp) ∧
    (frame sinf s inp).1.stereo_pos = (s.stereo_pos + 1).tmod STEREO_DELAY ∧
    (frame sinf s inp).2
      = ((dry s.global_volume inp).1
            + truncQ (f32 (i2f (s.stereo_buffer s.stereo_pos) * f32 (1 / 2))),
          (dry s.global_volume inp).2
            + truncQ (f32 (i2f (s.stereo_buffer s.stereo_pos) * f32 (-1 / 2)))) := by
  have h0 := h
  simp only [Engine.toggles, Prod.mk.injEq] at h
  obtain ⟨h1, h2, h3, h4, h5, h6⟩ := h
  have e1 : echoStage (volumeStage s inp) = volumeStage s inp := echoStage_off _ h1
  have e2 : reverbStage (volumeStage s inp) = volumeStage s inp := reverbStage_off _ h2
  have e3 : chorusStage sinf (volumeStage s inp) = volumeStage s inp := chorusStage_off sinf _ h3
  have e4 : vibratoStage sinf (volumeStage s inp) = volumeStage s inp :=
    vibratoStage_off sinf _ h4
  have e5 : tremoloStage sinf (volumeStage s inp) = volumeStage s inp :=
    tremoloStage_off sinf _ h5
  have hf : frameAcc sinf s inp = stereoStage (volumeStage s inp) := by
    simp only [frameAcc, e1, e2, e3, e4, e5]
  have hv : (volumeStage s inp).s.stereo_enabled = true := h6
  refine ⟨?_, ?_, ?_, ?_, ?_⟩
  · rw [frame_toggles]; exact h0
  · exact congrArg (fun t => t.2.2.2.2.2.2.2.1) (frame_params sinf s inp)
  · rw [frame_stereo_buffer, h6, if_pos rfl]
  · rw [frame_stereo_pos, h6, if_pos rfl]
  · simp only [frame, hf, stereoStage, hv, if_true]
    rfl

/-- The stereo line as a delay line. If `p j` is the 16-bit value that lies `j` cells after the
cursor, a run with only stereo widening enabled reads `p t` in frame `t < 220` and the downmix
of frame `t - 220` afterwards. -/
theorem stereo_run (sinf : ℚ → ℚ) (xs : List (Int × Int)) :
    ∀ (s : Engine) (p : Nat → Int), s.toggles = (false, false, false, false, false, true) →
      0 ≤ s.stereo_pos → s.stereo_pos < 220 →
      (∀ j : Nat, j < 220 → s.stereo_buffer ((s.stereo_pos + j) % 220) = p j ∧ isSint16 (p j)) →
      ∀ t : Nat, t < xs.length →
        (runFrames sinf s xs).2.getD t (0, 0)
          = widen (dry s.global_volume (xs.getD t (0, 0)))
              (if t < 220 then p t else dryMix s.global_volume (xs.getD (t - 220) (0, 0))) := by
  induction xs with
  | nil => intro s p _ _ _ _ t ht; simp at ht
  | cons x rest ih =>
    intro s p htog h0 h1 hcell t ht
    obtain ⟨ftog, fvol, fbuf, fpos, fout⟩ := frame_stereoOnly sinf s x htog
    simp only [runFrames]
    cases t with
    | zero =>
      obtain ⟨c1, c2⟩ := hcell 0 (by norm_num)
      have e : (s.stereo_pos + ((0 : Nat) : Int)) % 220 = s.stereo_pos := by
        simp only [Nat.cast_zero, add_zero]
        exact Int.emod_eq_of_lt h0 h1
      rw [e] at c1
      obtain ⟨q1, q2⟩ := half_exact (p 0) c2.1 c2.2
      simp only [List.getD_cons_zero]
      rw [fout, c1, q1, q2]
      simp only [Nat.zero_lt_succ, if_true, widen, Nat.ofNat_pos, ← sub_eq_add_neg]
    | succ t =>
      simp only [List.getD_cons_succ]
      have hpos : (frame sinf s x).1.stereo_pos = (s.stereo_pos + 1) % 220 := by
        rw [fpos, STEREO_DELAY_eq]; exact tmod_succ_eq h0 (by norm_num)
      have hlen : t < rest.length := by simpa using ht
      have := ih (frame sinf s x).1
        (fun j => if j = 219 then dryMix s.global_volume x else p (j + 1)) ftog
        (by rw [hpos]; omega) (by rw [hpos]; omega)
        (by
          intro j hj
          rw [fbuf, hpos, Function.update_apply]
          by_cases h219 : j = 219
          · subst h219
            have : ((s.stereo_pos + 1) % 220 + ((219 : Nat) : Int)) % 220 = s.stereo_pos := by
              push_cast; omega
            rw [if_pos this]
            beta_reduce
            rw [if_pos rfl]
            exact ⟨rfl, dryMix_range _ _⟩
          · have hne : ((s.stereo_pos + 1) % 220 + (j : Int)) % 220 ≠ s.stereo_pos := by omega
            have heq : ((s.stereo_pos + 1) % 220 + (j : Int)) % 220
                = (s.stereo_pos + ((j + 1 : Nat) : Int)) % 220 := by push_cast; omega
            rw [if_neg hne]
            beta_reduce
            rw [if_neg h219, heq]
            exact hcell (j + 1) (by omega))
        t hlen
      rw [this, fvol]
      beta_reduce
      congr 1
      by_cases c1 : t + 1 < 220
      · rw [if_pos c1, if_pos (by omega), if_neg (by omega)]
      · by_cases c2 : t = 219
        · subst c2
          rw [if_pos (by norm_num), if_pos rfl, if_neg (by norm_num)]
          rfl
        · have e : t + 1 - 220 = (t - 220) + 1 := by omega
          rw [if_neg (by omega), if_neg c1, e, List.getD_cons_succ]

theorem dry_full_scale : dry (f32 (13 / 20)) (32767, 32767) = (21298, 21298) := by decide!

theorem dryMix_full_scale : dryMix (f32 (13 / 20)) (32767, 32767) = 21298 := by decide!

/-- C11 (stereo-widening delay law): with only stereo widening enabled, the stereo line all zero
and its cursor inside the line, for every input stream the accumulators of frames 0..219 are
the volume-scaled dry samples `(l_t, r_t)`, and every frame `t ≥ 220` has left accumulator
`l_t + trunc(m_(t-220) / 2)` and right accumulator `r_t - trunc(m_(t-220) / 2)`, where
`m_k = trunc((l_k + r_k) / 2)`. For a constant full-scale input `(32767, 32767)` at the default
volume the accumulators are `(21298 + 10649, 21298 - 10649)` from frame 220 on: the left channel
is boosted and the right one attenuated. -/
theorem stereo_delay_law (sinf : ℚ → ℚ) (s : Engine) (xs : List (Int × Int))
    (htog : s.toggles = (false, false, false, false, false, true))
    (hzero : ∀ i : Int, s.stereo_buffer i = 0)
    (hpos : 0 ≤ s.stereo_pos ∧ s.stereo_pos < STEREO_DELAY) :
    (∀ t : Nat, t < xs.length → t < 220 →
      (runFrames sinf s xs).2.getD t (0, 0) = dry s.global_volume (xs.getD t (0, 0))) ∧
    (∀ t : Nat, t < xs.length → 220 ≤ t →
      (runFrames sinf s xs).2.getD t (0, 0)
        = ((dry s.global_volume (xs.getD t (0, 0))).1
              + (dryMix s.global_volume (xs.getD (t - 220) (0, 0))).tdiv 2,
            (dry s.global_volume (xs.getD t (0, 0))).2
              - (dryMix s.global_volume (xs.getD (t - 220) (0, 0))).tdiv 2)) ∧
    (s.global_volume = f32 (13 / 20) → ∀ n t : Nat, t < n → 220 ≤ t →
      (runFrames sinf s (List.replicate n (32767, 32767))).2.getD t (0, 0)
        = (21298 + 10649, 21298 - 10649)) := by
  rw [STEREO_DELAY_eq] at hpos
  have key := fun ys => stereo_run sinf ys s (fun _ => 0) htog hpos.1 hpos.2
    (fun j _ => ⟨hzero _, (by decide : isSint16 0)⟩)
  refine ⟨?_, ?_, ?_⟩
  · intro t ht h220
    rw [key xs t ht, if_pos h220]
    simp [widen]
  · intro t ht h220
    rw [key xs t ht, if_neg (by omega)]
    rfl
  · intro hv n t ht h220
    rw [key _ t (by simpa using ht), if_neg (by omega), hv]
    have e1 : (List.replicate n ((32767 : Int), (32767 : Int))).getD t (0, 0) = (32767, 32767) := by
      rw [List.getD_eq_getElem _ _ (by simpa using ht)]
      simp
    have e2 : (List.replicate n ((32767 : Int), (32767 : Int))).getD (t - 220) (0, 0)
        = (32767, 32767) := by
      rw [List.getD_eq_getElem _ _ (by simp; omega)]
      simp
    rw [e1, e2, dry_full_scale, dryMix_full_scale]
    decide

/-- Witness for C11: the initial state with only stereo widening enabled and a stream of 221
frames; frame 220 is the first one widened. -/
theorem stereo_delay_law_witness :
    (runFrames (fun _ => 0) stereoOnly (List.replicate 221 (32767, 32767))).2.getD 220 (0, 0)
      = (21298 + 10649, 21298 - 10649) :=
  (stereo_delay_law (fun _ => 0) stereoOnly [] rfl (fun _ => rfl) (by decide)).2.2 rfl 221 220
    (by decide) (by decide)

/-! ## Headroom with stereo widening only -/

/-- At the default volume a 16-bit sample is scaled into `[-21299, 21298]`. -/
theorem dry_default_range (x : Int) (h : isSint16 x) :
    -21299 ≤ castSint16 (f32 (i2f x * f32 (13 / 20))) ∧
    castSint16 (f32 (i2f x * f32 (13 / 20))) ≤ 21298 := by
  have hv0 : (0 : ℚ) ≤ f32 (13 / 20) := by decide!
  have hv1 : f32 (13 / 20) ≤ (1 : ℚ) := by decide!
  obtain ⟨e, -, -⟩ := volume_scaled_range x (f32 (13 / 20)) h.1 h.2 hv0 hv1
  have q1 : ((-32768 : Int) : ℚ) ≤ x := by exact_mod_cast h.1
  have q2 : (x : ℚ) ≤ ((32767 : Int) : ℚ) := by exact_mod_cast h.2
  have lo : truncQ (f32 (((-32768 : Int) : ℚ) * f32 (13 / 20))) = -21299 := by decide!
  have hi : truncQ (f32 (((32767 : Int) : ℚ) * f32 (13 / 20))) = 21298 := by decide!
  have a := truncQ_mono (f32_mono (mul_le_mul_of_nonneg_right q1 hv0))
  have b := truncQ_mono (f32_mono (mul_le_mul_of_nonneg_right q2 hv0))
  rw [lo] at a
  rw [hi] at b
  rw [e]
  exact ⟨a, b⟩

theorem tdiv_two_bound (d B H : Int) (hB : B ≤ 2 * H + 1) (h1 : -B ≤ d) (h2 : d ≤ B) :
    ∃ k : Int, d.tdiv 2 = k ∧ -H ≤ k ∧ k ≤ H := by
  refine ⟨d.tdiv 2, rfl, ?_⟩
  rcases le_or_lt 0 d with h | h
  · rw [Int.tdiv_eq_ediv h (by norm_num)]; omega
  · have e : d.tdiv 2 = -((-d).tdiv 2) := by rw [Int.neg_tdiv, neg_neg]
    rw [e, Int.tdiv_eq_ediv (by omega) (by norm_num)]
    omega

theorem dryMix_default_range (inp : Int × Int) (h1 : isSint16 inp.1) (h2 : isSint16 inp.2) :
    -21299 ≤ dryMix (f32 (13 / 20)) inp ∧ dryMix (f32 (13 / 20)) inp ≤ 21298 := by
  have a : -21299 ≤ (dry (f32 (13 / 20)) inp).1 ∧ (dry (f32 (13 / 20)) inp).1 ≤ 21298 :=
    dry_default_range inp.1 h1
  have b : -21299 ≤ (dry (f32 (13 / 20)) inp).2 ∧ (dry (f32 (13 / 20)) inp).2 ≤ 21298 :=
    dry_default_range inp.2 h2
  unfold dryMix
  rcases le_or_lt 0 ((dry (f32 (13 / 20)) inp).1 + (dry (f32 (13 / 20)) inp).2) with h | h
  · rw [Int.tdiv_eq_ediv h (by norm_num)]; omega
  · have e : ((dry (f32 (13 / 20)) inp).1 + (dry (f32 (13 / 20)) inp).2).tdiv 2
        = -((-((dry (f32 (13 / 20)) inp).1 + (dry (f32 (13 / 20)) inp).2)).tdiv 2) := by
      rw [Int.neg_tdiv, neg_neg]
    rw [e, Int.tdiv_eq_ediv (by omega) (by norm_num)]
    omega

/-- While the volume keeps its default value and the input is 16-bit, every cell of the stereo
line lies in `[-21299, 21298]` and the stereo cursor is inside the line. -/
theorem stereo_cells_of_reachable (sinf : ℚ → ℚ) (s : Engine)
    (h : ReachableDefaultVolume sinf s) :
    s.global_volume = f32 (13 / 20) ∧ (0 ≤ s.stereo_pos ∧ s.stereo_pos < 220) ∧
    ∀ i : Int, -21299 ≤ s.stereo_buffer i ∧ s.stereo_buffer i ≤ 21298 := by
  induction h with
  | init =>
    refine ⟨rfl, by decide, fun i => ?_⟩
    show (-21299 : Int) ≤ 0 ∧ (0 : Int) ≤ 21298
    decide
  | frame s inp _ h1 h2 ih =>
    obtain ⟨v, p, c⟩ := ih
    refine ⟨?_, ?_, ?_⟩
    · have := congrArg (fun t => t.2.2.2.2.2.2.2.1) (frame_params sinf s inp)
      exact this.trans v
    · rw [frame_stereo_pos]
      split_ifs
      · rw [STEREO_DELAY_eq, tmod_succ_eq p.1 (by norm_num)]; omega
      · exact p
    · intro i
      rw [frame_stereo_buffer]
      split_ifs
      · rw [Function.update_apply]
        split_ifs
        · rw [v]; exact dryMix_default_range inp h1 h2
        · exact c i
      · exact c i
  | control s c _ hc ih => exact ⟨hc, ih.2.1, ih.2.2⟩

/-- Accumulators of a run with only stereo widening enabled, default volume, 16-bit input and
stereo cells in `[-21299, 21298]`. -/
theorem stereo_run_bound (sinf : ℚ → ℚ) (block : List (Int × Int)) :
    ∀ s : Engine, s.toggles = (false, false, false, false, false, true) →
      s.global_volume = f32 (13 / 20) → 0 ≤ s.stereo_pos → s.stereo_pos < 220 →
      (∀ i : Int, -21299 ≤ s.stereo_buffer i ∧ s.stereo_buffer i ≤ 21298) →
      (∀ inp ∈ block, isSint16 inp.1 ∧ isSint16 inp.2) →
      ∀ a ∈ (runFrames sinf s block).2, |a.1| ≤ 31948 ∧ |a.2| ≤ 31948 := by
  induction block with
  | nil => intro s _ _ _ _ _ _ a ha; simp [runFrames] at ha
  | cons x rest ih =>
    intro s htog hv h0 h1 hcell hin a ha
    obtain ⟨ftog, fvol, fbuf, fpos, fout⟩ := frame_stereoOnly sinf s x htog
    simp only [runFrames, List.mem_cons] at ha
    have hx := hin x (List.mem_cons_self _ _)
    rcases ha with ha | ha
    · rw [ha, fout, hv]
      obtain ⟨c1, c2⟩ := hcell s.stereo_pos
      obtain ⟨q1, q2⟩ := half_exact (s.stereo_buffer s.stereo_pos) (by omega) (by omega)
      obtain ⟨k, hk, k1, k2⟩ := tdiv_two_bound (s.stereo_buffer s.stereo_pos) 21299 10649
        (by norm_num) (by omega) (by omega)
      have l : -21299 ≤ (dry (f32 (13 / 20)) x).1 ∧ (dry (f32 (13 / 20)) x).1 ≤ 21298 :=
        dry_default_range x.1 hx.1
      have r : -21299 ≤ (dry (f32 (13 / 20)) x).2 ∧ (dry (f32 (13 / 20)) x).2 ≤ 21298 :=
        dry_default_range x.2 hx.2
      rw [q1, q2, hk]
      constructor <;> rw [abs_le] <;> constructor <;> omega
    · refine ih (frame sinf s x).1 ftog (fvol.trans hv) ?_ ?_ ?_
        (fun inp hi => hin inp (List.mem_cons_of_mem _ hi)) a ha
      · rw [fpos, STEREO_DELAY_eq, tmod_succ_eq h0 (by norm_num)]; omega
      · rw [fpos, STEREO_DELAY_eq, tmod_succ_eq h0 (by norm_num)]; omega
      · intro i
        rw [fbuf, Function.update_apply, hv]
        split_ifs
        · exact dryMix_default_range x hx.1 hx.2
        · exact hcell i

/-- C12 (stereo-only headroom): with only stereo widening enabled and the default
`global_volume` 0.65, in every state reachable with that volume and 16-bit input, for every
block of 16-bit frames both accumulators of every frame have magnitude at most 31948; so the
block peak does not exceed 32767, the rescale is not triggered, and the block is left with the
accumulators themselves, every output inside `[-32768, 32767]` without wrap-around. -/
theorem stereo_only_headroom (sinf : ℚ → ℚ) (s : Engine) (block : List (Int × Int))
    (hreach : ReachableDefaultVolume sinf s)
    (htog : s.toggles = (false, false, false, false, false, true))
    (hin : ∀ inp ∈ block, isSint16 inp.1 ∧ isSint16 inp.2) :
    (∀ a ∈ (runFrames sinf s block).2, |a.1| ≤ 31948 ∧ |a.2| ≤ 31948) ∧
    blockPeak (runFrames sinf s block).2 ≤ 32767 ∧
    (audio_effect sinf s block).2 = (runFrames sinf s block).2 ∧
    (∀ o ∈ (audio_effect sinf s block).2, isSint16 o.1 ∧ isSint16 o.2) := by
  obtain ⟨hv, hp, hc⟩ := stereo_cells_of_reachable sinf s hreach
  have hb := stereo_run_bound sinf block s htog hv hp.1 hp.2 hc hin
  have hpeak : blockPeak (runFrames sinf s block).2 ≤ 32767 :=
    blockPeak_le _ 32767 (by norm_num) fun a ha => ⟨by have := hb a ha; omega,
      by have := hb a ha; omega⟩
  have hout := audio_effect_within_headroom sinf s block hpeak
  refine ⟨hb, hpeak, hout, ?_⟩
  intro o ho
  rw [hout] at ho
  obtain ⟨b1, b2⟩ := hb o ho
  have := abs_le.1 b1
  have := abs_le.1 b2
  exact ⟨⟨by omega, by omega⟩, ⟨by omega, by omega⟩⟩

/-- Witness for C12: the initial state switched to stereo widening only, and a one-frame block
of full-scale samples of opposite sign. -/
theorem stereo_only_headroom_witness :
    (∀ a ∈ (runFrames (fun _ => 0) stereoOnly [(32767, -32768)]).2,
      |a.1| ≤ 31948 ∧ |a.2| ≤ 31948) ∧
    blockPeak (runFrames (fun _ => 0) stereoOnly [(32767, -32768)]).2 ≤ 32767 ∧
    (audio_effect (fun _ => 0) stereoOnly [(32767, -32768)]).2
      = (runFrames (fun _ => 0) stereoOnly [(32767, -32768)]).2 ∧
    (∀ o ∈ (audio_effect (fun _ => 0) stereoOnly [(32767, -32768)]).2,
      isSint16 o.1 ∧ isSint16 o.2) :=
  stereo_only_headroom (fun _ => 0) stereoOnly [(32767, -32768)]
    (ReachableDefaultVolume.control init stereoOnly ReachableDefaultVolume.init rfl) rfl
    (by decide)

/-! ## Track navigation -/

/-- What the two arrow keys do while track `k` of `count ≥ 1` files is playing: Right Arrow
makes the next track started `(k + 3) mod count`, Left Arrow makes it `(k - 1) mod count`, and
both indices are inside the playlist. -/
theorem track_navigation_law (count k : Int) (hc : 1 ≤ count) (h0 : 0 ≤ k) (h1 : k < count) :
    afterKey 1 count k = (k + 3) % count ∧ afterKey 2 count k = (k - 1) % count ∧
    (0 ≤ afterKey 1 count k ∧ afterKey 1 count k < count) ∧
    (0 ≤ afterKey 2 count k ∧ afterKey 2 count k < count) := by
  have hpos : (0 : Int) < count := by omega
  have hplay : (startTrack count k).2 = (k + 1) % count := by
    simp only [startTrack]
    rw [if_neg (by omega)]
    exact Int.tmod_eq_emod (by omega) (by omega)
  have hp0 : 0 ≤ (k + 1) % count := Int.emod_nonneg _ (by omega)
  have hp1 : (k + 1) % count < count := Int.emod_lt_of_pos _ hpos
  have r0 : 0 ≤ (k + 3) % count := Int.emod_nonneg _ (by omega)
  have r1 : (k + 3) % count < count := Int.emod_lt_of_pos _ hpos
  have l0 : 0 ≤ (k - 1) % count := Int.emod_nonneg _ (by omega)
  have l1 : (k - 1) % count < count := Int.emod_lt_of_pos _ hpos
  have hR : afterKey 1 count k = (k + 3) % count := by
    simp only [afterKey, if_true, hplay, keyRight, if_pos hpos]
    have e : ((k + 1) % count + 2).tmod count = (k + 3) % count := by
      rw [Int.tmod_eq_emod (by omega) (by omega), Int.add_emod,
        Int.emod_emod_of_dvd _ (dvd_refl _), ← Int.add_emod]
      congr 1
      ring
    rw [e]
    simp only [startTrack]
    rw [if_neg (by omega)]
  have hL : afterKey 2 count k = (k - 1) % count := by
    simp only [afterKey, hplay, keyLeft, if_pos hpos, if_true, if_false]
    have e : ((k + 1) % count - 2 + count).tmod count = (k - 1) % count := by
      rcases eq_or_lt_of_le hc with h | h
      · subst h
        have : k = 0 := by omega
        subst this
        decide
      · rw [Int.tmod_eq_emod (by omega) (by omega)]
        rw [show (k + 1) % count - 2 + count = (k + 1) % count + (count - 2) by ring,
          Int.add_emod, Int.emod_emod_of_dvd _ (dvd_refl _), ← Int.add_emod]
        rw [show k + 1 + (count - 2) = (k - 1) + count by ring, Int.add_emod_self]
    rw [e, if_neg (by norm_num)]
    simp only [startTrack]
    rw [if_neg (by omega)]
  exact ⟨hR, hL, by rw [hR]; exact ⟨r0, r1⟩, by rw [hL]; exact ⟨l0, l1⟩⟩

/-- C17 (track navigation), evaluated on the code: while track 0 of a playlist of three files
is playing, Right Arrow makes the main loop start track 0 again, not track `(0 + 1) mod 3 = 1`;
with four files it starts track 3, the previous track, which is also what Left Arrow starts.
The key handler adds 2 to a `current_index` that the start of track `k` has already advanced to
`k + 1`. -/
theorem right_arrow_not_next :
    afterKey 1 3 0 = 0 ∧ ((0 : Int) + 1) % 3 = 1 ∧ afterKey 1 4 0 = 3 ∧ afterKey 2 4 0 = 3 ∧
    ((0 : Int) + 1) % 4 = 1 ∧ ((0 : Int) - 1) % 4 = 3 := by
  decide

/-! ## Stereo widening is antisymmetric -/

/-- C24 (stereo widening is exactly antisymmetric): for every 16-bit delayed sample `d` read
from the stereo line, the stage adds `h = trunc(0.5 * d)` to the left accumulator and exactly
`-h` to the right accumulator, so the sum of the two accumulators is unchanged by the stage. -/
theorem stereo_antisymmetric (a : Acc) (hs : a.s.stereo_enabled = true)
    (hd : isSint16 (a.s.stereo_buffer a.s.stereo_pos)) :
    (stereoStage a).mixed_left
      = a.mixed_left + truncQ ((1 / 2 : ℚ) * (a.s.stereo_buffer a.s.stereo_pos)) ∧
    (stereoStage a).mixed_right
      = a.mixed_right - truncQ ((1 / 2 : ℚ) * (a.s.stereo_buffer a.s.stereo_pos)) ∧
    (stereoStage a).mixed_left + (stereoStage a).mixed_right = a.mixed_left + a.mixed_right := by
  obtain ⟨q1, q2⟩ := half_exact (a.s.stereo_buffer a.s.stereo_pos) hd.1 hd.2
  have e1 : (stereoStage a).mixed_left
      = a.mixed_left + truncQ (f32 (i2f (a.s.stereo_buffer a.s.stereo_pos) * f32 (1 / 2))) := by
    simp only [stereoStage, hs, if_true]
  have e2 : (stereoStage a).mixed_right
      = a.mixed_right + truncQ (f32 (i2f (a.s.stereo_buffer a.s.stereo_pos) * f32 (-1 / 2))) := by
    simp only [stereoStage, hs, if_true]
  rw [e1, e2, q1, q2, truncQ_half]
  refine ⟨rfl, by ring, by ring⟩

/-- Witness for C24: dry samples 650 and -650 and the value 7 under the stereo cursor give
accumulators 653 and -653. -/
theorem stereo_antisymmetric_witness :
    (stereoStage (volumeStage lateOnly (1000, -1000))).mixed_left
      = (volumeStage lateOnly (1000, -1000)).mixed_left + truncQ ((1 / 2 : ℚ) * ((7 : Int) : ℚ)) ∧
    (stereoStage (volumeStage lateOnly (1000, -1000))).mixed_right
      = (volumeStage lateOnly (1000, -1000)).mixed_right
        - truncQ ((1 / 2 : ℚ) * ((7 : Int) : ℚ)) ∧
    (stereoStage (volumeStage lateOnly (1000, -1000))).mixed_left
        + (stereoStage (volumeStage lateOnly (1000, -1000))).mixed_right
      = (volumeStage lateOnly (1000, -1000)).mixed_left
        + (volumeStage lateOnly (1000, -1000)).mixed_right :=
  stereo_antisymmetric (volumeStage lateOnly (1000, -1000)) rfl (by decide)

/-! ## Vibrato and tremolo phases -/

theorem runFrames_vibrato_phase (sinf : ℚ → ℚ) (block : List (Int × Int)) :
    ∀ s : Engine, (runFrames sinf s block).1.vibrato_phase
      = if s.vibrato_enabled then
          (fun ph => advancePhase ph (phaseInc (f32 3)))^[block.length] s.vibrato_phase
        else s.vibrato_phase := by
  induction block with
  | nil => intro s; simp [runFrames]
  | cons inp rest ih =>
    intro s
    have hen : (frame sinf s inp).1.vibrato_enabled = s.vibrato_enabled :=
      congrArg (fun t => t.2.2.2.1) (frame_toggles sinf s inp)
    simp only [runFrames]
    rw [ih, hen, frame_vibrato_phase]
    cases h : s.vibrato_enabled
    · simp
    · simp only [if_true, List.length_cons, Function.iterate_succ_apply]

theorem runFrames_tremolo_phase (sinf : ℚ → ℚ) (block : List (Int × Int)) :
    ∀ s : Engine, (runFrames sinf s block).1.tremolo_phase
      = if s.tremolo_enabled then
          (fun ph => advancePhase ph (phaseInc (f32 3)))^[block.length] s.tremolo_phase
        else s.tremolo_phase := by
  induction block with
  | nil => intro s; simp [runFrames]
  | cons inp rest ih =>
    intro s
    have hen : (frame sinf s inp).1.tremolo_enabled = s.tremolo_enabled :=
      congrArg (fun t => t.2.2.2.2.1) (frame_toggles sinf s inp)
    simp only [runFrames]
    rw [ih, hen, frame_tremolo_phase]
    cases h : s.tremolo_enabled
    · simp
    · simp only [if_true, List.length_cons, Function.iterate_succ_apply]

theorem f32_three : f32 3 = 3 := by decide!

/-- C26 (vibrato and tremolo ignore the speed parameter): a frame advances `vibrato_phase`, and
likewise `tremolo_phase`, by the `double` value of `2 * M_PI * 3.0f / SAMPLE_RATE` (with the wrap
at `2 * M_PI`), each only when its own stage is enabled and whatever the value of
`chorus_speed`; so two runs on the same input that differ only in `chorus_speed` have the same
`vibrato_phase` and `tremolo_phase` after every block, i.e. identical trajectories. -/
theorem vibrato_tremolo_ignore_speed (sinf : ℚ → ℚ) (s : Engine) (c : ℚ)
    (block : List (Int × Int)) :
    (∀ inp : Int × Int, (frame sinf s inp).1.vibrato_phase
      = if s.vibrato_enabled then advancePhase s.vibrato_phase (phaseInc (f32 3))
        else s.vibrato_phase) ∧
    (∀ inp : Int × Int, (frame sinf s inp).1.tremolo_phase
      = if s.tremolo_enabled then advancePhase s.tremolo_phase (phaseInc (f32 3))
        else s.tremolo_phase) ∧
    phaseInc (f32 3) = f64 (f64 (TWO_PI * 3) / 44100) ∧
    (runFrames sinf (setChorusSpeed s c) block).1.vibrato_phase
      = (runFrames sinf s block).1.vibrato_phase ∧
    (runFrames sinf (setChorusSpeed s c) block).1.tremolo_phase
      = (runFrames sinf s block).1.tremolo_phase := by
  refine ⟨fun inp => frame_vibrato_phase sinf s inp, fun inp => frame_tremolo_phase sinf s inp,
    ?_, ?_, ?_⟩
  · rw [phaseInc, f32_three]
    rfl
  · rw [runFrames_vibrato_phase, runFrames_vibrato_phase]
    rfl
  · rw [runFrames_tremolo_phase, runFrames_tremolo_phase]
    rfl

/-! ## Chorus voices 1 and 2 -/

theorem chorus_phases_equal_of_reachable (sinf : ℚ → ℚ) (s : Engine) (h : Reachable sinf s) :
    s.chorus_phase1 = s.chorus_phase2 := by
  induction h with
  | init => rfl
  | frame s inp _ ih =>
    obtain ⟨c1, c2, -⟩ := frame_chorus_phase sinf s inp
    rw [c1, c2, ih]
  | control s c _ ih => exact ih

/-- C29 (chorus voices 1 and 2 share one modulator): in every state reachable from the initial
state, for any inputs, toggles and parameter values, `chorus_phase1 = chorus_phase2`, so the
modulation factors `mod1` and `mod2` of the chorus block are equal in every frame; the third
voice is the only one whose phase starts at a different value (0 instead of 0.5). -/
theorem chorus_voices_share_phase (sinf : ℚ → ℚ) (s : Engine) (h : Reachable sinf s) :
    s.chorus_phase1 = s.chorus_phase2 ∧
    f32 (f32 (1 / 2) + f32 (s.chorus_depth * sinf s.chorus_phase1))
      = f32 (f32 (1 / 2) + f32 (s.chorus_depth * sinf s.chorus_phase2)) ∧
    init.chorus_phase3 ≠ init.chorus_phase1 := by
  have e := chorus_phases_equal_of_reachable sinf s h
  refine ⟨e, by rw [e], ?_⟩
  decide!

/-- Witness for C29: the state after one frame from the initial state. -/
theorem chorus_voices_share_phase_witness :
    (frame (fun _ => 0) init (1, 2)).1.chorus_phase1
      = (frame (fun _ => 0) init (1, 2)).1.chorus_phase2 :=
  (chorus_voices_share_phase (fun _ => 0) (frame (fun _ => 0) init (1, 2)).1
    (Reachable.frame init (1, 2) Reachable.init)).1

/-! ## Parameters that are never read -/

theorem echoStage_setUnused (a : Acc) (p : ℚ × ℚ × ℚ × ℚ × Int) :
    echoStage (a.setUnused p) = (echoStage a).setUnused p := by
  cases h : a.s.echo_enabled
  · have h2 : (a.setUnused p).s.echo_enabled = false := h
    rw [echoStage_off _ h2, echoStage_off _ h]
  · have h2 : (a.setUnused p).s.echo_enabled = true := h
    simp only [echoStage, h, h2, if_true]
    rfl

theorem reverbStage_setUnused (a : Acc) (p : ℚ × ℚ × ℚ × ℚ × Int) :
    reverbStage (a.setUnused p) = (reverbStage a).setUnused p := by
  cases h : a.s.reverb_enabled
  · have h2 : (a.setUnused p).s.reverb_enabled = false := h
    rw [reverbStage_off _ h2, reverbStage_off _ h]
  · have h2 : (a.setUnused p).s.reverb_enabled = true := h
    simp only [reverbStage, h, h2, if_true]
    rfl

theorem chorusStage_setUnused (sinf : ℚ → ℚ) (a : Acc) (p : ℚ × ℚ × ℚ × ℚ × Int) :
    chorusStage sinf (a.setUnused p) = (chorusStage sinf a).setUnused p := by
  cases h : a.s.chorus_enabled
  · have h2 : (a.setUnused p).s.chorus_enabled = false := h
    rw [chorusStage_off sinf _ h2, chorusStage_off sinf _ h]
  · have h2 : (a.setUnused p).s.chorus_enabled = true := h
    simp only [chorusStage, h, h2, if_true]
    rfl

theorem vibratoStage_setUnused (sinf : ℚ → ℚ) (a : Acc) (p : ℚ × ℚ × ℚ × ℚ × Int) :
    vibratoStage sinf (a.setUnused p) = (vibratoStage sinf a).setUnused p := by
  cases h : a.s.vibrato_enabled
  · have h2 : (a.setUnused p).s.vibrato_enabled = false := h
    rw [vibratoStage_off sinf _ h2, vibratoStage_off sinf _ h]
  · have h2 : (a.setUnused p).s.vibrato_enabled = true := h
    simp only [vibratoStage, h, h2, if_true]
    rfl

theorem tremoloStage_setUnused (sinf : ℚ → ℚ) (a : Acc) (p : ℚ × ℚ × ℚ × ℚ × Int) :
    tremoloStage sinf (a.setUnused p) = (tremoloStage sinf a).setUnused p := by
  cases h : a.s.tremolo_enabled
  · have h2 : (a.setUnused p).s.tremolo_enabled = false := h
    rw [tremoloStage_off sinf _ h2, tremoloStage_off sinf _ h]
  · have h2 : (a.setUnused p).s.tremolo_enabled = true := h
    simp only [tremoloStage, h, h2, if_true]
    rfl

theorem stereoStage_setUnused (a : Acc) (p : ℚ × ℚ × ℚ × ℚ × Int) :
    stereoStage (a.setUnused p) = (stereoStage a).setUnused p := by
  cases h : a.s.stereo_enabled
  · have h2 : (a.setUnused p).s.stereo_enabled = false := h
    rw [stereoStage_off _ h2, stereoStage_off _ h]
  · have h2 : (a.setUnused p).s.stereo_enabled = true := h
    simp only [stereoStage, h, h2, if_true]
    rfl

theorem frame_setUnused (sinf : ℚ → ℚ) (s : Engine) (p : ℚ × ℚ × ℚ × ℚ × Int)
    (inp : Int × Int) :
    frame sinf (setUnused s p) inp
      = (setUnused (frame sinf s inp).1 p, (frame sinf s inp).2) := by
  have hv : volumeStage (setUnused s p) inp = (volumeStage s inp).setUnused p := rfl
  have hf : frameAcc sinf (setUnused s p) inp = (frameAcc sinf s inp).setUnused p := by
    simp only [frameAcc, hv, echoStage_setUnused, reverbStage_setUnused, chorusStage_setUnused,
      vibratoStage_setUnused, tremoloStage_setUnused, stereoStage_setUnused]
  simp only [frame, hf]
  rfl

theorem runFrames_setUnused (sinf : ℚ → ℚ) (p : ℚ × ℚ × ℚ × ℚ × Int)
    (block : List (Int × Int)) :
    ∀ s : Engine, runFrames sinf (setUnused s p) block
      = (setUnused (runFrames sinf s block).1 p, (runFrames sinf s block).2) := by
  induction block with
  | nil => intro s; rfl
  | cons inp rest ih =>
    intro s
    simp only [runFrames, frame_setUnused, ih]

theorem setUnused_core (s : Engine) (p : ℚ × ℚ × ℚ × ℚ × Int) :
    (setUnused s p).core = s.core := rfl

/-- C28 (five configuration parameters have no effect on the audio): for every engine state and
input block, a call of `audio_effect` in which `reverb_level`, `chorus_level`, `stereo_width`,
`limiter_threshold` and `limiter_enabled` have other values produces the same output block, and
its final engine state is the final state of the original call with those five values put in:
delay lines, cursors, phases, toggles and the other parameters are identical. -/
theorem unused_parameters (sinf : ℚ → ℚ) (s : Engine) (p : ℚ × ℚ × ℚ × ℚ × Int)
    (block : List (Int × Int)) :
    (audio_effect sinf (setUnused s p) block).2 = (audio_effect sinf s block).2 ∧
    (audio_effect sinf (setUnused s p) block).1 = setUnused (audio_effect sinf s block).1 p ∧
    (audio_effect sinf (setUnused s p) block).1.core = (audio_effect sinf s block).1.core := by
  have h := runFrames_setUnused sinf p block s
  have h1 : (audio_effect sinf (setUnused s p) block).1
      = setUnused (audio_effect sinf s block).1 p := by
    rw [audio_effect_state, audio_effect_state, h]
  refine ⟨?_, h1, ?_⟩
  · simp only [audio_effect, h]
    split_ifs <;> rfl
  · rw [h1, setUnused_core]

/-! ## The playlist -/

theorem nameFound_iff (files : List String) (filename : String) :
    nameFound files filename = true ↔ filename ∈ files := by
  induction files with
  | nil => simp [nameFound]
  | cons f rest ih =>
    simp only [nameFound, List.mem_cons]
    by_cases h : f = filename
    · simp [h]
    · rw [if_neg h, ih]
      constructor
      · exact Or.inr
      · rintro (h2 | h2)
        · exact absurd h2.symm h
        · exact h2

theorem midi_list_add_present (l : MidiList) (filename : String) (h : filename ∈ l.files) :
    midi_list_add l filename = l := by
  unfold midi_list_add
  rw [if_pos ((nameFound_iff _ _).2 h)]

theorem midi_list_add_absent (l : MidiList) (filename : String) (h : filename ∉ l.files) :
    (midi_list_add l filename).files = l.files ++ [filename] ∧
    (midi_list_add l filename).capacity
      = if l.count ≥ l.capacity then l.capacity * 2 else l.capacity := by
  have hn : ¬ nameFound l.files filename = true := fun h2 => h ((nameFound_iff _ _).1 h2)
  unfold midi_list_add
  rw [if_neg hn]
  exact ⟨rfl, rfl⟩

theorem built_invariant (l : MidiList) (h : Built l) :
    l.files.Nodup ∧ l.count ≤ l.capacity ∧ 10 ≤ l.capacity := by
  induction h with
  | init => exact ⟨List.nodup_nil, by decide, by decide⟩
  | add l filename _ ih =>
    obtain ⟨hn, hc, h10⟩ := ih
    by_cases hm : filename ∈ l.files
    · rw [midi_list_add_present l filename hm]; exact ⟨hn, hc, h10⟩
    · obtain ⟨e1, e2⟩ := midi_list_add_absent l filename hm
      refine ⟨?_, ?_, ?_⟩
      · rw [e1]
        exact List.Nodup.append hn (List.nodup_singleton _) (by simpa using hm)
      · have hcnt : (midi_list_add l filename).count = l.count + 1 := by
          unfold MidiList.count
          rw [e1]
          simp
        rw [hcnt, e2]
        split_ifs <;> omega
      · rw [e2]
        split_ifs <;> omega

/-- C30 (the playlist is duplicate-free): for every list and filename, `midi_list_add` leaves the
list unchanged when the filename is already present, and otherwise appends it as the last
element, keeping the earlier elements and their order, so that `count` grows by exactly 1;
hence a list built from the empty list by `midi_list_add` alone never contains the same name
twice and always has `count ≤ capacity`. -/
theorem playlist_duplicate_free (l : MidiList) (filename : String) :
    (filename ∈ l.files → midi_list_add l filename = l) ∧
    (filename ∉ l.files →
      (midi_list_add l filename).files = l.files ++ [filename] ∧
      (midi_list_add l filename).count = l.count + 1) ∧
    (Built l → l.files.Nodup ∧ l.count ≤ l.capacity) := by
  refine ⟨midi_list_add_present l filename, ?_, fun h => ⟨(built_invariant l h).1,
    (built_invariant l h).2.1⟩⟩
  intro h
  obtain ⟨e1, -⟩ := midi_list_add_absent l filename h
  refine ⟨e1, ?_⟩
  unfold MidiList.count
  rw [e1]
  simp

/-- Witness for C30: adding `b.mid` to the list `[a.mid]` appends it, adding `a.mid` again
changes nothing, and the list built this way has no duplicate. -/
theorem playlist_duplicate_free_witness :
    midi_list_add (midi_list_add midi_list_init "a.mid") "a.mid"
      = midi_list_add midi_list_init "a.mid" ∧
    ((midi_list_add (midi_list_add midi_list_init "a.mid") "b.mid").files
        = (midi_list_add midi_list_init "a.mid").files ++ ["b.mid"] ∧
      (midi_list_add (midi_list_add midi_list_init "a.mid") "b.mid").count
        = (midi_list_add midi_list_init "a.mid").count + 1) ∧
    ((midi_list_add midi_list_init "a.mid").files.Nodup ∧
      (midi_list_add midi_list_init "a.mid").count
        ≤ (midi_list_add midi_list_init "a.mid").capacity) :=
  ⟨(playlist_duplicate_free (midi_list_add midi_list_init "a.mid") "a.mid").1 (by decide),
    (playlist_duplicate_free (midi_list_add midi_list_init "a.mid") "b.mid").2.1 (by decide),
    (playlist_duplicate_free (midi_list_add midi_list_init "a.mid") "a.mid").2.2
      (Built.add midi_list_init "a.mid" Built.init)⟩

/-! ## Delay lines -/

theorem emod_succ_emod (a N : Int) : (a % N + 1) % N = (a + 1) % N := by
  rw [Int.add_emod, Int.emod_emod_of_dvd _ (dvd_refl _), ← Int.add_emod]

theorem emod_add_ne (a k N : Int) (hk0 : 0 < k) (hk : k < N) : (a + k) % N ≠ a % N := by
  intro h
  have h2 := (Int.emod_emod_of_dvd (a + k - a) (dvd_refl N)).symm
  have h3 : (a + k - a) % N = 0 := Int.emod_eq_emod_iff_emod_sub_eq_zero.1 h
  have h4 : a + k - a = k := by ring
  rw [h4, Int.emod_eq_of_lt hk0.le hk] at h3
  omega

/-- The cursor of a delay line after `t` writes is `t mod N`, and the cell `j` places after the
cursor holds the value written `N - j` writes ago, or 0 when there was no such write. -/
theorem lineAfter_spec (N : Nat) (hN : 0 < N) (v : Nat → Int) (t : Nat) :
    (lineAfter N v t).2 = (t : Int) % (N : Int) ∧
    ∀ j : Nat, j < N →
      (lineAfter N v t).1 (((t : Int) + (j : Int)) % (N : Int))
        = if t + j < N then 0 else v (t + j - N) := by
  have hNz : (0 : Int) < (N : Int) := by exact_mod_cast hN
  induction t with
  | zero =>
    refine ⟨by simp [lineAfter], ?_⟩
    intro j hj
    simp [lineAfter, hj]
  | succ t ih =>
    obtain ⟨ih1, ih2⟩ := ih
    have hp0 : (0 : Int) ≤ (t : Int) % (N : Int) := Int.emod_nonneg _ (by omega)
    have hpos : (lineAfter N v (t + 1)).2 = ((t + 1 : Nat) : Int) % (N : Int) := by
      show ((lineAfter N v t).2 + 1).tmod (N : Int) = _
      rw [ih1, tmod_succ_eq hp0 hNz, emod_succ_emod]
      push_cast
      rfl
    refine ⟨hpos, ?_⟩
    intro j hj
    show Function.update (lineAfter N v t).1 (lineAfter N v t).2 (v t) _ = _
    rw [ih1, Function.update_apply]
    by_cases hlast : j + 1 = N
    · have e : (((t + 1 : Nat) : Int) + (j : Int)) % (N : Int) = (t : Int) % (N : Int) := by
        have : ((t + 1 : Nat) : Int) + (j : Int) = (t : Int) + (N : Int) := by
          have : ((j + 1 : Nat) : Int) = (N : Int) := by exact_mod_cast hlast
          push_cast at this ⊢
          omega
        rw [this, Int.add_emod_self]
      rw [if_pos e, if_neg (by omega)]
      congr 1
      omega
    · have hj1 : j + 1 < N := by omega
      have e : (((t + 1 : Nat) : Int) + (j : Int)) = (t : Int) + ((j + 1 : Nat) : Int) := by
        push_cast; ring
      have hne : (((t + 1 : Nat) : Int) + (j : Int)) % (N : Int) ≠ (t : Int) % (N : Int) := by
        rw [e]
        exact emod_add_ne _ _ _ (by exact_mod_cast Nat.succ_pos j) (by exact_mod_cast hj1)
      rw [if_neg hne, e, ih2 (j + 1) hj1]
      have e2 : t + 1 + j = t + (j + 1) := by omega
      rw [e2]

/-- The cell under the cursor of a delay line of capacity `N` after `t` writes holds the value
written `N` writes earlier, or 0 during the first `N` writes. -/
theorem lineAfter_read (N : Nat) (hN : 0 < N) (v : Nat → Int) (t : Nat) :
    (lineAfter N v t).1 (lineAfter N v t).2 = if t < N then 0 else v (t - N) := by
  obtain ⟨h1, h2⟩ := lineAfter_spec N hN v t
  have := h2 0 hN
  simpa [h1] using this

/-- A line of the engine that every frame writes once follows `lineAfter`. -/
theorem line_of_frames (sinf : ℚ → ℚ) (x : Nat → Int × Int) (s0 : Engine)
    (part : Engine → (Int → Int) × Int) (N : Nat) (val : Engine → Int × Int → Int)
    (P : Engine → Prop) (hP0 : P s0) (hP : ∀ s inp, P s → P (frame sinf s inp).1)
    (hstep : ∀ s inp, P s → part (frame sinf s inp).1 = lineWrite N (part s) (val s inp))
    (h0 : part s0 = (fun _ => 0, 0)) (t : Nat) :
    P (stateAt sinf s0 x t) ∧
    part (stateAt sinf s0 x t) = lineAfter N (fun k => val (stateAt sinf s0 x k) (x k)) t := by
  induction t with
  | zero => exact ⟨hP0, h0⟩
  | succ t ih =>
    obtain ⟨p, e⟩ := ih
    refine ⟨hP _ _ p, ?_⟩
    show part (frame sinf (stateAt sinf s0 x t) (x t)).1 = lineWrite N _ _
    rw [hstep _ _ p, e]

theorem stateAt_shift (sinf : ℚ → ℚ) (s : Engine) (x : Nat → Int × Int) (t : Nat) :
    stateAt sinf s x (t + 1) = stateAt sinf (frame sinf s (x 0)).1 (fun k => x (k + 1)) t := by
  induction t with
  | zero => rfl
  | succ t ih =>
    show (frame sinf (stateAt sinf s x (t + 1)) (x (t + 1))).1 = _
    rw [ih]
    rfl

/-- The state after a block is the state after its frames, one by one. -/
theorem runFrames_eq_stateAt (sinf : ℚ → ℚ) (xs : List (Int × Int)) :
    ∀ s : Engine,
      (runFrames sinf s xs).1 = stateAt sinf s (fun k => xs.getD k (0, 0)) xs.length := by
  induction xs with
  | nil => intro s; rfl
  | cons a rest ih =>
    intro s
    simp only [runFrames, List.length_cons]
    rw [stateAt_shift, ih]
    rfl

/-! ## What each stage writes into its lines -/

theorem frame_echo_line (sinf : ℚ → ℚ) (s : Engine) (inp : Int × Int) :
    (frame sinf s inp).1.echoPart
      = if s.echo_enabled then lineWrite ECHO_DELAY s.echoPart (dryMix s.global_volume inp)
        else s.echoPart := by
  cases h : s.echo_enabled
  · rw [frame_echo_off sinf s inp h]; rfl
  · have hv : (volumeStage s inp).s.echo_enabled = true := h
    rw [frame_echoPart, if_pos rfl]
    simp only [echoStage, hv, if_true, Engine.echoPart, lineWrite]
    rw [(downmix_volumeStage s inp).1]
    rfl

theorem frame_stereo_line (sinf : ℚ → ℚ) (s : Engine) (inp : Int × Int) :
    (frame sinf s inp).1.stereoPart
      = if s.stereo_enabled then
          lineWrite STEREO_DELAY s.stereoPart (dryMix s.global_volume inp)
        else s.stereoPart := by
  simp only [Engine.stereoPart, lineWrite]
  rw [frame_stereo_buffer, frame_stereo_pos]
  split_ifs <;> rfl

theorem frame_chorus_lines (sinf : ℚ → ℚ) (s : Engine) (inp : Int × Int) :
    ((frame sinf s inp).1.chorusLine1
      = if s.chorus_enabled then
          lineWrite CHORUS_DELAY_1 s.chorusLine1 (dryMix s.global_volume inp)
        else s.chorusLine1) ∧
    ((frame sinf s inp).1.chorusLine2
      = if s.chorus_enabled then
          lineWrite CHORUS_DELAY_2 s.chorusLine2 (dryMix s.global_volume inp)
        else s.chorusLine2) ∧
    ((frame sinf s inp).1.chorusLine3
      = if s.chorus_enabled then
          lineWrite CHORUS_DELAY_3 s.chorusLine3 (dryMix s.global_volume inp)
        else s.chorusLine3) := by
  cases h : s.chorus_enabled
  · have := frame_chorus_off sinf s inp h
    simp only [Engine.chorusPart, Prod.mk.injEq] at this
    obtain ⟨⟨a1, a2, -⟩, ⟨a3, a4, -⟩, ⟨a5, a6, -⟩⟩ := this
    simp only [Engine.chorusLine1, Engine.chorusLine2, Engine.chorusLine3, a1, a2, a3, a4, a5,
      a6]
    exact ⟨rfl, rfl, rfl⟩
  · have hf := frame_chorusPart sinf s inp
    have ht : (reverbStage (echoStage (volumeStage s inp))).s.toggles = s.toggles := by
      simp [volumeStage_s]
    have hr : (reverbStage (echoStage (volumeStage s inp))).s.chorusPart = s.chorusPart := by
      simp [volumeStage_s]
    have hen : (reverbStage (echoStage (volumeStage s inp))).s.chorus_enabled = true :=
      (congrArg (fun t => t.2.2.1) ht).trans h
    have hd : downmix (reverbStage (echoStage (volumeStage s inp)))
        = dryMix s.global_volume inp := by
      unfold downmix
      rw [(reverbStage_samples _).1, (reverbStage_samples _).2, (echoStage_samples _).1,
        (echoStage_samples _).2]
      exact (downmix_volumeStage s inp).1
    simp only [chorusStage, hen, if_true, Engine.chorusPart, Prod.mk.injEq, hd] at hf hr
    obtain ⟨⟨a1, a2, -⟩, ⟨a3, a4, -⟩, ⟨a5, a6, -⟩⟩ := hf
    obtain ⟨⟨r1, r2, -⟩, ⟨r3, r4, -⟩, ⟨r5, r6, -⟩⟩ := hr
    simp only [Engine.chorusLine1, Engine.chorusLine2, Engine.chorusLine3, a1, a2, a3, a4, a5,
      a6, r1, r2, r3, r4, r5, r6, if_true, lineWrite]
    refine ⟨?_, ?_, ?_⟩ <;> trivial

/-! ## Dry write-back -/

/-- A line that is written with the dry downmix follows `lineAfter` on the downmixes of the
input frames. -/
theorem dry_line_run (sinf : ℚ → ℚ) (part : Engine → (Int → Int) × Int) (tog : Engine → Bool)
    (N : Nat)
    (hstep : ∀ s inp, part (frame sinf s inp).1
      = if tog s then lineWrite N (part s) (dryMix s.global_volume inp) else part s)
    (htog : ∀ s inp, tog (frame sinf s inp).1 = tog s)
    (s : Engine) (hen : tog s = true) (h0 : part s = (fun _ => 0, 0)) (xs : List (Int × Int)) :
    part (runFrames sinf s xs).1
      = lineAfter N (fun k => dryMix s.global_volume (xs.getD k (0, 0))) xs.length := by
  have h := line_of_frames sinf (fun k => xs.getD k (0, 0)) s part N
    (fun _ inp => dryMix s.global_volume inp)
    (fun u => tog u = true ∧ u.global_volume = s.global_volume) ⟨hen, rfl⟩
    (fun u inp hu => ⟨(htog u inp).trans hu.1,
      (congrArg (fun t => t.2.2.2.2.2.2.2.1) (frame_params sinf u inp)).trans hu.2⟩)
    (fun u inp hu => by rw [hstep, hu.1, if_pos rfl, hu.2]) h0 xs.length
  rw [runFrames_eq_stateAt]
  exact h.2

/-- The contents of a line that is written with the dry downmix depend only on the line, its
toggle, the volume and the input. -/
theorem dry_line_congr (part : Engine → (Int → Int) × Int) (tog : Engine → Bool) (N : Int)
    (hstep : ∀ (sinf : ℚ → ℚ) (s : Engine) (inp : Int × Int), part (frame sinf s inp).1
      = if tog s then lineWrite N (part s) (dryMix s.global_volume inp) else part s)
    (htog : ∀ (sinf : ℚ → ℚ) (s : Engine) (inp : Int × Int), tog (frame sinf s inp).1 = tog s)
    (sinf1 sinf2 : ℚ → ℚ) (block : List (Int × Int)) :
    ∀ s t : Engine, part s = part t → tog s = tog t → s.global_volume = t.global_volume →
      part (runFrames sinf1 s block).1 = part (runFrames sinf2 t block).1 := by
  induction block with
  | nil => intro s t h _ _; exact h
  | cons inp rest ih =>
    intro s t hp ht hv
    simp only [runFrames]
    apply ih
    · rw [hstep, hstep, hp, ht, hv]
    · rw [htog, htog, ht]
    · exact ((congrArg (fun t => t.2.2.2.2.2.2.2.1) (frame_params sinf1 s inp)).trans hv).trans
        (congrArg (fun t => t.2.2.2.2.2.2.2.1) (frame_params sinf2 t inp)).symm

theorem frame_echo_enabled (sinf : ℚ → ℚ) (s : Engine) (inp : Int × Int) :
    (frame sinf s inp).1.echo_enabled = s.echo_enabled :=
  congrArg (fun t => t.1) (frame_toggles sinf s inp)

theorem frame_chorus_enabled (sinf : ℚ → ℚ) (s : Engine) (inp : Int × Int) :
    (frame sinf s inp).1.chorus_enabled = s.chorus_enabled :=
  congrArg (fun t => t.2.2.1) (frame_toggles sinf s inp)

theorem frame_stereo_enabled (sinf : ℚ → ℚ) (s : Engine) (inp : Int × Int) :
    (frame sinf s inp).1.stereo_enabled = s.stereo_enabled :=
  congrArg (fun t => t.2.2.2.2.2) (frame_toggles sinf s inp)

theorem frame_reverb_enabled (sinf : ℚ → ℚ) (s : Engine) (inp : Int × Int) :
    (frame sinf s inp).1.reverb_enabled = s.reverb_enabled :=
  congrArg (fun t => t.2.1) (frame_toggles sinf s inp)

/-- C23 (dry-only write-back): in every frame the value written into the echo line, into each
of the three chorus lines and into the stereo line, when the owning stage is enabled, is
`trunc((l + r) / 2)` of the volume-scaled input frame, whatever the running accumulators;
consequently, after any block, the contents and cursor of each of these five lines are the same
in two runs that agree on that line, on the toggle of its stage, on the volume and on the
input, whatever the other toggles, the other parameters, the other lines and the oscillator:
the lines carry no feedback. -/
theorem dry_write_back (sinf1 sinf2 : ℚ → ℚ) (s t : Engine) (inp : Int × Int)
    (block : List (Int × Int)) :
    ((frame sinf1 s inp).1.echoPart
      = if s.echo_enabled then lineWrite ECHO_DELAY s.echoPart (dryMix s.global_volume inp)
        else s.echoPart) ∧
    ((frame sinf1 s inp).1.chorusLine1
      = if s.chorus_enabled then
          lineWrite CHORUS_DELAY_1 s.chorusLine1 (dryMix s.global_volume inp)
        else s.chorusLine1) ∧
    ((frame sinf1 s inp).1.chorusLine2
      = if s.chorus_enabled then
          lineWrite CHORUS_DELAY_2 s.chorusLine2 (dryMix s.global_volume inp)
        else s.chorusLine2) ∧
    ((frame sinf1 s inp).1.chorusLine3
      = if s.chorus_enabled then
          lineWrite CHORUS_DELAY_3 s.chorusLine3 (dryMix s.global_volume inp)
        else s.chorusLine3) ∧
    ((frame sinf1 s inp).1.stereoPart
      = if s.stereo_enabled then
          lineWrite STEREO_DELAY s.stereoPart (dryMix s.global_volume inp)
        else s.stereoPart) ∧
    dryMix s.global_volume inp
      = (castSint16 (f32 (i2f inp.1 * s.global_volume))
          + castSint16 (f32 (i2f inp.2 * s.global_volume))).tdiv 2 ∧
    (s.global_volume = t.global_volume →
      (s.echoPart = t.echoPart → s.echo_enabled = t.echo_enabled →
        (runFrames sinf1 s block).1.echoPart = (runFrames sinf2 t block).1.echoPart) ∧
      (s.chorusLine1 = t.chorusLine1 → s.chorus_enabled = t.chorus_enabled →
        (runFrames sinf1 s block).1.chorusLine1 = (runFrames sinf2 t block).1.chorusLine1) ∧
      (s.chorusLine2 = t.chorusLine2 → s.chorus_enabled = t.chorus_enabled →
        (runFrames sinf1 s block).1.chorusLine2 = (runFrames sinf2 t block).1.chorusLine2) ∧
      (s.chorusLine3 = t.chorusLine3 → s.chorus_enabled = t.chorus_enabled →
        (runFrames sinf1 s block).1.chorusLine3 = (runFrames sinf2 t block).1.chorusLine3) ∧
      (s.stereoPart = t.stereoPart → s.stereo_enabled = t.stereo_enabled →
        (runFrames sinf1 s block).1.stereoPart = (runFrames sinf2 t block).1.stereoPart)) := by
  obtain ⟨c1, c2, c3⟩ := frame_chorus_lines sinf1 s inp
  refine ⟨frame_echo_line sinf1 s inp, c1, c2, c3, frame_stereo_line sinf1 s inp, rfl, ?_⟩
  intro hv
  refine ⟨?_, ?_, ?_, ?_, ?_⟩
  · intro hp ht
    exact dry_line_congr Engine.echoPart (fun u => u.echo_enabled) ECHO_DELAY frame_echo_line
      frame_echo_enabled sinf1 sinf2 block s t hp ht hv
  · intro hp ht
    exact dry_line_congr Engine.chorusLine1 (fun u => u.chorus_enabled) CHORUS_DELAY_1
      (fun f u i => (frame_chorus_lines f u i).1) frame_chorus_enabled sinf1 sinf2 block s t
      hp ht hv
  · intro hp ht
    exact dry_line_congr Engine.chorusLine2 (fun u => u.chorus_enabled) CHORUS_DELAY_2
      (fun f u i => (frame_chorus_lines f u i).2.1) frame_chorus_enabled sinf1 sinf2 block s t
      hp ht hv
  · intro hp ht
    exact dry_line_congr Engine.chorusLine3 (fun u => u.chorus_enabled) CHORUS_DELAY_3
      (fun f u i => (frame_chorus_lines f u i).2.2) frame_chorus_enabled sinf1 sinf2 block s t
      hp ht hv
  · intro hp ht
    exact dry_line_congr Engine.stereoPart (fun u => u.stereo_enabled) STEREO_DELAY
      frame_stereo_line frame_stereo_enabled sinf1 sinf2 block s t hp ht hv

/-- Witness for C23: the initial state with all effects on and with only the echo on leave the
same echo line after a block, also with different oscillators. -/
theorem dry_write_back_witness :
    (runFrames (fun _ => 0) init [(100, -200), (5, 5)]).1.echoPart
      = (runFrames (fun _ => 1) echoOnly [(100, -200), (5, 5)]).1.echoPart :=
  ((dry_write_back (fun _ => 0) (fun _ => 1) init echoOnly (0, 0) [(100, -200), (5, 5)]).2.2.2.2.2.2
    rfl).1 rfl rfl

/-! ## Chorus read offset -/

theorem chorus_idx_eq (p D : Int) (h0 : 0 ≤ p) (h1 : p < D) : (p - D + D).tmod D = p := by
  rw [sub_add_cancel]
  exact Int.tmod_eq_of_lt h0 h1

/-- The cell a chorus voice reads after a run with the chorus enabled, from an all-zero line
with cursor 0. -/
theorem chorus_line_read (sinf : ℚ → ℚ) (part : Engine → (Int → Int) × Int) (N : Nat)
    (hN : 0 < N)
    (hstep : ∀ s inp, part (frame sinf s inp).1
      = if s.chorus_enabled then lineWrite N (part s) (dryMix s.global_volume inp) else part s)
    (s : Engine) (hen : s.chorus_enabled = true) (h0 : part s = (fun _ => 0, 0))
    (xs : List (Int × Int)) :
    (part (runFrames sinf s xs).1).1
        (((part (runFrames sinf s xs).1).2 - (N : Int) + (N : Int)).tmod (N : Int))
      = if xs.length < N then 0
        else dryMix s.global_volume (xs.getD (xs.length - N) (0, 0)) := by
  have h := dry_line_run sinf part (fun u => u.chorus_enabled) N hstep
    (frame_chorus_enabled sinf) s hen h0 xs
  have hNz : (0 : Int) < (N : Int) := by exact_mod_cast hN
  obtain ⟨p1, -⟩ := lineAfter_spec N hN
    (fun k => dryMix s.global_volume (xs.getD k (0, 0))) xs.length
  have hr := lineAfter_read N hN (fun k => dryMix s.global_volume (xs.getD k (0, 0))) xs.length
  rw [h, chorus_idx_eq _ _ (by rw [p1]; exact Int.emod_nonneg _ (by omega))
    (by rw [p1]; exact Int.emod_lt_of_pos _ hNz), hr]

/-- C25 (the chorus read offset is a no-op): for each chorus line of capacity `D` in
`{441, 661, 882}` and every cursor value `p` in `[0, D)`, the read index `(p - D + D) % D`
equals `p`; so in a run with the chorus enabled, from all-zero chorus lines with cursors 0, each
voice reads the cell at its write cursor, which holds the downmix written exactly `D` frames
earlier, or 0 during the first `D` frames. -/
theorem chorus_read_offset (sinf : ℚ → ℚ) (s : Engine) (xs : List (Int × Int))
    (hen : s.chorus_enabled = true)
    (hz : s.chorusLine1 = (fun _ => 0, 0) ∧ s.chorusLine2 = (fun _ => 0, 0) ∧
      s.chorusLine3 = (fun _ => 0, 0)) :
    (CHORUS_DELAY_1 = 441 ∧ CHORUS_DELAY_2 = 661 ∧ CHORUS_DELAY_3 = 882) ∧
    (∀ D p : Int, 0 ≤ p → p < D → (p - D + D).tmod D = p) ∧
    ((runFrames sinf s xs).1.chorus_buffer1
        (((runFrames sinf s xs).1.chorus_pos1 - CHORUS_DELAY_1 + CHORUS_DELAY_1).tmod
          CHORUS_DELAY_1)
      = if xs.length < 441 then 0
        else dryMix s.global_volume (xs.getD (xs.length - 441) (0, 0))) ∧
    ((runFrames sinf s xs).1.chorus_buffer2
        (((runFrames sinf s xs).1.chorus_pos2 - CHORUS_DELAY_2 + CHORUS_DELAY_2).tmod
          CHORUS_DELAY_2)
      = if xs.length < 661 then 0
        else dryMix s.global_volume (xs.getD (xs.length - 661) (0, 0))) ∧
    ((runFrames sinf s xs).1.chorus_buffer3
        (((runFrames sinf s xs).1.chorus_pos3 - CHORUS_DELAY_3 + CHORUS_DELAY_3).tmod
          CHORUS_DELAY_3)
      = if xs.length < 882 then 0
        else dryMix s.global_volume (xs.getD (xs.length - 882) (0, 0))) := by
  have d1 : CHORUS_DELAY_1 = ((441 : Nat) : Int) := by decide
  have d2 : CHORUS_DELAY_2 = ((661 : Nat) : Int) := by decide
  have d3 : CHORUS_DELAY_3 = ((882 : Nat) : Int) := by decide
  refine ⟨⟨by decide, by decide, by decide⟩, fun D p => chorus_idx_eq p D, ?_, ?_, ?_⟩
  · rw [d1]
    exact chorus_line_read sinf Engine.chorusLine1 441 (by norm_num)
      (fun u i => by rw [← d1]; exact (frame_chorus_lines sinf u i).1) s hen hz.1 xs
  · rw [d2]
    exact chorus_line_read sinf Engine.chorusLine2 661 (by norm_num)
      (fun u i => by rw [← d2]; exact (frame_chorus_lines sinf u i).2.1) s hen hz.2.1 xs
  · rw [d3]
    exact chorus_line_read sinf Engine.chorusLine3 882 (by norm_num)
      (fun u i => by rw [← d3]; exact (frame_chorus_lines sinf u i).2.2) s hen hz.2.2 xs

/-- Witness for C25: after 442 full-scale frames from the initial state the first voice reads
the downmix of frame 1, the other two still read 0. -/
theorem chorus_read_offset_witness :
    ((runFrames (fun _ => 0) init (List.replicate 442 (32767, 32767))).1.chorus_buffer1
        (((runFrames (fun _ => 0) init (List.replicate 442 (32767, 32767))).1.chorus_pos1
          - CHORUS_DELAY_1 + CHORUS_DELAY_1).tmod CHORUS_DELAY_1)
      = if (List.replicate 442 ((32767 : Int), (32767 : Int))).length < 441 then 0
        else dryMix init.global_volume
          ((List.replicate 442 ((32767 : Int), (32767 : Int))).getD
            ((List.replicate 442 ((32767 : Int), (32767 : Int))).length - 441) (0, 0))) :=
  (chorus_read_offset (fun _ => 0) init (List.replicate 442 (32767, 32767)) rfl
    ⟨rfl, rfl, rfl⟩).2.2.1

/-! ## Tremolo and vibrato gains -/

theorem tremoloStage_eq (sinf : ℚ → ℚ) (a : Acc) (h : a.s.tremolo_enabled = true) :
    (tremoloStage sinf a).mixed_left
      = truncQ (f32 (i2f a.mixed_left * tremoloGain sinf a.s.tremolo_phase)) ∧
    (tremoloStage sinf a).mixed_right
      = truncQ (f32 (i2f a.mixed_right * tremoloGain sinf a.s.tremolo_phase)) := by
  simp only [tremoloStage, h, if_true, tremoloGain, and_self]

theorem vibratoStage_eq (sinf : ℚ → ℚ) (a : Acc) (h : a.s.vibrato_enabled = true) :
    (vibratoStage sinf a).mixed_left
      = truncQ (f32 (i2f a.mixed_left * vibratoGain sinf a.s.vibrato_phase)) ∧
    (vibratoStage sinf a).mixed_right
      = truncQ (f32 (i2f a.mixed_right * vibratoGain sinf a.s.vibrato_phase)) := by
  simp only [vibratoStage, h, if_true, vibratoGain, and_self]

/-- With a sine in `[-1, 1]` the tremolo gain lies between the `float` values
`13002343 * 2 ^ (-24)` (just above 0.775) and `15518925 * 2 ^ (-24)` (just above 0.925). -/
theorem tremoloGain_range (sinf : ℚ → ℚ) (ph : ℚ) (h1 : -1 ≤ sinf ph) (h2 : sinf ph ≤ 1) :
    13002343 / 16777216 ≤ tremoloGain sinf ph ∧ tremoloGain sinf ph ≤ 15518925 / 16777216 := by
  have c : f32 (3 / 40) = 10066330 / 134217728 := by decide!
  have lo : f32 (f32 (17 / 20) + f32 (f32 (3 / 40) * -1)) = 13002343 / 16777216 := by decide!
  have hi : f32 (f32 (17 / 20) + f32 (f32 (3 / 40) * 1)) = 15518925 / 16777216 := by decide!
  have hc0 : (0 : ℚ) ≤ f32 (3 / 40) := by rw [c]; norm_num
  have a := f32_mono (mul_le_mul_of_nonneg_left h1 hc0)
  have b := f32_mono (mul_le_mul_of_nonneg_left h2 hc0)
  have a2 := f32_mono (add_le_add_left a (f32 (17 / 20)))
  have b2 := f32_mono (add_le_add_left b (f32 (17 / 20)))
  rw [lo] at a2
  rw [hi] at b2
  exact ⟨a2, b2⟩

/-- Relative error of a single-precision rounding of a value of magnitude at least `1 / 2`. -/
theorem f32_rel_error {y : ℚ} (h : 1 / 2 ≤ |y|) : |f32 y - y| ≤ |y| / 16777216 := by
  have hy : y ≠ 0 := by
    intro h0
    rw [h0, abs_zero] at h
    norm_num at h
  obtain ⟨s1, s2⟩ := ilog2_spec y hy
  have e1 : pow2 (-1) = 1 / 2 := by rw [pow2_eq_zpow]; norm_num
  have he : -1 ≤ ilog2 y := by
    have : pow2 (-1) < pow2 (ilog2 y + 1) := by rw [e1]; exact lt_of_le_of_lt h s2
    have := pow2_lt_pow2_iff.1 this
    omega
  have herr := roundBin_abs_error 24 (-149) hy
  have e2 : pow2 (-23) = 1 / 8388608 := by rw [pow2_eq_zpow]; norm_num
  have hp := pow2_pos (ilog2 y)
  have hQ : ∀ Q : Int, Q ≤ ilog2 y + -23 → pow2 Q * 16777216 ≤ |y| * 2 := by
    intro Q hQ
    have := pow2_le_pow2 hQ
    rw [pow2_add, e2] at this
    nlinarith
  show |roundBin 24 (-149) y - y| ≤ _
  refine le_trans herr ?_
  rw [div_le_div_iff₀ (by norm_num) (by norm_num)]
  exact hQ _ (max_le (by push_cast; omega) (by omega))

/-- Multiplying a `Sint32` value by a `float` gain in `[1/2, 15/16]` and truncating does not
increase the magnitude and does not change the sign. -/
theorem scale_down (x : Int) (g : ℚ) (hg0 : 1 / 2 ≤ g) (hg1 : g ≤ 15 / 16) :
    |truncQ (f32 (i2f x * g))| ≤ |x| ∧ (0 ≤ x → 0 ≤ truncQ (f32 (i2f x * g))) ∧
    (x ≤ 0 → truncQ (f32 (i2f x * g)) ≤ 0) := by
  have key : ∀ m : Int, 1 ≤ m →
      0 ≤ truncQ (f32 (i2f m * g)) ∧ truncQ (f32 (i2f m * g)) ≤ m := by
    intro m hm
    have hmq : (1 : ℚ) ≤ m := by exact_mod_cast hm
    have hX1 : (1 : ℚ) ≤ f32 (m : ℚ) := by
      have := f32_mono hmq
      rwa [f32_one] at this
    have hXe := abs_le.1 (f32_rel_error (y := (m : ℚ))
      (by rw [abs_of_nonneg (by linarith)]; linarith))
    rw [abs_of_nonneg (by linarith : (0 : ℚ) ≤ m)] at hXe
    have hX2 : f32 (m : ℚ) ≤ (m : ℚ) * (16777217 / 16777216) := by linarith [hXe.2]
    have hz0 : 1 / 2 ≤ f32 (m : ℚ) * g := by nlinarith
    have hz1 : f32 (m : ℚ) * g ≤ f32 (m : ℚ) * (15 / 16) :=
      mul_le_mul_of_nonneg_left hg1 (by linarith)
    have hze := abs_le.1 (f32_rel_error (y := f32 (m : ℚ) * g)
      (by rw [abs_of_nonneg (by linarith)]; exact hz0))
    rw [abs_of_nonneg (by linarith : (0 : ℚ) ≤ f32 (m : ℚ) * g)] at hze
    have hf0 : 0 ≤ f32 (f32 (m : ℚ) * g) := f32_nonneg (by linarith)
    have hf1 : f32 (f32 (m : ℚ) * g) ≤ (m : ℚ) := by nlinarith [hze.2]
    obtain ⟨t0, t1⟩ := (truncQ_bounds _).1 hf0
    refine ⟨by unfold i2f; exact t0, ?_⟩
    have : (truncQ (f32 (f32 (m : ℚ) * g)) : ℚ) ≤ m := le_trans t1 hf1
    unfold i2f
    exact_mod_cast this
  rcases lt_trichotomy x 0 with h | h | h
  · obtain ⟨k0, k1⟩ := key (-x) (by omega)
    have e : i2f (-x) * g = -(i2f x * g) := by
      unfold i2f
      push_cast
      rw [f32_neg]
      ring
    rw [e, f32_neg, truncQ_neg] at k0 k1
    refine ⟨by rw [abs_le, abs_of_neg h]; constructor <;> omega,
      fun h0 => absurd h0 (by omega), fun _ => by omega⟩
  · subst h
    have e : truncQ (f32 (i2f 0 * g)) = 0 := by
      rw [i2f_zero, zero_mul, f32_zero, truncQ_zero]
    rw [e]
    simp
  · obtain ⟨k0, k1⟩ := key x (by omega)
    refine ⟨by rw [abs_le, abs_of_pos h]; constructor <;> omega, fun _ => k0,
      fun h0 => absurd h0 (by omega)⟩

/-- Counterexample to C27 as stated: where the sine is exactly 1 (as `sinf` is at the `float`
nearest to `π / 2`), the tremolo gain is the `float` `0.85f + 0.075f = 15518925 * 2 ^ (-24)`,
which is above 0.925. -/
theorem tremolo_gain_counterexample :
    tremoloGain (fun _ => 1) 0 = 15518925 / 16777216 ∧
    (37 / 40 : ℚ) < tremoloGain (fun _ => 1) 0 := by
  constructor <;> decide!

/-- C27, as amended (tremolo only attenuates): for every phase at which the sine lies in
`[-1, 1]`, the tremolo gain `0.85f + 0.075f * sinf(phase)` lies in `[0.775, 15518925 / 2 ^ 24]`
(the upper end is 0.925 rounded to single precision, about 0.92500001), so for every accumulator
value `x` the result `trunc(x * gain)` of the tremolo stage has magnitude at most `|x|` and
never the opposite sign of `x`. -/
theorem tremolo_attenuates (sinf : ℚ → ℚ) (ph : ℚ) (x : Int) (h1 : -1 ≤ sinf ph)
    (h2 : sinf ph ≤ 1) :
    (31 / 40 ≤ tremoloGain sinf ph ∧ tremoloGain sinf ph ≤ 15518925 / 16777216) ∧
    |truncQ (f32 (i2f x * tremoloGain sinf ph))| ≤ |x| ∧
    (0 ≤ x → 0 ≤ truncQ (f32 (i2f x * tremoloGain sinf ph))) ∧
    (x ≤ 0 → truncQ (f32 (i2f x * tremoloGain sinf ph)) ≤ 0) ∧
    (∀ a : Acc, a.s.tremolo_enabled = true → a.s.tremolo_phase = ph → a.mixed_left = x →
      (tremoloStage sinf a).mixed_left = truncQ (f32 (i2f x * tremoloGain sinf ph))) := by
  obtain ⟨g0, g1⟩ := tremoloGain_range sinf ph h1 h2
  obtain ⟨s1, s2, s3⟩ := scale_down x (tremoloGain sinf ph) (by linarith) (by linarith)
  refine ⟨⟨by linarith, g1⟩, s1, s2, s3, ?_⟩
  intro a hen hph hx
  rw [(tremoloStage_eq sinf a hen).1, hph, hx]

/-- Witness for C27: a sine of 1 and the accumulator value 1000 give 925. -/
theorem tremolo_attenuates_witness :
    |truncQ (f32 (i2f 1000 * tremoloGain (fun _ => 1) 0))| ≤ |(1000 : Int)| ∧
    truncQ (f32 (i2f 1000 * tremoloGain (fun _ => 1) 0)) = 925 :=
  ⟨(tremolo_attenuates (fun _ => 1) 0 1000 (by norm_num) (by norm_num)).2.1, by decide!⟩

/-! ## Bounds on the accumulators -/

theorem addAssign_bound (x : Int) (y : ℚ) (B W : Int) (hB : 0 ≤ B) (hW : 0 ≤ W)
    (hBW : B + W ≤ 16777216) (hx : |x| ≤ B) (hy : |y| ≤ (W : ℚ)) :
    |addAssign x y| ≤ B + W := by
  have hx2 : |x| ≤ 16777216 := by omega
  have hxq : |(x : ℚ)| ≤ (B : ℚ) := by exact_mod_cast hx
  have hs : |(x : ℚ) + y| ≤ ((B + W : Int) : ℚ) := by
    push_cast
    exact le_trans (abs_add _ _) (add_le_add hxq hy)
  have hf := f32_abs_le_int (B + W) (by rw [abs_le]; constructor <;> omega) hs
  have ht := le_trans (abs_truncQ_le _) hf
  unfold addAssign
  rw [i2f_of_abs_le x hx2]
  exact_mod_cast ht

theorem mulAssign_bound (x : Int) (g G : ℚ) (B B2 : Int) (hB : 0 ≤ B) (hB1 : B ≤ 16777216)
    (hB2 : |B2| ≤ 16777216) (hg : |g| ≤ G) (hBG : (B : ℚ) * G ≤ (B2 : ℚ)) (hx : |x| ≤ B) :
    |truncQ (f32 (i2f x * g))| ≤ B2 := by
  have hxq : |(x : ℚ)| ≤ (B : ℚ) := by exact_mod_cast hx
  have hp : |(x : ℚ) * g| ≤ (B2 : ℚ) := by
    rw [abs_mul]
    exact le_trans (mul_le_mul hxq hg (abs_nonneg g) (by exact_mod_cast hB)) hBG
  have hf := f32_abs_le_int B2 hB2 hp
  have ht := le_trans (abs_truncQ_le _) hf
  rw [i2f_of_abs_le x (by omega)]
  exact_mod_cast ht

theorem echoWet_bound (s : Engine) (h : isSint16 (s.echo_buffer s.echo_pos)) :
    |echoWet s| ≤ ((9831 : Int) : ℚ) := by
  obtain ⟨h1, h2⟩ := h
  unfold echoWet
  rw [i2f_of_abs_le _ (by rw [abs_le]; constructor <;> omega), f32_three_tenths]
  apply f32_abs_le_int 9831 (by norm_num)
  have q1 : (-32768 : ℚ) ≤ s.echo_buffer s.echo_pos := by exact_mod_cast h1
  have q2 : (s.echo_buffer s.echo_pos : ℚ) ≤ 32767 := by exact_mod_cast h2
  rw [abs_le]
  push_cast
  constructor <;> linarith

theorem reverbWet_bound (s : Engine) : |reverbWet s| ≤ ((32769 : Int) : ℚ) := by
  have hr := reverbSum_range s
  have c : f32 (1 / 5) = 13421773 / 67108864 := by decide!
  unfold reverbWet
  rw [i2f_of_abs_le _ (le_trans hr (by norm_num)), c]
  apply f32_abs_le_int 32769 (by norm_num)
  obtain ⟨a, b⟩ := abs_le.1 hr
  have q1 : (-163840 : ℚ) ≤ reverbSum s := by exact_mod_cast a
  have q2 : (reverbSum s : ℚ) ≤ 163840 := by exact_mod_cast b
  rw [abs_le]
  push_cast
  constructor <;> linarith

theorem castSint16_abs (x : ℚ) : |castSint16 x| ≤ 32768 := by
  have := toSint16_range (truncQ x)
  unfold castSint16
  rw [abs_le]
  constructor <;> omega

theorem wet_of_three (c1 c2 c3 : Int) (h1 : |c1| ≤ 32768) (h2 : |c2| ≤ 32768)
    (h3 : |c3| ≤ 32768) : |f32 (i2f (c1 + c2 + c3) * f32 (3 / 20))| ≤ ((14746 : Int) : ℚ) := by
  obtain ⟨a1, b1⟩ := abs_le.1 h1
  obtain ⟨a2, b2⟩ := abs_le.1 h2
  obtain ⟨a3, b3⟩ := abs_le.1 h3
  rw [i2f_of_abs_le _ (by rw [abs_le]; constructor <;> omega), f32_three_twentieths]
  apply f32_abs_le_int 14746 (by norm_num)
  have q1 : (-98304 : ℚ) ≤ ((c1 + c2 + c3 : Int) : ℚ) := by
    have : (-98304 : Int) ≤ c1 + c2 + c3 := by omega
    exact_mod_cast this
  have q2 : ((c1 + c2 + c3 : Int) : ℚ) ≤ 98304 := by
    have : c1 + c2 + c3 ≤ (98304 : Int) := by omega
    exact_mod_cast this
  rw [abs_le]
  push_cast at q1 q2 ⊢
  constructor <;> linarith

theorem chorusWet_bound (sinf : ℚ → ℚ) (s : Engine) :
    |chorusWet sinf s| ≤ ((14746 : Int) : ℚ) := by
  unfold chorusWet
  exact wet_of_three _ _ _ (castSint16_abs _) (castSint16_abs _) (castSint16_abs _)

/-- With a sine in `[-1, 1]` the vibrato gain lies in `[31/32, 33/32]`. -/
theorem vibratoGain_range (sinf : ℚ → ℚ) (ph : ℚ) (h1 : -1 ≤ sinf ph) (h2 : sinf ph ≤ 1) :
    |vibratoGain sinf ph| ≤ 33 / 32 := by
  have c : f32 (3 / 100) = 16106127 / 536870912 := by decide!
  have hv1 : f32 (sinf ph * f32 (3 / 100)) ≤ ((1 : Int) : ℚ) / 2 ^ 5 :=
    f32_le_dyadic 1 5 (by norm_num) (by norm_num) (by rw [c]; push_cast; nlinarith)
  have hv0 : ((-1 : Int) : ℚ) / 2 ^ 5 ≤ f32 (sinf ph * f32 (3 / 100)) :=
    f32_ge_dyadic (-1) 5 (by norm_num) (by norm_num) (by rw [c]; push_cast; nlinarith)
  have hg1 : vibratoGain sinf ph ≤ ((33 : Int) : ℚ) / 2 ^ 5 :=
    f32_le_dyadic 33 5 (by norm_num) (by norm_num)
      (by rw [f32_one]; push_cast at hv1 ⊢; linarith)
  have hg0 : ((31 : Int) : ℚ) / 2 ^ 5 ≤ vibratoGain sinf ph :=
    f32_ge_dyadic 31 5 (by norm_num) (by norm_num)
      (by rw [f32_one]; push_cast at hv0 ⊢; linarith)
  push_cast at hg0 hg1
  rw [abs_le]
  constructor <;> linarith

theorem echo_step (a : Acc) (hen : a.s.echo_enabled = true)
    (hcell : isSint16 (a.s.echo_buffer a.s.echo_pos)) (B : Int) (hB : 0 ≤ B)
    (hB2 : B + 9831 ≤ 16777216) (h : |a.mixed_left| ≤ B ∧ |a.mixed_right| ≤ B) :
    |(echoStage a).mixed_left| ≤ B + 9831 ∧ |(echoStage a).mixed_right| ≤ B + 9831 := by
  obtain ⟨e1, e2⟩ := echoStage_mixed a hen
  rw [e1, e2]
  exact ⟨addAssign_bound _ _ B 9831 hB (by norm_num) hB2 h.1 (echoWet_bound _ hcell),
    addAssign_bound _ _ B 9831 hB (by norm_num) hB2 h.2 (echoWet_bound _ hcell)⟩

theorem reverb_step (a : Acc) (hen : a.s.reverb_enabled = true) (B : Int) (hB : 0 ≤ B)
    (hB2 : B + 32769 ≤ 16777216) (h : |a.mixed_left| ≤ B ∧ |a.mixed_right| ≤ B) :
    |(reverbStage a).mixed_left| ≤ B + 32769 ∧ |(reverbStage a).mixed_right| ≤ B + 32769 := by
  obtain ⟨e1, e2⟩ := reverbStage_mixed a hen
  rw [e1, e2]
  exact ⟨addAssign_bound _ _ B 32769 hB (by norm_num) hB2 h.1 (reverbWet_bound _),
    addAssign_bound _ _ B 32769 hB (by norm_num) hB2 h.2 (reverbWet_bound _)⟩

theorem chorus_step (sinf : ℚ → ℚ) (a : Acc) (hen : a.s.chorus_enabled = true) (B : Int)
    (hB : 0 ≤ B) (hB2 : B + 14746 ≤ 16777216)
    (h : |a.mixed_left| ≤ B ∧ |a.mixed_right| ≤ B) :
    |(chorusStage sinf a).mixed_left| ≤ B + 14746 ∧
    |(chorusStage sinf a).mixed_right| ≤ B + 14746 := by
  obtain ⟨e1, e2⟩ := chorusStage_mixed sinf a hen
  rw [e1, e2]
  exact ⟨addAssign_bound _ _ B 14746 hB (by norm_num) hB2 h.1 (chorusWet_bound sinf _),
    addAssign_bound _ _ B 14746 hB (by norm_num) hB2 h.2 (chorusWet_bound sinf _)⟩

theorem vibrato_step (sinf : ℚ → ℚ) (a : Acc) (hen : a.s.vibrato_enabled = true)
    (hsin : ∀ x, -1 ≤ sinf x ∧ sinf x ≤ 1) (B B2 : Int) (hB : 0 ≤ B) (hB1 : B ≤ 16777216)
    (hB2 : |B2| ≤ 16777216) (hBG : (B : ℚ) * (33 / 32) ≤ (B2 : ℚ))
    (h : |a.mixed_left| ≤ B ∧ |a.mixed_right| ≤ B) :
    |(vibratoStage sinf a).mixed_left| ≤ B2 ∧ |(vibratoStage sinf a).mixed_right| ≤ B2 := by
  obtain ⟨e1, e2⟩ := vibratoStage_eq sinf a hen
  have hg := vibratoGain_range sinf a.s.vibrato_phase (hsin _).1 (hsin _).2
  rw [e1, e2]
  exact ⟨mulAssign_bound _ _ _ B B2 hB hB1 hB2 hg hBG h.1,
    mulAssign_bound _ _ _ B B2 hB hB1 hB2 hg hBG h.2⟩

theorem tremolo_step (sinf : ℚ → ℚ) (a : Acc) (hen : a.s.tremolo_enabled = true)
    (hsin : ∀ x, -1 ≤ sinf x ∧ sinf x ≤ 1) (B : Int) (hB : 0 ≤ B) (hB1 : B ≤ 16777216)
    (h : |a.mixed_left| ≤ B ∧ |a.mixed_right| ≤ B) :
    |(tremoloStage sinf a).mixed_left| ≤ B ∧ |(tremoloStage sinf a).mixed_right| ≤ B := by
  obtain ⟨e1, e2⟩ := tremoloStage_eq sinf a hen
  obtain ⟨g0, g1⟩ := tremoloGain_range sinf a.s.tremolo_phase (hsin _).1 (hsin _).2
  have hg : |tremoloGain sinf a.s.tremolo_phase| ≤ 1 := by
    rw [abs_le]; constructor <;> linarith
  rw [e1, e2]
  exact ⟨mulAssign_bound _ _ 1 B B hB hB1 (by rw [abs_le]; constructor <;> omega) hg
      (by rw [mul_one]) h.1,
    mulAssign_bound _ _ 1 B B hB hB1 (by rw [abs_le]; constructor <;> omega) hg
      (by rw [mul_one]) h.2⟩

theorem stereo_step (a : Acc) (hen : a.s.stereo_enabled = true)
    (hcell : isSint16 (a.s.stereo_buffer a.s.stereo_pos)) (B : Int)
    (h : |a.mixed_left| ≤ B ∧ |a.mixed_right| ≤ B) :
    |(stereoStage a).mixed_left| ≤ B + 16384 ∧ |(stereoStage a).mixed_right| ≤ B + 16384 := by
  obtain ⟨q1, q2⟩ := half_exact (a.s.stereo_buffer a.s.stereo_pos) hcell.1 hcell.2
  obtain ⟨k, hk, k1, k2⟩ := tdiv_two_bound (a.s.stereo_buffer a.s.stereo_pos) 32768 16384
    (by norm_num) (by have := hcell.1; omega) (by have := hcell.2; omega)
  have e1 : (stereoStage a).mixed_left
      = a.mixed_left + truncQ (f32 (i2f (a.s.stereo_buffer a.s.stereo_pos) * f32 (1 / 2))) := by
    simp only [stereoStage, hen, if_true]
  have e2 : (stereoStage a).mixed_right
      = a.mixed_right + truncQ (f32 (i2f (a.s.stereo_buffer a.s.stereo_pos) * f32 (-1 / 2))) := by
    simp only [stereoStage, hen, if_true]
  obtain ⟨l1, l2⟩ := abs_le.1 h.1
  obtain ⟨r1, r2⟩ := abs_le.1 h.2
  rw [e1, e2, q1, q2, hk]
  constructor <;> rw [abs_le] <;> constructor <;> omega

theorem cellsSint16_init : cellsSint16 init := by
  intro i
  have z : isSint16 0 := by decide
  exact ⟨z, z, z, z, z, z, z, z, z, z⟩

/-- C22 (32-bit accumulation never overflows): with default parameters and all six effects
enabled, for every 16-bit input frame and every engine state whose delay lines hold 16-bit
values, whatever the phases (the sine being in `[-1, 1]`), the left and right accumulators have
magnitude at most 100000 after every stage (volume, echo, reverb, chorus, vibrato, tremolo,
stereo widening), hence stay within the signed 32-bit range. -/
theorem accumulators_bounded (sinf : ℚ → ℚ) (s : Engine) (inp : Int × Int)
    (hp : s.params = init.params) (ht : s.toggles = (true, true, true, true, true, true))
    (hc : cellsSint16 s) (h1 : isSint16 inp.1) (h2 : isSint16 inp.2)
    (hsin : ∀ x, -1 ≤ sinf x ∧ sinf x ≤ 1) :
    ∀ a ∈ [volumeStage s inp, echoStage (volumeStage s inp),
        reverbStage (echoStage (volumeStage s inp)),
        chorusStage sinf (reverbStage (echoStage (volumeStage s inp))),
        vibratoStage sinf (chorusStage sinf (reverbStage (echoStage (volumeStage s inp)))),
        tremoloStage sinf (vibratoStage sinf (chorusStage sinf (reverbStage (echoStage
          (volumeStage s inp))))),
        frameAcc sinf s inp],
      (|a.mixed_left| ≤ 100000 ∧ |a.mixed_right| ≤ 100000) ∧
      (-2147483648 ≤ a.mixed_left ∧ a.mixed_left ≤ 2147483647) ∧
      (-2147483648 ≤ a.mixed_right ∧ a.mixed_right ≤ 2147483647) := by
  have hv : s.global_volume = f32 (13 / 20) := congrArg (fun t => t.2.2.2.2.2.2.2.1) hp
  have tg1 : (echoStage (volumeStage s inp)).s.toggles = s.toggles := by simp [volumeStage_s]
  have tg2 : (reverbStage (echoStage (volumeStage s inp))).s.toggles = s.toggles := by
    simp [volumeStage_s]
  have tg3 : (chorusStage sinf (reverbStage (echoStage (volumeStage s inp)))).s.toggles
      = s.toggles := by simp [volumeStage_s]
  have tg4 : (vibratoStage sinf (chorusStage sinf (reverbStage (echoStage
      (volumeStage s inp))))).s.toggles = s.toggles := by simp [volumeStage_s]
  have tg5 : (tremoloStage sinf (vibratoStage sinf (chorusStage sinf (reverbStage (echoStage
      (volumeStage s inp)))))).s.toggles = s.toggles := by simp [volumeStage_s]
  have sp5 : (tremoloStage sinf (vibratoStage sinf (chorusStage sinf (reverbStage (echoStage
      (volumeStage s inp)))))).s.stereoPart = s.stereoPart := by simp [volumeStage_s]
  rw [ht] at tg1 tg2 tg3 tg4 tg5
  simp only [Engine.toggles, Prod.mk.injEq] at ht tg1 tg2 tg3 tg4 tg5
  simp only [Engine.stereoPart, Prod.mk.injEq] at sp5
  have b0 : |(volumeStage s inp).mixed_left| ≤ 21299 ∧
      |(volumeStage s inp).mixed_right| ≤ 21299 := by
    have l := dry_default_range inp.1 h1
    have r := dry_default_range inp.2 h2
    show |castSint16 (f32 (i2f inp.1 * s.global_volume))| ≤ 21299 ∧
      |castSint16 (f32 (i2f inp.2 * s.global_volume))| ≤ 21299
    rw [hv]
    constructor <;> rw [abs_le] <;> constructor <;> omega
  have b1 := echo_step (volumeStage s inp) ht.1 (hc _).1 21299 (by norm_num) (by norm_num) b0
  have b2 := reverb_step _ tg1.2.1 31130 (by norm_num) (by norm_num)
    ⟨le_trans b1.1 (by norm_num), le_trans b1.2 (by norm_num)⟩
  have b3 := chorus_step sinf _ tg2.2.2.1 63899 (by norm_num) (by norm_num)
    ⟨le_trans b2.1 (by norm_num), le_trans b2.2 (by norm_num)⟩
  have b4 := vibrato_step sinf _ tg3.2.2.2.1 hsin 78645 81103 (by norm_num) (by norm_num)
    (by norm_num) (by norm_num) ⟨le_trans b3.1 (by norm_num), le_trans b3.2 (by norm_num)⟩
  have b5 := tremolo_step sinf _ tg4.2.2.2.2.1 hsin 81103 (by norm_num) (by norm_num) b4
  have hcell : isSint16 ((tremoloStage sinf (vibratoStage sinf (chorusStage sinf (reverbStage
      (echoStage (volumeStage s inp)))))).s.stereo_buffer
      (tremoloStage sinf (vibratoStage sinf (chorusStage sinf (reverbStage
      (echoStage (volumeStage s inp)))))).s.stereo_pos) := by
    rw [sp5.1, sp5.2]
    exact (hc _).2.2.2.2.2.2.2.2.2
  have b6 := stereo_step _ tg5.2.2.2.2.2 hcell 81103 b5
  have fin : ∀ a : Acc, ∀ B : Int, B ≤ 100000 → |a.mixed_left| ≤ B ∧ |a.mixed_right| ≤ B →
      (|a.mixed_left| ≤ 100000 ∧ |a.mixed_right| ≤ 100000) ∧
      (-2147483648 ≤ a.mixed_left ∧ a.mixed_left ≤ 2147483647) ∧
      (-2147483648 ≤ a.mixed_right ∧ a.mixed_right ≤ 2147483647) := by
    intro a B hB h
    obtain ⟨l1, l2⟩ := abs_le.1 h.1
    obtain ⟨r1, r2⟩ := abs_le.1 h.2
    refine ⟨⟨by omega, by omega⟩, ⟨by omega, by omega⟩, ⟨by omega, by omega⟩⟩
  intro a ha
  simp only [List.mem_cons, List.mem_singleton, List.not_mem_nil, or_false] at ha
  rcases ha with ha | ha | ha | ha | ha | ha | ha <;> subst ha
  · exact fin _ 21299 (by norm_num) b0
  · exact fin _ (21299 + 9831) (by norm_num) b1
  · exact fin _ (31130 + 32769) (by norm_num) b2
  · exact fin _ (63899 + 14746) (by norm_num) b3
  · exact fin _ 81103 (by norm_num) b4
  · exact fin _ 81103 (by norm_num) b5
  · exact fin _ (81103 + 16384) (by norm_num) b6

/-- Witness for C22: the initial state, a full-scale frame and an oscillator reading of 1. -/
theorem accumulators_bounded_witness :
    (|(frameAcc (fun _ => 1) init (32767, -32768)).mixed_left| ≤ 100000 ∧
      |(frameAcc (fun _ => 1) init (32767, -32768)).mixed_right| ≤ 100000) ∧
    (-2147483648 ≤ (frameAcc (fun _ => 1) init (32767, -32768)).mixed_left ∧
      (frameAcc (fun _ => 1) init (32767, -32768)).mixed_left ≤ 2147483647) ∧
    (-2147483648 ≤ (frameAcc (fun _ => 1) init (32767, -32768)).mixed_right ∧
      (frameAcc (fun _ => 1) init (32767, -32768)).mixed_right ≤ 2147483647) :=
  accumulators_bounded (fun _ => 1) init (32767, -32768) rfl rfl
    cellsSint16_init
    (by decide) (by decide) (fun _ => ⟨by norm_num, by norm_num⟩)
    (frameAcc (fun _ => 1) init (32767, -32768)) (by simp)

/-! ## Reverb write-back out of the 16-bit range -/

theorem frame_reverb_lines (sinf : ℚ → ℚ) (s : Engine) (inp : Int × Int)
    (hr : s.reverb_enabled = true) :
    (frame sinf s inp).1.reverbLine1
        = lineWrite REVERB_DELAY_1 s.reverbLine1 (reverbInput (volumeStage s inp)) ∧
    (frame sinf s inp).1.reverbLine2
        = lineWrite REVERB_DELAY_2 s.reverbLine2 (reverbInput (volumeStage s inp)) ∧
    (frame sinf s inp).1.reverbLine3
        = lineWrite REVERB_DELAY_3 s.reverbLine3 (reverbInput (volumeStage s inp)) ∧
    (frame sinf s inp).1.reverbLine4
        = lineWrite REVERB_DELAY_4 s.reverbLine4 (reverbInput (volumeStage s inp)) ∧
    (frame sinf s inp).1.reverbLine5
        = lineWrite REVERB_DELAY_5 s.reverbLine5 (reverbInput (volumeStage s inp)) := by
  have h := frame_reverbPart sinf s inp
  have ht : (echoStage (volumeStage s inp)).s.toggles = s.toggles := by simp [volumeStage_s]
  have hp : (echoStage (volumeStage s inp)).s.params = s.params := by simp [volumeStage_s]
  have hrp : (echoStage (volumeStage s inp)).s.reverbPart = s.reverbPart := by
    simp [volumeStage_s]
  have hen : (echoStage (volumeStage s inp)).s.reverb_enabled = true := by
    have : (echoStage (volumeStage s inp)).s.reverb_enabled = s.reverb_enabled :=
      congrArg (fun t => t.2.1) ht
    rw [this, hr]
  have hin : reverbInput (echoStage (volumeStage s inp)) = reverbInput (volumeStage s inp) := by
    have hfb : (echoStage (volumeStage s inp)).s.reverb_feedback = s.reverb_feedback :=
      congrArg (fun t => t.2.1) hp
    unfold reverbInput
    rw [(echoStage_samples _).1, (echoStage_samples _).2, reverbSum_congr hrp hp, hfb]
    rfl
  rw [reverbStage_write _ hen, hin] at h
  simp only [Engine.reverbPart, Prod.mk.injEq] at h hrp
  obtain ⟨⟨h1, p1⟩, ⟨h2, p2⟩, ⟨h3, p3⟩, ⟨h4, p4⟩, ⟨h5, p5⟩⟩ := h
  obtain ⟨⟨r1, q1⟩, ⟨r2, q2⟩, ⟨r3, q3⟩, ⟨r4, q4⟩, ⟨r5, q5⟩⟩ := hrp
  simp only [r1, q1, r2, q2, r3, q3, r4, q4, r5, q5] at h1 p1 h2 p2 h3 p3 h4 p4 h5 p5
  simp only [Engine.reverbLine1, Engine.reverbLine2, Engine.reverbLine3, Engine.reverbLine4,
    Engine.reverbLine5, lineWrite, h1, h2, h3, h4, h5, p1, p2, p3, p4, p5, and_self]

theorem lineWrite_read (N : Int) (l : (Int → Int) × Int) (v : Int) :
    (lineWrite N l v).1 l.2 = v :=
  Function.update_same _ _ _

theorem stateAt_params (sinf : ℚ → ℚ) (s : Engine) (x : Nat → Int × Int) (t : Nat) :
    (stateAt sinf s x t).params = s.params ∧ (stateAt sinf s x t).toggles = s.toggles := by
  induction t with
  | zero => exact ⟨rfl, rfl⟩
  | succ t ih =>
    exact ⟨(frame_params sinf _ _).trans ih.1, (frame_toggles sinf _ _).trans ih.2⟩

theorem stateAt_congr (sinf : ℚ → ℚ) (s : Engine) (x y : Nat → Int × Int) (t : Nat)
    (h : ∀ k, k < t → x k = y k) : stateAt sinf s x t = stateAt sinf s y t := by
  induction t with
  | zero => rfl
  | succ t ih =>
    show (frame sinf (stateAt sinf s x t) (x t)).1 = (frame sinf (stateAt sinf s y t) (y t)).1
    rw [ih (fun k hk => h k (Nat.lt_succ_of_lt hk)), h t (Nat.lt_succ_self t)]

theorem reachableDefault_stateAt (sinf : ℚ → ℚ) (s : Engine) (x : Nat → Int × Int)
    (hs : ReachableDefault sinf s) (hx : ∀ k, isSint16 (x k).1 ∧ isSint16 (x k).2) (t : Nat) :
    ReachableDefault sinf (stateAt sinf s x t) := by
  induction t with
  | zero => exact hs
  | succ t ih => exact ReachableDefault.frame _ _ ih (hx t).1 (hx t).2

/-- The state after a block of `n` equal frames. -/
theorem audio_effect_replicate (sinf : ℚ → ℚ) (s : Engine) (x : Int × Int) (n : Nat) :
    (audio_effect sinf s (List.replicate n x)).1 = stateAt sinf s (fun _ => x) n := by
  rw [audio_effect_state, runFrames_eq_stateAt, List.length_replicate]
  apply stateAt_congr
  intro k hk
  rw [List.getD_eq_getElem _ _ (by simpa using hk)]
  simp

/-- The written value depends on the cells read, the parameters and the input frame only. -/
theorem reverbInput_congr (s t : Engine) (inp : Int × Int)
    (hr : reverbReads s = reverbReads t) (hp : s.params = t.params) :
    reverbPre (volumeStage s inp) = reverbPre (volumeStage t inp) ∧
    reverbInput (volumeStage s inp) = reverbInput (volumeStage t inp) := by
  simp only [reverbReads, List.cons.injEq, and_true] at hr
  obtain ⟨r1, r2, r3, r4, r5⟩ := hr
  simp only [Engine.params, Prod.mk.injEq] at hp
  obtain ⟨-, p2, p3, -, -, -, -, p8, -, -⟩ := hp
  have hsum : reverbSum s = reverbSum t := by
    simp only [reverbSum, r1, r2, r3, r4, r5, p3]
  simp only [reverbPre, reverbInput, volumeStage, hsum, p2, p8, and_self]

/-- The cells the reverb block reads at frame `t` of the full-scale stream. -/
theorem fullScale_reads (sinf : ℚ → ℚ) (t : Nat) :
    reverbReads (stateAt sinf init (fun _ => (32767, 32767)) t)
      = [if t < 2205 then 0 else fullScaleWrite sinf (t - 2205),
          if t < 4410 then 0 else fullScaleWrite sinf (t - 4410),
          if t < 6610 then 0 else fullScaleWrite sinf (t - 6610),
          if t < 1764 then 0 else fullScaleWrite sinf (t - 1764),
          if t < 3675 then 0 else fullScaleWrite sinf (t - 3675)] := by
  have P0 : init.reverb_enabled = true := rfl
  have hP : ∀ (s : Engine) (inp : Int × Int), s.reverb_enabled = true →
      (frame sinf s inp).1.reverb_enabled = true :=
    fun s inp h => (frame_reverb_enabled sinf s inp).trans h
  have d1 : REVERB_DELAY_1 = ((2205 : Nat) : Int) := by decide
  have d2 : REVERB_DELAY_2 = ((4410 : Nat) : Int) := by decide
  have d3 : REVERB_DELAY_3 = ((6610 : Nat) : Int) := by decide
  have d4 : REVERB_DELAY_4 = ((1764 : Nat) : Int) := by decide
  have d5 : REVERB_DELAY_5 = ((3675 : Nat) : Int) := by decide
  have l1 := (line_of_frames sinf (fun _ => (32767, 32767)) init Engine.reverbLine1 2205
    (fun s inp => reverbInput (volumeStage s inp)) (fun s => s.reverb_enabled = true) P0 hP
    (fun s inp h => by rw [← d1]; exact (frame_reverb_lines sinf s inp h).1) rfl t).2
  have l2 := (line_of_frames sinf (fun _ => (32767, 32767)) init Engine.reverbLine2 4410
    (fun s inp => reverbInput (volumeStage s inp)) (fun s => s.reverb_enabled = true) P0 hP
    (fun s inp h => by rw [← d2]; exact (frame_reverb_lines sinf s inp h).2.1) rfl t).2
  have l3 := (line_of_frames sinf (fun _ => (32767, 32767)) init Engine.reverbLine3 6610
    (fun s inp => reverbInput (volumeStage s inp)) (fun s => s.reverb_enabled = true) P0 hP
    (fun s inp h => by rw [← d3]; exact (frame_reverb_lines sinf s inp h).2.2.1) rfl t).2
  have l4 := (line_of_frames sinf (fun _ => (32767, 32767)) init Engine.reverbLine4 1764
    (fun s inp => reverbInput (volumeStage s inp)) (fun s => s.reverb_enabled = true) P0 hP
    (fun s inp h => by rw [← d4]; exact (frame_reverb_lines sinf s inp h).2.2.2.1) rfl t).2
  have l5 := (line_of_frames sinf (fun _ => (32767, 32767)) init Engine.reverbLine5 3675
    (fun s inp => reverbInput (volumeStage s inp)) (fun s => s.reverb_enabled = true) P0 hP
    (fun s inp h => by rw [← d5]; exact (frame_reverb_lines sinf s inp h).2.2.2.2) rfl t).2
  have e1 := lineAfter_read 2205 (by norm_num) (fullScaleWrite sinf) t
  have e2 := lineAfter_read 4410 (by norm_num) (fullScaleWrite sinf) t
  have e3 := lineAfter_read 6610 (by norm_num) (fullScaleWrite sinf) t
  have e4 := lineAfter_read 1764 (by norm_num) (fullScaleWrite sinf) t
  have e5 := lineAfter_read 3675 (by norm_num) (fullScaleWrite sinf) t
  have f1 : (stateAt sinf init (fun _ => (32767, 32767)) t).reverb_buffer1
      (stateAt sinf init (fun _ => (32767, 32767)) t).reverb_pos1
      = (lineAfter 2205 (fullScaleWrite sinf) t).1 (lineAfter 2205 (fullScaleWrite sinf) t).2 :=
    congrArg (fun l => l.1 l.2) l1
  have f2 : (stateAt sinf init (fun _ => (32767, 32767)) t).reverb_buffer2
      (stateAt sinf init (fun _ => (32767, 32767)) t).reverb_pos2
      = (lineAfter 4410 (fullScaleWrite sinf) t).1 (lineAfter 4410 (fullScaleWrite sinf) t).2 :=
    congrArg (fun l => l.1 l.2) l2
  have f3 : (stateAt sinf init (fun _ => (32767, 32767)) t).reverb_buffer3
      (stateAt sinf init (fun _ => (32767, 32767)) t).reverb_pos3
      = (lineAfter 6610 (fullScaleWrite sinf) t).1 (lineAfter 6610 (fullScaleWrite sinf) t).2 :=
    congrArg (fun l => l.1 l.2) l3
  have f4 : (stateAt sinf init (fun _ => (32767, 32767)) t).reverb_buffer4
      (stateAt sinf init (fun _ => (32767, 32767)) t).reverb_pos4
      = (lineAfter 1764 (fullScaleWrite sinf) t).1 (lineAfter 1764 (fullScaleWrite sinf) t).2 :=
    congrArg (fun l => l.1 l.2) l4
  have f5 : (stateAt sinf init (fun _ => (32767, 32767)) t).reverb_buffer5
      (stateAt sinf init (fun _ => (32767, 32767)) t).reverb_pos5
      = (lineAfter 3675 (fullScaleWrite sinf) t).1 (lineAfter 3675 (fullScaleWrite sinf) t).2 :=
    congrArg (fun l => l.1 l.2) l5
  unfold reverbReads
  rw [f1, f2, f3, f4, f5, e1, e2, e3, e4, e5]

/-- The value written at frame `t`, from the cells read at frame `t`. -/
theorem fullScaleWrite_eq (sinf : ℚ → ℚ) (t : Nat) (b1 b2 b3 b4 b5 : Int)
    (h : reverbReads (stateAt sinf init (fun _ => (32767, 32767)) t) = [b1, b2, b3, b4, b5]) :
    reverbPre (volumeStage (stateAt sinf init (fun _ => (32767, 32767)) t) (32767, 32767))
      = reverbPre (volumeStage (reverbCells b1 b2 b3 b4 b5) (32767, 32767)) ∧
    fullScaleWrite sinf t
      = reverbInput (volumeStage (reverbCells b1 b2 b3 b4 b5) (32767, 32767)) :=
  reverbInput_congr _ _ _ (h.trans rfl) (stateAt_params sinf init _ t).1

theorem fullScaleWrite_early (sinf : ℚ → ℚ) (t : Nat) (ht : t < 1764) :
    fullScaleWrite sinf t = 21298 := by
  have h := fullScale_reads sinf t
  rw [if_pos (by omega), if_pos (by omega), if_pos (by omega), if_pos ht, if_pos (by omega)] at h
  rw [(fullScaleWrite_eq sinf t 0 0 0 0 0 h).2]
  decide!

theorem fullScaleWrite_2205 (sinf : ℚ → ℚ) : fullScaleWrite sinf 2205 = 27900 := by
  have h := fullScale_reads sinf 2205
  rw [if_neg (by norm_num), if_pos (by norm_num), if_pos (by norm_num), if_neg (by norm_num),
    if_pos (by norm_num), fullScaleWrite_early sinf _ (by norm_num),
    fullScaleWrite_early sinf _ (by norm_num)] at h
  rw [(fullScaleWrite_eq sinf 2205 _ _ _ _ _ h).2]
  decide!

theorem fullScaleWrite_2646 (sinf : ℚ → ℚ) : fullScaleWrite sinf 2646 = 27900 := by
  have h := fullScale_reads sinf 2646
  rw [if_neg (by norm_num), if_pos (by norm_num), if_pos (by norm_num), if_neg (by norm_num),
    if_pos (by norm_num), fullScaleWrite_early sinf _ (by norm_num),
    fullScaleWrite_early sinf _ (by norm_num)] at h
  rw [(fullScaleWrite_eq sinf 2646 _ _ _ _ _ h).2]
  decide!

theorem fullScale_reads_4410 (sinf : ℚ → ℚ) :
    reverbReads (stateAt sinf init (fun _ => (32767, 32767)) 4410)
      = [27900, 21298, 0, 27900, 21298] := by
  have h := fullScale_reads sinf 4410
  rw [if_neg (by norm_num), if_neg (by norm_num), if_pos (by norm_num), if_neg (by norm_num),
    if_neg (by norm_num)] at h
  have e1 : 4410 - 2205 = 2205 := by norm_num
  have e2 : 4410 - 4410 = 0 := by norm_num
  have e4 : 4410 - 1764 = 2646 := by norm_num
  have e5 : 4410 - 3675 = 735 := by norm_num
  rw [e1, e2, e4, e5, fullScaleWrite_2205, fullScaleWrite_2646,
    fullScaleWrite_early sinf 0 (by norm_num), fullScaleWrite_early sinf 735 (by norm_num)] at h
  exact h

/-- C21, evaluated on the code: after one block of 4410 full-scale frames `(32767, 32767)`
processed from the initial state (default parameters, all effects on), the reverb block reads
27900, 21298, 0, 27900, 21298 in the next full-scale frame, the five-tap sum is 27093, and the
value `trunc((l + r) / 2 + reverb_sum * reverb_feedback)` is `21298 + 13546 = 34844`, above
32767; narrowed to 16 bits it is stored as `34844 - 65536 = -30692`. -/
theorem reverb_input_overflow (sinf : ℚ → ℚ) :
    ReachableDefault sinf (audio_effect sinf init (List.replicate 4410 (32767, 32767))).1 ∧
    (audio_effect sinf init (List.replicate 4410 (32767, 32767))).1.reverb_enabled = true ∧
    (audio_effect sinf init (List.replicate 4410 (32767, 32767))).1.params = init.params ∧
    reverbReads (audio_effect sinf init (List.replicate 4410 (32767, 32767))).1
      = [27900, 21298, 0, 27900, 21298] ∧
    reverbSum (audio_effect sinf init (List.replicate 4410 (32767, 32767))).1 = 27093 ∧
    reverbPre (volumeStage (audio_effect sinf init (List.replicate 4410 (32767, 32767))).1
      (32767, 32767)) = 34844 ∧
    reverbInput (volumeStage (audio_effect sinf init (List.replicate 4410 (32767, 32767))).1
      (32767, 32767)) = -30692 ∧
    (frame sinf (audio_effect sinf init (List.replicate 4410 (32767, 32767))).1
      (32767, 32767)).1.reverbLine1.1
        (audio_effect sinf init (List.replicate 4410 (32767, 32767))).1.reverb_pos1
      = -30692 := by
  rw [audio_effect_replicate]
  have hreads := fullScale_reads_4410 sinf
  have hpar := stateAt_params sinf init (fun _ => (32767, 32767)) 4410
  have htg := hpar.2
  have hpa := hpar.1
  simp only [Engine.toggles, Prod.mk.injEq] at htg
  simp only [Engine.params, Prod.mk.injEq] at hpa
  have hen : (stateAt sinf init (fun _ => (32767, 32767)) 4410).reverb_enabled = true :=
    htg.2.1.trans rfl
  obtain ⟨w1, w2⟩ := fullScaleWrite_eq sinf 4410 _ _ _ _ _ hreads
  have hsum : reverbSum (stateAt sinf init (fun _ => (32767, 32767)) 4410)
      = reverbSum (reverbCells 27900 21298 0 27900 21298) := by
    have hr := hreads
    simp only [reverbReads, List.cons.injEq, and_true] at hr
    obtain ⟨r1, r2, r3, r4, r5⟩ := hr
    have p3 : (stateAt sinf init (fun _ => (32767, 32767)) 4410).reverb_damping
        = init.reverb_damping := hpa.2.2.1
    simp only [reverbSum, r1, r2, r3, r4, r5, p3]
    rfl
  have hw : reverbInput (volumeStage (stateAt sinf init (fun _ => (32767, 32767)) 4410)
      (32767, 32767)) = -30692 := by
    have : fullScaleWrite sinf 4410 = -30692 := by rw [w2]; decide!
    exact this
  refine ⟨reachableDefault_stateAt sinf init _ ReachableDefault.init
      (fun _ => ⟨by decide, by decide⟩) 4410, hen, hpar.1, hreads, ?_, ?_, hw, ?_⟩
  · rw [hsum]; decide!
  · rw [w1]; decide!
  · have key : ∀ S : Engine, S.reverb_enabled = true →
        reverbInput (volumeStage S (32767, 32767)) = -30692 →
        (frame sinf S (32767, 32767)).1.reverbLine1.1 S.reverb_pos1 = -30692 := by
      intro S k1 k2
      rw [(frame_reverb_lines sinf S (32767, 32767) k1).1, k2]
      exact lineWrite_read _ _ _
    exact key _ hen hw

end EchoMidi
